import Mathlib

/-!
# usbzone: a shallow embedding of `main/usbzone.c`

The firmware serves the files of a USB mass-storage device over HTTP.  This
development embeds the request handlers and the device lifecycle code of
`usbzone.c` as Lean functions and proves properties of them.

Conventions of the embedding

* A C string or character buffer is a `List Char`, one `Char` per byte.  A
  pointer into a buffer is the list of the bytes from the pointed byte
  onwards, so `p + n` is `p.drop n`.  The end of the list reads as a NUL.
* File contents and decoded payloads are `List Nat`, one `Nat` per byte.
* The globals `USBAddr`, `USBHandle`, `VFSHandle`, `ourTime` and the mounted
  file system form the `World`; a handler maps a `World` to an `Outcome`
  holding the new `World`, the HTTP calls made on the request and the
  library calls made, in order.
* What the C code leaves indeterminate or gets from the platform (memory
  that was never written, whether a library call succeeds) is an explicit
  input, collected in `Env` and `MscDriver`.
* `malloc` is taken to succeed.
-/

namespace UsbZone

/-! ## Constants -/

/-- The macro `NULLCH`: the NUL character. -/
def NULLCH : Char := Char.ofNat 0

/-- The macro `MAX_DIR_LEN`, defined as `MAXNAMLEN` of `<dirent.h>`. -/
def MAX_DIR_LEN : Nat := 255

/-- The macro `MAX_RESP_LEN`. -/
def MAX_RESP_LEN : Nat := 1024

/-- The macro `MAX_CHUNK_LEN`. -/
def MAX_CHUNK_LEN : Nat := 1024

/-- The macro `BUFFER_PAD`. -/
def BUFFER_PAD : Nat := 64

/-- The macro `MNT_PATH`. -/
def MNT_PATH : List Char := "/usb".toList

/-- The macro `MAX_MSC_DEVICES` (defined by the source, used nowhere in it). -/
def MAX_MSC_DEVICES : Nat := 1

/-! ## C library: strings -/

/-- The C string stored at a pointer: the bytes before the first NUL. -/
def cstr (s : List Char) : List Char := s.takeWhile (fun c => c ≠ NULLCH)

/-- Library `strlen`. -/
def strlen (s : List Char) : Nat := (cstr s).length

/-- Library `strstr(data, key)` for a NUL-free `key`: the pointer to the first
occurrence of `key` in the C string at `data`, `none` for `NULL`. -/
def strstr : List Char → List Char → Option (List Char)
  | [], key => if key.isEmpty then some [] else none
  | c :: s, key =>
    if key.isPrefixOf (c :: s) then some (c :: s)
    else if c = NULLCH then none
    else strstr s key

/-- Library `strchr(data, ch)` for `ch` other than NUL. -/
def strchr : List Char → Char → Option (List Char)
  | [], _ => none
  | c :: s, ch =>
    if c = ch then some (c :: s)
    else if c = NULLCH then none
    else strchr s ch

/-- Library `isspace` in the C locale. -/
def isspace (c : Char) : Bool :=
  c = ' ' || c = '\t' || c = '\n' || c = Char.ofNat 11 || c = Char.ofNat 12 || c = '\r'

/-- Value of a hexadecimal digit. -/
def hexValue (c : Char) : Option Nat :=
  if '0' ≤ c ∧ c ≤ '9' then some (c.toNat - 48)
  else if 'a' ≤ c ∧ c ≤ 'f' then some (c.toNat - 87)
  else if 'A' ≤ c ∧ c ≤ 'F' then some (c.toNat - 55)
  else none

/-- Library call `sscanf(s, "%2x", &digit)`: the value stored in `digit`, or
`none` when no conversion is made and `digit` is left as it was.  White space
is skipped, then at most two characters are read: an optional sign and
hexadecimal digits, as ISO C describes the `x` conversion with a field width.
A `0` followed by `x` is read as the number 0, as the BSD-derived scanf of
newlib and glibc do. -/
def sscanf_2x (s : List Char) : Option Int :=
  match (cstr s).dropWhile isspace with
  | [] => none
  | a :: rest =>
    if a = '+' ∨ a = '-' then
      match rest with
      | [] => none
      | b :: _ =>
        match hexValue b with
        | none => none
        | some v => if a = '-' then some (-(v : Int)) else some (v : Int)
    else
      match hexValue a with
      | none => none
      | some v =>
        match rest with
        | [] => some (v : Int)
        | b :: _ =>
          match hexValue b with
          | some u => some ((16 * v + u : Nat) : Int)
          | none => some (v : Int)

/-- Decimal digits at the start of a string, accumulated onto `acc`. -/
def digitsValue : List Char → Nat → Nat
  | [], acc => acc
  | c :: s, acc => if '0' ≤ c ∧ c ≤ '9' then digitsValue s (10 * acc + (c.toNat - 48)) else acc

/-- Largest `int` (32 bits). -/
def INT_MAX : Int := 2147483647

/-- Smallest `int` (32 bits). -/
def INT_MIN : Int := -2147483648

/-- Library `atoi`, as `(int) strtol(s, NULL, 10)` with a 32-bit `long`: white
space, an optional sign, decimal digits; out-of-range values saturate. -/
def atoi (s : List Char) : Int :=
  let t := (cstr s).dropWhile isspace
  let v : Int :=
    match t with
    | [] => 0
    | a :: rest =>
      if a = '-' then -(digitsValue rest 0 : Int)
      else if a = '+' then (digitsValue rest 0 : Int)
      else (digitsValue t 0 : Int)
  if v > INT_MAX then INT_MAX else if v < INT_MIN then INT_MIN else v

/-- Conversion of an `int` to a `char`: the low eight bits. -/
def intToChar (v : Int) : Char := Char.ofNat (v % 256).toNat

/-- Conversion of an `int` to the 32-bit `size_t`. -/
def intToSize (v : Int) : Nat := (v % 4294967296).toNat

/-- Library `snprintf(buf, size, ...)` for an output `s`: at most `size - 1`
characters are stored. -/
def snprintf (size : Nat) (s : List Char) : List Char := s.take (size - 1)

/-! ## POST data -/

/-- Source `FindPostData`: pointer to the start of the POST data of `key`.
The search is `strstr(data, key)`; `newKey` is built and not used. -/
def FindPostData (data key : List Char) : Option (List Char) :=
  let _newKey := key ++ ['=']
  match strstr data key with
  | none => none
  | some keyPtr => some (keyPtr.drop (strlen key + 1))

/-- Source `FindPostDataLen`: the length of the field at `data`, up to the
first `&` or the terminator. -/
def FindPostDataLen (data : List Char) : Nat :=
  match strchr data '&' with
  | none => strlen data
  | some endPtr => data.length - endPtr.length

/-- The `while` loop of `ParsePostData`.  The first argument is the number of
bytes still to step over after a `%` (`srcData += 3`); `digit0` is the value
the uninitialised `digit` holds when `sscanf` converts nothing. -/
def ParsePostData.loop (digit0 : Int) : Nat → List Char → List Char
  | _, [] => []
  | skip + 1, _ :: rest => ParsePostData.loop digit0 skip rest
  | 0, c :: rest =>
    if c = NULLCH ∨ c = '&' then []
    else if c = '%' then
      intToChar ((sscanf_2x rest).getD digit0) :: ParsePostData.loop digit0 2 rest
    else c :: ParsePostData.loop digit0 0 rest

/-- Source `ParsePostData`: `none` for `false`, else the bytes stored in `dest`
before the terminating NUL. -/
def ParsePostData (digit0 : Int) (data key : List Char) : Option (List Char) :=
  match FindPostData data key with
  | none => none
  | some srcData => some (ParsePostData.loop digit0 0 srcData)

/-- The number of bytes that `ParsePostData` stores through `dest`: one for
each character it copies or decodes, and one for the terminating NUL
(`*dest = NULLCH`). -/
def ParsePostData.stored (digit0 : Int) (data key : List Char) : Option Nat :=
  (ParsePostData digit0 data key).map (fun dest => dest.length + 1)

/-! ## Mbed TLS: base64 -/

/-- Value of a base64 digit (`mbedtls_ct_base64_dec_value`), `none` for `-1`. -/
def base64_dec_value (c : Char) : Option Nat :=
  if 'A' ≤ c ∧ c ≤ 'Z' then some (c.toNat - 65)
  else if 'a' ≤ c ∧ c ≤ 'z' then some (c.toNat - 97 + 26)
  else if '0' ≤ c ∧ c ≤ '9' then some (c.toNat - 48 + 52)
  else if c = '+' then some 62
  else if c = '/' then some 63
  else none

/-- First pass of `mbedtls_base64_decode`: validity check.  Returns the number
`n` of digits and `=` signs and the number of `=` signs, `none` for an invalid
character.  `spaces` is the flag `spaces_present`. -/
def base64_first_pass : Bool → Nat → Nat → List Char → Option (Nat × Nat)
  | _, n, equals, [] => some (n, equals)
  | spaces, n, equals, c :: rest =>
    if c = ' ' then base64_first_pass true n equals rest
    else if c = '\r' ∧ rest.head? = some '\n' then base64_first_pass false n equals rest
    else if c = '\n' then base64_first_pass false n equals rest
    else if spaces then none
    else if c.toNat > 127 then none
    else if c = '=' then
      if equals + 1 > 2 then none else base64_first_pass false (n + 1) (equals + 1) rest
    else if equals ≠ 0 then none
    else
      match base64_dec_value c with
      | none => none
      | some _ => base64_first_pass false (n + 1) equals rest

/-- Second pass of `mbedtls_base64_decode`: the bytes stored through `dst`.
`x` is the 32-bit accumulator, `acc` is `accumulated_digits`. -/
def base64_second_pass : Nat → Nat → Nat → List Char → List Nat
  | _, _, _, [] => []
  | x, acc, equals, c :: rest =>
    if c = '\r' ∨ c = '\n' ∨ c = ' ' then base64_second_pass x acc equals rest
    else
      let equals1 := if c = '=' then equals + 1 else equals
      let x1 := (x * 64 + (if c = '=' then 0 else (base64_dec_value c).getD 0)) % 4294967296
      if acc + 1 = 4 then
        [x1 / 65536 % 256] ++ (if equals1 ≤ 1 then [x1 / 256 % 256] else [])
          ++ (if equals1 = 0 then [x1 % 256] else [])
          ++ base64_second_pass x1 0 equals1 rest
      else base64_second_pass x1 (acc + 1) equals1 rest

/-- Return value `MBEDTLS_ERR_BASE64_BUFFER_TOO_SMALL`. -/
def MBEDTLS_ERR_BASE64_BUFFER_TOO_SMALL : Int := -42

/-- Return value `MBEDTLS_ERR_BASE64_INVALID_CHARACTER`. -/
def MBEDTLS_ERR_BASE64_INVALID_CHARACTER : Int := -44

/-- What a call of `mbedtls_base64_decode` leaves behind. -/
structure Base64Result where
  /-- The return value. -/
  ret : Int
  /-- The value stored in `*olen`, `none` when nothing is stored. -/
  olen : Option Nat
  /-- The bytes stored through `dst`. -/
  out : List Nat

/-- Library `mbedtls_base64_decode(dst, dlen, olen, src, slen)`, after the Mbed
TLS 3.6 source that ESP-IDF v5.5.1 ships with: the first pass checks the input
and computes the output length, the second pass decodes.  `dstNull` says that
`dst` is `NULL`. -/
def mbedtls_base64_decode (dstNull : Bool) (dlen : Nat) (src : List Char) (slen : Nat) :
    Base64Result :=
  match base64_first_pass false 0 0 (src.take slen) with
  | none => { ret := MBEDTLS_ERR_BASE64_INVALID_CHARACTER, olen := none, out := [] }
  | some (n, equals) =>
    if (n - equals) % 4 = 1 then
      { ret := MBEDTLS_ERR_BASE64_INVALID_CHARACTER, olen := none, out := [] }
    else if n % 4 ≠ 0 then
      { ret := MBEDTLS_ERR_BASE64_INVALID_CHARACTER, olen := none, out := [] }
    else
      let len := n / 4 * 3 - equals
      if (len ≠ 0 ∧ dstNull) ∨ dlen < len then
        { ret := MBEDTLS_ERR_BASE64_BUFFER_TOO_SMALL, olen := some len, out := [] }
      else
        { ret := 0, olen := some len, out := base64_second_pass 0 0 0 (src.take slen) }

/-! ## The world: globals and the mounted file system -/

/-- Value of `d_type` for a directory, `DT_DIR` of the ESP-IDF `<sys/dirent.h>`. -/
def DT_DIR : Nat := 2

/-- Value of `d_type` for a regular file, `DT_REG` of the ESP-IDF `<sys/dirent.h>`. -/
def DT_REG : Nat := 1

/-- A directory entry as `readdir` returns it. -/
structure dirent where
  /-- The entry name. -/
  d_name : List Char
  /-- The entry type. -/
  d_type : Nat
  deriving DecidableEq, Repr

/-- The globals of `usbzone.c` and the file system behind the VFS.  A handle is
`none` for `NULL`. -/
structure World where
  /-- Global `USBAddr`. -/
  USBAddr : Nat
  /-- Global `USBHandle`. -/
  USBHandle : Option Nat
  /-- Global `VFSHandle`. -/
  VFSHandle : Option Nat
  /-- Global `ourTime.tv_sec`. -/
  ourTime : Int
  /-- The regular files, by the path handed to `fopen`. -/
  files : List Char → Option (List Nat)
  /-- The directories, by the path handed to `opendir`: the entries `readdir`
  returns in order, `none` when the directory cannot be opened. -/
  dirs : List Char → Option (List dirent)

/-- Broken-down time, the `struct tm` filled by `strptime`. -/
structure tm where
  /-- Seconds. -/
  tm_sec : Int
  /-- Minutes. -/
  tm_min : Int
  /-- Hours. -/
  tm_hour : Int
  /-- Day of the month. -/
  tm_mday : Int
  /-- Month. -/
  tm_mon : Int
  /-- Year. -/
  tm_year : Int
  deriving DecidableEq, Repr

/-- Driver type `msc_host_device_info_t`, the fields the source reads. -/
structure msc_host_device_info_t where
  /-- Number of sectors (32 bits). -/
  sector_count : Nat
  /-- Size of a sector (32 bits). -/
  sector_size : Nat
  /-- USB product id (16 bits). -/
  idProduct : Nat
  /-- USB vendor id (16 bits). -/
  idVendor : Nat
  /-- Manufacturer string (wide characters). -/
  iManufacturer : List Char
  /-- Product string (wide characters). -/
  iProduct : List Char
  /-- Serial number string (wide characters). -/
  iSerialNumber : List Char
  deriving DecidableEq, Repr

/-- What one run of a request handler takes from the platform. -/
structure Env where
  /-- Value of the uninitialised `digit` of `ParsePostData`. -/
  digit : Int
  /-- Bytes of the receive buffer after the terminating NUL. -/
  slack : List Char
  /-- The constant `BUFSIZ` of `<stdio.h>`. -/
  BUFSIZ : Nat
  /-- Library `strptime(s, format, &timeInfo)`: `none` for `NULL`. -/
  strptime : List Char → List Char → Option tm
  /-- Library `mktime`. -/
  mktime : tm → Int
  /-- Whether `fopen` returns a stream. -/
  fopen_ok : Bool
  /-- The number of bytes `fwrite` is able to accept. -/
  fwrite_max : Nat
  /-- The number of bytes of the file `fread` delivers before a read error,
  `none` when there is no read error. -/
  fread_fail : Option Nat
  /-- Return value of `msc_host_get_device_info`. -/
  info_err : Int
  /-- The device information it stores. -/
  info : msc_host_device_info_t
  /-- Library `wcstombs`: the multibyte string, `none` for a negative return value. -/
  wcstombs : List Char → Option (List Char)
  /-- The number of buffered bytes that `fflush` and `fclose` store in the file
  before a write error, `none` when there is no write error. -/
  fflush_fail : Option Nat := none

/-- A library call that a handler makes. -/
inductive Call where
  /-- Call `fopen(path, mode)` and whether it returned a stream. -/
  | fopen (path mode : List Char) (ok : Bool)
  /-- Call `fseek(handle, offset, SEEK_SET)`. -/
  | fseek (offset : Nat)
  /-- Call `fwrite` with the bytes requested and the number written. -/
  | fwrite (data : List Nat) (written : Nat)
  /-- Call `fread` and the number of bytes read. -/
  | fread (count : Nat)
  /-- Call `fflush`. -/
  | fflush
  /-- Call `fclose`. -/
  | fclose
  /-- Call `opendir(path)` and whether it returned a handle. -/
  | opendir (path : List Char) (ok : Bool)
  /-- Call `closedir`. -/
  | closedir
  /-- Call `settimeofday` with the seconds set. -/
  | settimeofday (seconds : Int)
  /-- Call `msc_host_get_device_info` and its return value. -/
  | msc_host_get_device_info (handle : Nat) (err : Int)
  /-- Call `msc_host_install_device` and its return value. -/
  | msc_host_install_device (address : Nat) (err : Int)
  /-- Call `msc_host_vfs_register` and its return value. -/
  | msc_host_vfs_register (handle : Nat) (err : Int)
  /-- Call `msc_host_uninstall_device` and its return value. -/
  | msc_host_uninstall_device (handle : Nat) (err : Int)
  /-- Call `msc_host_vfs_unregister` and its return value. -/
  | msc_host_vfs_unregister (handle : Nat) (err : Int)
  deriving DecidableEq, Repr

/-- A call on the HTTP request. -/
inductive Resp where
  /-- Call `httpd_resp_set_type`. -/
  | set_type (type : List Char)
  /-- Call `httpd_resp_set_hdr`. -/
  | set_hdr (field value : List Char)
  /-- Call `httpd_resp_send`. -/
  | send (body : List Char)
  /-- Call `httpd_resp_send_err`. -/
  | send_err (status : Nat) (msg : List Char)
  /-- Call `httpd_resp_send_chunk` with text; the empty chunk ends the response. -/
  | send_chunk (text : List Char)
  /-- Call `httpd_resp_send_chunk` with file bytes. -/
  | send_data (bytes : List Nat)
  deriving DecidableEq, Repr

/-- The result of a handler run. -/
structure Outcome where
  /-- The globals and the file system afterwards. -/
  world : World
  /-- The calls made on the request, in order. -/
  resp : List Resp
  /-- The library calls made, in order. -/
  calls : List Call
  /-- Whether `ESP_ERROR_CHECK` stopped the firmware during the run. -/
  aborted : Bool := false
  /-- Whether the run stored past the end of one of its buffers.  From that
  store on the C program has no defined behaviour; the other fields then say
  what the run does when the bytes stored past the end land in memory that
  nothing else uses. -/
  overrun : Bool := false

/-- The run `rest` after a store of `stored` bytes into a buffer of `size`
bytes: the run has overrun a buffer when the bytes do not fit. -/
def Outcome.storing (stored size : Nat) (rest : Outcome) : Outcome :=
  { rest with overrun := rest.overrun || decide (size < stored) }

/-- An HTTP request as the handlers see it. -/
structure httpd_req_t where
  /-- The body that `httpd_req_recv` delivers. -/
  content : List Char
  /-- Whether `httpd_req_recv` fails (negative return value). -/
  recv_fails : Bool
  /-- The query string of the URL, empty when there is none. -/
  query : List Char

/-- Library `httpd_req_recv(req, buf, buf_len)`: the return value and the bytes
stored in `buf`. -/
def httpd_req_recv (req : httpd_req_t) (buf_len : Nat) : Int × List Char :=
  if req.recv_fails then (-1, [])
  else (((req.content.take buf_len).length : Nat), req.content.take buf_len)

/-- Status `HTTPD_500_INTERNAL_SERVER_ERROR`. -/
def HTTPD_500_INTERNAL_SERVER_ERROR : Nat := 500

/-! ## Streams -/

/-- An open stream (`FILE*`). -/
structure FILE where
  /-- The path it was opened with. -/
  path : List Char
  /-- Opened in append mode: every write goes to the end of the file. -/
  append : Bool
  /-- The file position. -/
  pos : Nat
  /-- The bytes that `fwrite` has accepted and that are not in the file yet. -/
  buffer : List Nat := []

/-- The file store with the content of `path` replaced. -/
def setFile (files : List Char → Option (List Nat)) (path : List Char) (content : List Nat) :
    List Char → Option (List Nat) :=
  fun p => if p = path then some content else files p

/-- Library `fopen` for the modes `"wb"` (create or truncate), `"ab"` (create
or append) and `"rb"` (read an existing file). -/
def fopen (ok : Bool) (files : List Char → Option (List Nat)) (path mode : List Char) :
    (List Char → Option (List Nat)) × Option FILE :=
  if ¬ ok then (files, none)
  else if mode = "wb".toList then
    (setFile files path [], some { path := path, append := false, pos := 0 })
  else if mode = "ab".toList then
    (setFile files path ((files path).getD []), some { path := path, append := true, pos := 0 })
  else
    match files path with
    | none => (files, none)
    | some _ => (files, some { path := path, append := false, pos := 0 })

/-- Library `fseek(handle, offset, SEEK_SET)` with the `size_t` offset read as
a 32-bit `long`: a negative offset is refused. -/
def fseek (f : FILE) (offset : Nat) : FILE :=
  if offset < 2147483648 then { f with pos := offset } else f

/-- Bytes `data` stored into `old` at offset `pos`, a gap filled with zeros. -/
def writeAt (old : List Nat) (pos : Nat) (data : List Nat) : List Nat :=
  old.take pos ++ List.replicate (pos - old.length) 0 ++ data ++ old.drop (pos + data.length)

/-- Library `fwrite(data, 1, len, handle)` when the stream accepts at most
`max` bytes: the stream with the accepted bytes in its buffer, and the return
value.  The bytes reach the file in `fflush` or `fclose`. -/
def fwrite (max : Nat) (f : FILE) (data : List Nat) : FILE × Nat :=
  ({ f with buffer := f.buffer ++ data.take max }, (data.take max).length)

/-- Return value `EOF` of `<stdio.h>`. -/
def EOF : Int := -1

/-- Library `fflush(handle)`: the buffered bytes are stored in the file, all of
them, or the first `k` of them when a write error occurs after `k` bytes
(`fail = some k`); the buffer is empty afterwards.  In append mode the bytes
go to the end of the file whatever the file position.  The result is the file
store, the stream and the return value, 0 or `EOF`. -/
def fflush (fail : Option Nat) (files : List Char → Option (List Nat)) (f : FILE) :
    (List Char → Option (List Nat)) × FILE × Int :=
  let stored := f.buffer.take (fail.getD f.buffer.length)
  let old := (files f.path).getD []
  let new := if f.append then old ++ stored else writeAt old f.pos stored
  (if stored = [] then files else setFile files f.path new,
   { f with buffer := [], pos := f.pos + stored.length },
   if stored.length < f.buffer.length then EOF else 0)

/-- Library `fclose(handle)`: what is still buffered is flushed and the stream
is closed.  The result is the file store and the return value, 0 or `EOF`. -/
def fclose (fail : Option Nat) (files : List Char → Option (List Nat)) (f : FILE) :
    (List Char → Option (List Nat)) × Int :=
  ((fflush fail files f).1, (fflush fail files f).2.2)

/-! ## Upload: `ChunkHandler` -/

/-- Source `ChunkError`: reply with status 500 and the message. -/
def ChunkError (w : World) (calls : List Call) (msg : List Char) : Outcome :=
  { world := w, resp := [Resp.send_err HTTPD_500_INTERNAL_SERVER_ERROR msg], calls := calls }

/-- The clock block of `ChunkHandler` (`if (ourTime.tv_sec == 0) ...`): the
world and the calls afterwards. -/
def ChunkHandler.setClock (env : Env) (w : World) (postData : List Char) : World × List Call :=
  if w.ourTime = 0 then
    match ParsePostData env.digit postData "timestamp".toList with
    | some timestamp =>
      let parsed :=
        match env.strptime (cstr timestamp) "%Y-%m-%dT%H:%M:%S%Z".toList with
        | some timeInfo => some timeInfo
        | none => env.strptime (cstr timestamp) "%Y-%m-%dT%H:%M:%S%z".toList
      match parsed with
      | none => (w, [])
      | some timeInfo =>
        let seconds := env.mktime timeInfo
        if seconds ≠ -1 then
          ({ w with ourTime := seconds }, [Call.settimeofday seconds])
        else (w, [])
    | none => (w, [])
  else (w, [])

/-- The file part of `ChunkHandler`, from `fopen` to the reply.  The return
values of `fseek`, `fflush` and `fclose` are not looked at. -/
def ChunkHandler.store (env : Env) (w : World) (calls : List Call) (URLFile : List Char)
    (index chunkSize : Int) (destData : List Nat) (destLen : Nat) : Outcome :=
  let USBLen := strlen URLFile + MAX_DIR_LEN
  let USBFile := snprintf (USBLen - 1) (MNT_PATH ++ ['/'] ++ cstr URLFile)
  let access := if index = 0 then "wb".toList else "ab".toList
  let opened := fopen env.fopen_ok w.files USBFile access
  match opened.2 with
  | none =>
    ChunkError w (calls ++ [Call.fopen USBFile access false]) "Could not create save file".toList
  | some chunkHandle =>
    let filePos := intToSize (index * chunkSize)
    let positioned := fseek chunkHandle filePos
    let wrote := fwrite env.fwrite_max positioned (destData.take destLen)
    let bytesWritten := wrote.2
    let flushed := fflush env.fflush_fail opened.1 wrote.1
    let closed := fclose env.fflush_fail flushed.1 flushed.2.1
    let w2 := { w with files := closed.1 }
    let calls2 := calls ++ [Call.fopen USBFile access true, Call.fseek filePos,
      Call.fwrite (destData.take destLen) bytesWritten, Call.fflush, Call.fclose]
    if bytesWritten ≠ destLen then
      ChunkError w2 calls2 "Did not write enough data to USB drive".toList
    else
      { world := w2, resp := [Resp.send "OK".toList], calls := calls2 }

/-- The length query of `ChunkHandler`: the value of `destLen`, initialised to
0, after `mbedtls_base64_decode(NULL, 0, &destLen, b64Data, srcLen)` with
`srcLen = strlen(b64Data)`. -/
def ChunkHandler.destLen (b64Data : List Char) : Nat :=
  ((mbedtls_base64_decode true 0 b64Data (strlen b64Data)).olen).getD 0

/-- The payload part of `ChunkHandler`, from the lookup of `datachunk` to the
call of `fopen` or the reply.  The buffer `b64Data` is `malloc(srcLen)` with
`srcLen = FindPostDataLen(srcData)`, and `ParsePostData` stores the cleaned
payload and its terminating NUL into it. -/
def ChunkHandler.decode (env : Env) (w : World) (calls : List Call) (postData URLFile : List Char)
    (index chunkSize dataLen : Int) : Outcome :=
  match FindPostData postData "datachunk".toList with
  | none => ChunkError w calls "Could not find data chunk".toList
  | some srcData =>
    if FindPostDataLen srcData > 0 then
      match ParsePostData env.digit postData "datachunk".toList with
      | none => ChunkError w calls "Could not convert data chunk".toList
      | some b64Data =>
        Outcome.storing (b64Data.length + 1) (FindPostDataLen srcData)
          (let srcLen := strlen b64Data
          if srcLen % 4 ≠ 0 then ChunkError w calls "Data chunk incorrect length".toList
          else
            let destLen := ChunkHandler.destLen b64Data
            if destLen ≤ 0 then ChunkError w calls "Decoded length is <= 0".toList
            else if destLen ≠ intToSize dataLen then
              ChunkError w calls "Decoded length does not match payload length".toList
            else
              let decoded := mbedtls_base64_decode false destLen b64Data srcLen
              if decoded.ret ≠ 0 then ChunkError w calls "Unable to decode data".toList
              else ChunkHandler.store env w calls URLFile index chunkSize decoded.out destLen)
    else
      { world := w, resp := [Resp.send "OK".toList], calls := calls }

/-- The buffer `postData` of `ChunkHandler` after `httpd_req_recv` and the
terminating NUL: the bytes received, the NUL, and what the buffer held before. -/
def ChunkHandler.postData (env : Env) (req : httpd_req_t) : List Char :=
  (httpd_req_recv req (MAX_CHUNK_LEN * 2 - 1)).2 ++ NULLCH :: env.slack

/-- Source `ChunkHandler`: accept one chunk of a file.  The fields `index`,
`chunksize` and `datalen` are copied into `postField`, `filename` into
`URLFile` and, while the clock is not set, `timestamp` into `timestamp`, each
an array of `BUFSIZ` characters that `ParsePostData` fills without a length. -/
def ChunkHandler (env : Env) (w : World) (req : httpd_req_t) : Outcome :=
  if w.USBHandle = none then
    ChunkError w [] "Cannot process chunk. USB drive not found".toList
  else
    let bytesRead := (httpd_req_recv req (MAX_CHUNK_LEN * 2 - 1)).1
    if bytesRead ≤ 0 then ChunkError w [] "Invalid chunk data received".toList
    else
      let postData := ChunkHandler.postData env req
      match ParsePostData env.digit postData "index".toList with
      | none => ChunkError w [] "Could not find chunk index".toList
      | some indexField =>
        Outcome.storing (indexField.length + 1) env.BUFSIZ
          (match ParsePostData env.digit postData "chunksize".toList with
          | none => ChunkError w [] "Could not find chunk size".toList
          | some sizeField =>
            Outcome.storing (sizeField.length + 1) env.BUFSIZ
              (match ParsePostData env.digit postData "datalen".toList with
              | none => ChunkError w [] "Could not find data length".toList
              | some lenField =>
                Outcome.storing (lenField.length + 1) env.BUFSIZ
                  (match ParsePostData env.digit postData "filename".toList with
                  | none => ChunkError w [] "Could not find data filename".toList
                  | some URLFile =>
                    Outcome.storing (URLFile.length + 1) env.BUFSIZ
                      (Outcome.storing
                        (if w.ourTime = 0 then
                          (ParsePostData.stored env.digit postData "timestamp".toList).getD 0
                          else 0)
                        env.BUFSIZ
                        (ChunkHandler.decode env (ChunkHandler.setClock env w postData).1
                          (ChunkHandler.setClock env w postData).2 postData URLFile
                          (atoi indexField) (atoi sizeField) (atoi lenField))))))

/-! ## Device lifecycle -/

/-- Return value `ESP_OK`. -/
def ESP_OK : Int := 0

/-- Source `app_message_t`: the message the USB callback sends to `app_main`. -/
inductive app_message_t where
  /-- Message `APP_DEVICE_CONNECTED` with `data.deviceAddress`. -/
  | APP_DEVICE_CONNECTED (deviceAddress : Nat)
  /-- Message `APP_DEVICE_DISCONNECTED` with `data.deviceHandle`. -/
  | APP_DEVICE_DISCONNECTED (deviceHandle : Option Nat)
  deriving DecidableEq, Repr

/-- Field `data.deviceAddress` of a message: the `uint8_t` member of the union,
the low byte of the handle when the message carries a handle. -/
def app_message_t.deviceAddress : app_message_t → Nat
  | .APP_DEVICE_CONNECTED a => a % 256
  | .APP_DEVICE_DISCONNECTED h => (h.getD 0) % 256

/-- What the MSC host driver answers while one message is processed. -/
structure MscDriver where
  /-- Return value of `msc_host_install_device`. -/
  install_err : Int
  /-- The handle it stores on `ESP_OK`. -/
  install_handle : Nat
  /-- Return value of `msc_host_vfs_register`. -/
  register_err : Int
  /-- The handle it stores on `ESP_OK`. -/
  register_handle : Nat
  /-- Return value of `msc_host_uninstall_device`. -/
  uninstall_err : Int
  /-- Return value of `msc_host_vfs_unregister`. -/
  unregister_err : Int
  deriving DecidableEq, Repr

/-- The result of a lifecycle function. -/
structure DeviceOutcome where
  /-- The globals afterwards. -/
  world : World
  /-- The return value (`ESP_OK` for a `void` function). -/
  err : Int
  /-- The driver calls made, in order. -/
  calls : List Call
  /-- Whether `ESP_ERROR_CHECK` stopped the firmware. -/
  aborted : Bool

/-- Source `AllocateUSBDevice`: install the device and mount its file system. -/
def AllocateUSBDevice (drv : MscDriver) (w : World) (msg : app_message_t) : DeviceOutcome :=
  let install := Call.msc_host_install_device msg.deviceAddress drv.install_err
  if drv.install_err ≠ ESP_OK then
    { world := w, err := drv.install_err, calls := [install], aborted := false }
  else
    let w1 := { w with USBHandle := some drv.install_handle, USBAddr := msg.deviceAddress }
    let register := Call.msc_host_vfs_register drv.install_handle drv.register_err
    if drv.register_err ≠ ESP_OK then
      let uninstall := Call.msc_host_uninstall_device drv.install_handle drv.uninstall_err
      if drv.uninstall_err ≠ ESP_OK then
        { world := w1, err := drv.uninstall_err, calls := [install, register, uninstall],
          aborted := true }
      else
        { world := { w1 with USBAddr := 0, USBHandle := none, VFSHandle := none },
          err := drv.register_err, calls := [install, register, uninstall], aborted := false }
    else
      { world := { w1 with VFSHandle := some drv.register_handle }, err := ESP_OK,
        calls := [install, register], aborted := false }

/-- Source `FreeUSBDevice`: unmount the file system and remove the device. -/
def FreeUSBDevice (drv : MscDriver) (w : World) : DeviceOutcome :=
  let unregister :=
    match w.VFSHandle with
    | some v => [Call.msc_host_vfs_unregister v drv.unregister_err]
    | none => []
  if w.VFSHandle ≠ none ∧ drv.unregister_err ≠ ESP_OK then
    { world := w, err := drv.unregister_err, calls := unregister, aborted := true }
  else
    let uninstall :=
      match w.USBHandle with
      | some h => [Call.msc_host_uninstall_device h drv.uninstall_err]
      | none => []
    if w.USBHandle ≠ none ∧ drv.uninstall_err ≠ ESP_OK then
      { world := w, err := drv.uninstall_err, calls := unregister ++ uninstall, aborted := true }
    else
      { world := { w with USBAddr := 0 }, err := ESP_OK, calls := unregister ++ uninstall,
        aborted := false }

/-- One turn of the `while (true)` loop of `app_main`: the message received
from the queue is processed. -/
def app_main.loop (drv : MscDriver) (w : World) (msg : app_message_t) : DeviceOutcome :=
  match msg with
  | .APP_DEVICE_CONNECTED _ => AllocateUSBDevice drv w msg
  | .APP_DEVICE_DISCONNECTED _ => FreeUSBDevice drv w

/-- Mount state Absent: address 0, no device handle, no mount handle. -/
def Absent (w : World) : Prop := w.USBAddr = 0 ∧ w.USBHandle = none ∧ w.VFSHandle = none

/-- Mount state Mounted: a device handle and a mount handle are tracked. -/
def Mounted (w : World) : Prop := w.USBHandle ≠ none ∧ w.VFSHandle ≠ none

instance (w : World) : Decidable (Absent w) := by unfold Absent; infer_instance

instance (w : World) : Decidable (Mounted w) := by unfold Mounted; infer_instance

/-! ## Error page and directory listing -/

/-- Source `ErrorHandler`: an HTML page with the error message, status 500. -/
def ErrorHandler (w : World) (calls : List Call) (msg : List Char) : Outcome :=
  let respString := snprintf MAX_RESP_LEN
    ("<html><body><h1 style=\"text-align:center;\">Error!</h1>".toList
      ++ "<meta http-equiv=\"refresh\" content=\"5;url=index.html\">".toList
      ++ "<br>An error occurred. ".toList ++ msg
      ++ ". The <a href=\"index.html\">main</a> page will reload in 5 seconds.".toList
      ++ "</body></html>".toList)
  { world := w,
    resp := [Resp.set_type "text/html".toList,
      Resp.send_err HTTPD_500_INTERNAL_SERVER_ERROR respString],
    calls := calls }

/-- The result of `ListDirectory` or `ListError`. -/
structure ListOutcome where
  /-- The return value. -/
  ret : Bool
  /-- The chunks sent, in order. -/
  resp : List Resp
  /-- The library calls made, in order. -/
  calls : List Call

/-- Source `ListError`: send the message as a chunk and return `false`. -/
def ListError (msg : List Char) : ListOutcome :=
  { ret := false, resp := [Resp.send_chunk msg], calls := [] }

/-- Source `EndsWith`: whether `string` ends with `suffix`. -/
def EndsWith (string suffix : List Char) : Bool :=
  let stringLen := strlen string
  let suffixLen := strlen suffix
  if suffixLen > stringLen then false
  else if ((cstr string).drop (stringLen - suffixLen)).take suffixLen = (cstr suffix).take suffixLen
  then true
  else false

/-- The body of the `readdir` loop of `ListDirectory` for one entry.  `recurse`
is the recursive call `ListDirectory(req, newBaseDir, depth + 1, maxDepth)`. -/
def ListDirectory.entry (recurse : List Char → ListOutcome) (baseDir : List Char)
    (depth maxDepth : Int) (entry : dirent) : List Resp × List Call :=
  let lineBreak := [Resp.send_chunk "<br>".toList]
  if entry.d_type = DT_DIR ∧
      (cstr entry.d_name = ".".toList ∨ cstr entry.d_name = "..".toList) then
    (lineBreak, [])
  else
    let indent := List.replicate depth.toNat (Resp.send_chunk "_&nbsp;".toList)
    if entry.d_type = DT_DIR then
      let baseDirLen := strlen baseDir + MAX_DIR_LEN + 1
      let newBaseDir0 := snprintf (baseDirLen - 1) (cstr baseDir ++ cstr entry.d_name)
      let fullLen := strlen newBaseDir0
      let newBaseDir :=
        if (newBaseDir0 ++ [NULLCH]).getD fullLen NULLCH ≠ '/' then newBaseDir0 ++ ['/']
        else newBaseDir0
      let outputLen := MAX_DIR_LEN + BUFFER_PAD
      let output := snprintf (outputLen - 1) ("&lt;".toList ++ cstr entry.d_name ++ "&gt;".toList)
      if maxDepth > 0 then
        let sub := recurse newBaseDir
        let failed :=
          if ¬ sub.ret then (ListError "Could not list subdirectory".toList).resp else []
        (lineBreak ++ indent ++ [Resp.send_chunk output] ++ sub.resp ++ failed, sub.calls)
      else
        (lineBreak ++ indent ++ [Resp.send_chunk output], [])
    else
      let outputLen := strlen baseDir + MAX_DIR_LEN * 3 + BUFFER_PAD
      let needsUSBExt := EndsWith entry.d_name ".pdf".toList || EndsWith entry.d_name ".PDF".toList
      let output := snprintf (outputLen - 1)
        ("<a href=\"/download?file=".toList ++ cstr baseDir ++ cstr entry.d_name
          ++ "\" download=\"".toList ++ cstr entry.d_name
          ++ (if needsUSBExt then ".usb".toList else [])
          ++ "\">".toList ++ cstr entry.d_name ++ "</a>".toList)
      (lineBreak ++ indent ++ [Resp.send_chunk output], [])

/-- Source `ListDirectory`, with the depth of the C recursion bounded by the
first argument: at `0` no call is made and `false` is returned. -/
def ListDirectory.go (w : World) : Nat → List Char → Int → Int → ListOutcome
  | 0, _, _, _ => { ret := false, resp := [], calls := [] }
  | fuel + 1, baseDir, depth, maxDepth =>
    if depth ≠ maxDepth ∧ depth ≥ maxDepth then { ret := true, resp := [], calls := [] }
    else
      let dirLen := strlen baseDir + MAX_DIR_LEN
      let dirPath := snprintf (dirLen - 1) (MNT_PATH ++ cstr baseDir)
      match w.dirs dirPath with
      | none =>
        { ret := false, resp := (ListError "Could not open a subdirectory".toList).resp,
          calls := [Call.opendir dirPath false] }
      | some entries =>
        let listed := entries.map
          (ListDirectory.entry (fun d => ListDirectory.go w fuel d (depth + 1) maxDepth)
            baseDir depth maxDepth)
        { ret := true,
          resp := (listed.map Prod.fst).flatten,
          calls := [Call.opendir dirPath true] ++ (listed.map Prod.snd).flatten ++ [Call.closedir] }

/-- Source `ListDirectory`: recursively list the contents of `baseDir`.  The C
recursion goes from `depth` to at most `maxDepth + 1`. -/
def ListDirectory (w : World) (baseDir : List Char) (depth maxDepth : Int) : ListOutcome :=
  ListDirectory.go w ((maxDepth - depth).toNat + 2) baseDir depth maxDepth

/-- The buffer `postData` of `SelectHandler` after `httpd_req_recv` and the
terminating NUL: the bytes received, the NUL, and what the buffer held before. -/
def SelectHandler.postData (env : Env) (req : httpd_req_t) : List Char :=
  (httpd_req_recv req env.BUFSIZ).2 ++ NULLCH :: env.slack

/-- Source `SelectHandler`: the listing of files and subdirectories. -/
def SelectHandler (env : Env) (w : World) (req : httpd_req_t) : Outcome :=
  if w.USBHandle = none then
    ErrorHandler w [] "Cannot select files. USB drive not found".toList
  else
    let bytesRead := (httpd_req_recv req env.BUFSIZ).1
    if bytesRead ≤ 0 then ErrorHandler w [] "Invalid file data received".toList
    else
      -- `postData [bytesRead] = NULLCH` with `postData` an array of `BUFSIZ` characters
      Outcome.storing (bytesRead.toNat + 1) env.BUFSIZ
        (match ParsePostData env.digit (SelectHandler.postData env req) "startdir".toList with
        | none => ErrorHandler w [] "Starting directory field missing".toList
        | some startDir0 =>
          -- `startDir`, `recText` and `depthText` are arrays of `BUFFER_PAD` characters
          Outcome.storing (startDir0.length + 1) BUFFER_PAD
            (Outcome.storing
              ((ParsePostData.stored env.digit (SelectHandler.postData env req)
                "recursive".toList).getD 0) BUFFER_PAD
              (Outcome.storing
                ((ParsePostData.stored env.digit (SelectHandler.postData env req)
                  "depth".toList).getD 0) BUFFER_PAD
                (let postData := SelectHandler.postData env req
                let recursive0 := (ParsePostData env.digit postData "recursive".toList).isSome
                let startDir := if startDir0.head? = none ∨ startDir0.head? = some NULLCH
                  then "/".toList else startDir0
                let depthText := ParsePostData env.digit postData "depth".toList
                let recursive := if depthText.isNone then false else recursive0
                -- when the field is missing `depthText` is uninitialised; `maxDepth` is then
                -- not used
                let maxDepth := atoi (depthText.getD [])
                let startHTML :=
                  "<html><body><h1 style=\"text-align:center;\">Files on USB Drive</h1>".toList
                let listing := ListDirectory w startDir 0 (if recursive then maxDepth else 0)
                let linksHTML := ("<br><br>Return to the <a href=\"/\">main</a> page, ".toList
                  ++ "or <a href=\"/load\">look</a> for another file.".toList)
                let endHTML := "</body></html>".toList
                { world := w,
                  resp := [Resp.set_type "text/html".toList, Resp.send_chunk startHTML]
                    ++ listing.resp
                    ++ [Resp.send_chunk linksHTML, Resp.send_chunk endHTML, Resp.send_chunk []],
                  calls := listing.calls }))))

/-! ## Download -/

/-- Return value `ESP_ERR_NOT_FOUND`. -/
def ESP_ERR_NOT_FOUND : Int := 261

/-- Return value `ESP_ERR_HTTPD_RESULT_TRUNC`. -/
def ESP_ERR_HTTPD_RESULT_TRUNC : Int := 45059

/-- Lower case of an ASCII letter, as `strncasecmp` compares. -/
def tolower (c : Char) : Char := if 'A' ≤ c ∧ c ≤ 'Z' then Char.ofNat (c.toNat + 32) else c

/-- The search loop of `httpd_query_key_value`, one turn per `name=value` pair;
the first argument bounds the number of turns. -/
def httpd_query_key_value.loop (key : List Char) (buf_len : Nat) :
    Nat → List Char → Int × List Char
  | 0, _ => (ESP_ERR_NOT_FOUND, [])
  | fuel + 1, qry =>
    if strlen qry = 0 then (ESP_ERR_NOT_FOUND, [])
    else
      match strchr qry '=' with
      | none => (ESP_ERR_NOT_FOUND, [])
      | some val_ptr =>
        let offset := qry.length - val_ptr.length
        if offset ≠ strlen key ∨ (qry.take offset).map tolower ≠ (cstr key).map tolower then
          match strchr val_ptr '&' with
          | none => (ESP_ERR_NOT_FOUND, [])
          | some next => httpd_query_key_value.loop key buf_len fuel (next.drop 1)
        else
          let value_ptr := val_ptr.drop 1
          let value :=
            match strchr value_ptr '&' with
            | none => cstr value_ptr
            | some next => value_ptr.take (value_ptr.length - next.length)
          let val_size := value.length + 1
          let copied := value.take (min val_size buf_len - 1)
          if buf_len < val_size then (ESP_ERR_HTTPD_RESULT_TRUNC, copied) else (ESP_OK, copied)

/-- Library `httpd_query_key_value(qry, key, val, val_size)` of the ESP-IDF HTTP
server: the return value and the string stored in `val`.  The value is copied
as it stands in the query, without percent-decoding. -/
def httpd_query_key_value (qry key : List Char) (val_size : Nat) : Int × List Char :=
  httpd_query_key_value.loop key val_size (qry.length + 1) qry

/-- Library `fread(buffer, 1, count, handle)` on a stream at offset `pos` of a
file with bytes `data`: the bytes read and the end-of-file indicator
afterwards.  With `fail = some k` only the first `k` bytes can be read and the
read that reaches them stops with the error indicator set. -/
def fread (fail : Option Nat) (data : List Nat) (pos count : Nat) : List Nat × Bool :=
  match fail with
  | none => ((data.drop pos).take count, decide (data.length < pos + count))
  | some k =>
    if data.length ≤ k then ((data.drop pos).take count, decide (data.length < pos + count))
    else (((data.take k).drop pos).take count, false)

/-- The `while (!feof(handle))` loop of `DownloadHandler` from file offset
`pos`: the chunks sent, the `fread` calls and the end-of-file indicator after
the loop.  The first argument bounds the number of turns. -/
def DownloadHandler.loop (fail : Option Nat) (data : List Nat) :
    Nat → Nat → List Resp × List Call × Bool
  | 0, _ => ([], [], false)
  | fuel + 1, pos =>
    let buffer := (fread fail data pos MAX_CHUNK_LEN).1
    let eof := (fread fail data pos MAX_CHUNK_LEN).2
    if buffer.length > 0 then
      if eof then ([Resp.send_data buffer], [Call.fread buffer.length], true)
      else
        let rest := DownloadHandler.loop fail data fuel (pos + buffer.length)
        (Resp.send_data buffer :: rest.1, Call.fread buffer.length :: rest.2.1, rest.2.2)
    else ([], [Call.fread 0], eof)

/-- Source `DownloadHandler`: stream a file to the client. -/
def DownloadHandler (env : Env) (w : World) (req : httpd_req_t) : Outcome :=
  if w.USBHandle = none then
    ErrorHandler w [] "Cannot download files. USB drive not found".toList
  else
    let queryLen := strlen req.query + 1
    if queryLen > 1 then
      let queryBuffer := snprintf queryLen (cstr req.query)
      let found := httpd_query_key_value queryBuffer "file".toList MAX_DIR_LEN
      let URLFile := found.2
      if found.1 ≠ ESP_OK then ErrorHandler w [] "URL missing filename".toList
      else
        let USBLen := MAX_DIR_LEN * 2
        let USBFile := snprintf (USBLen - 1) (MNT_PATH ++ ['/'] ++ URLFile)
        match (fopen env.fopen_ok w.files USBFile "rb".toList).2 with
        | none =>
          ErrorHandler w [Call.fopen USBFile "rb".toList false] "Could not open file".toList
        | some handle =>
          let data := (w.files handle.path).getD []
          let streamed := DownloadHandler.loop env.fread_fail data (data.length + 1) 0
          let EOFReached := streamed.2.2
          let calls := [Call.fopen USBFile "rb".toList true] ++ streamed.2.1 ++ [Call.fclose]
          let sent := [Resp.set_type "application/octet-stream".toList] ++ streamed.1
            ++ [Resp.send_chunk []]
          if ¬ EOFReached then
            { world := w,
              resp := sent ++ (ErrorHandler w calls "Did not read enough of the file".toList).resp,
              calls := calls }
          else { world := w, resp := sent, calls := calls }
    else ErrorHandler w [] "Cannot determine URL length".toList

/-! ## Device information -/

/-- Library `swprintf(buffer, size, ...)` for an output `s`: the number of wide
characters written, `none` for a negative return value (no room). -/
def swprintf (size : Nat) (s : List Char) : Option (List Char) :=
  if s.length < size then some s else none

/-- Conversion `%u` and `%llu`: decimal digits. -/
def formatDecimal (n : Nat) : List Char := Nat.toDigits 10 n

/-- Conversion `%04X`: upper-case hexadecimal digits, at least four. -/
def formatHex4 (n : Nat) : List Char :=
  let digits := (Nat.toDigits 16 n).map Char.toUpper
  List.replicate (4 - digits.length) '0' ++ digits

/-- The rows that `InfoHandler` writes into `infoBuffer` one `swprintf` at a
time, each with the message of its `CHECK_CHARS_WRITTEN`. -/
def InfoHandler.rows (info : msc_host_device_info_t) : List (List Char × List Char) :=
  let MiB := 1024 * 1024
  let capacity := (info.sector_size * info.sector_count % 18446744073709551616) / MiB
  [ ("<html><body><h1 style=\"text-align:center;\">USB Drive Information</h1><br><table>".toList
      ++ "<tr><th>Attribute</th><th>Value</th</tr>".toList,
     "USB drive information HTML tag issue".toList),
    ("<tr><td>Capacity</td><td>".toList ++ formatDecimal capacity ++ " MB</td></tr>".toList,
     "USB drive capacity issue".toList),
    ("<tr><td>Sector Size</td><td>".toList ++ formatDecimal info.sector_size
      ++ "</td></tr>".toList, "USB sector size issue".toList),
    ("<tr><td>Sector Count</td><td>".toList ++ formatDecimal info.sector_count
      ++ "</td></tr>".toList, "USB sector count issue".toList),
    ("<tr><td>Product ID</td><td>0x".toList ++ formatHex4 info.idProduct
      ++ "</td></tr>".toList, "USB product ID issue".toList),
    ("<tr><td>Vendor ID</td><td>0x".toList ++ formatHex4 info.idVendor
      ++ "</td></tr>".toList, "USB vendor ID issue".toList),
    ("<tr><td>Product Name</td><td>".toList ++ cstr info.iProduct ++ "</td></tr>".toList,
     "USB product name issue".toList),
    ("<tr><td>Manufacturer</td><td>".toList ++ cstr info.iManufacturer ++ "</td></tr>".toList,
     "USB manufacturer issue".toList),
    ("<tr><td>Serial Number</td><td>".toList ++ cstr info.iSerialNumber ++ "</td></tr>".toList,
     "USB serial number issue".toList),
    ("</table><br>Return to the <a href=\"/\">main</a> page.</body></html>".toList,
     "USB manufacturer issue".toList) ]

/-- The `swprintf` sequence of `InfoHandler`: the text in `infoBuffer`, or the
message of the first `CHECK_CHARS_WRITTEN` that fails. -/
def InfoHandler.fill (infoSize : Nat) : List (List Char × List Char) → List Char →
    Except (List Char) (List Char)
  | [], buffer => Except.ok buffer
  | (row, msg) :: rest, buffer =>
    match swprintf (infoSize - buffer.length - 1) row with
    | none => Except.error msg
    | some written => InfoHandler.fill infoSize rest (buffer ++ written)

/-- Source `InfoHandler`: the table of device attributes. -/
def InfoHandler (env : Env) (w : World) (_req : httpd_req_t) : Outcome :=
  match w.USBHandle with
  | none => ErrorHandler w [] "No information. USB drive not found".toList
  | some handle =>
    let lookup := [Call.msc_host_get_device_info handle env.info_err]
    if env.info_err ≠ ESP_OK then
      { world := w, resp := [], calls := lookup, aborted := true }
    else
      match InfoHandler.fill 2048 (InfoHandler.rows env.info) [] with
      | Except.error msg => ErrorHandler w lookup msg
      | Except.ok infoBuffer =>
        let totalChars := infoBuffer.length
        let UTFSize := totalChars * 4
        match env.wcstombs infoBuffer with
        | none => ErrorHandler w lookup "Could not convert to UTF-8".toList
        | some UTFBuffer =>
          { world := w,
            resp := [Resp.set_type "text/html".toList,
              Resp.set_hdr "Content-Type".toList "text/html; charset=utf-8".toList,
              Resp.send (UTFBuffer.take (UTFSize + 1))],
            calls := lookup }

/-! ## Vocabulary of the properties -/

/-- The size of the buffer `b64Data` that `ChunkHandler` allocates for the
payload: `malloc(srcLen)` with `srcLen = FindPostDataLen(srcData)`. -/
def ChunkHandler.b64Size (postData : List Char) : Option Nat :=
  (FindPostData postData "datachunk".toList).map FindPostDataLen

/-- Two runs that differ at most in whether a buffer was overrun: the same
world afterwards, the same reply and the same library calls. -/
def Outcome.Agrees (o o' : Outcome) : Prop :=
  o.world = o'.world ∧ o.resp = o'.resp ∧ o.calls = o'.calls

/-- Every copy that `ChunkHandler` makes of a field of the request fits its
buffer: `index`, `chunksize`, `datalen`, `filename` and `timestamp` with their
terminating NUL fit `BUFSIZ` characters, and the cleaned payload with its
terminating NUL fits the `b64Data` allocated for it. -/
def ChunkHandler.Fits (env : Env) (req : httpd_req_t) : Prop :=
  (∀ key ∈ ["index".toList, "chunksize".toList, "datalen".toList, "filename".toList,
      "timestamp".toList],
    (ParsePostData.stored env.digit (ChunkHandler.postData env req) key).getD 0 ≤ env.BUFSIZ) ∧
  ((ChunkHandler.b64Size (ChunkHandler.postData env req)).getD 0 = 0 ∨
    (ParsePostData.stored env.digit (ChunkHandler.postData env req) "datachunk".toList).getD 0
      ≤ (ChunkHandler.b64Size (ChunkHandler.postData env req)).getD 0)

instance (env : Env) (req : httpd_req_t) : Decidable (ChunkHandler.Fits env req) := by
  unfold ChunkHandler.Fits; infer_instance

/-- The reply is an error: one `httpd_resp_send_err` with status 500, sent by
`ChunkError` or by `ErrorHandler`, and nothing else. -/
def isErrorReply (resp : List Resp) : Prop :=
  ∃ msg, resp = [Resp.send_err HTTPD_500_INTERNAL_SERVER_ERROR msg] ∨
    resp = [Resp.set_type "text/html".toList, Resp.send_err HTTPD_500_INTERNAL_SERVER_ERROR msg]

/-- The reply is the success indicator `OK`. -/
def isOkReply (resp : List Resp) : Prop := resp = [Resp.send "OK".toList]

instance (resp : List Resp) : Decidable (isOkReply resp) := by unfold isOkReply; infer_instance

/-- Whether a library call is a file-system operation. -/
def Call.isFileSystem : Call → Bool
  | .fopen _ _ _ => true
  | .fseek _ => true
  | .fwrite _ _ => true
  | .fread _ => true
  | .fflush => true
  | .fclose => true
  | .opendir _ _ => true
  | .closedir => true
  | _ => false

/-- The names of the fields of a form body: the `name=value` pairs are
separated by `&`, a name ends at the first `=`. -/
def formFieldNames (body : List Char) : List (List Char) :=
  (body.splitOn '&').map (fun pair => pair.takeWhile (fun c => c ≠ '='))

/-- The messages of the rejections that `ChunkHandler` makes before it opens
the destination file: no device, nothing received, a missing field, a payload
that does not decode, a decoded length that differs from `datalen`. -/
def rejectionMessages : List (List Char) :=
  ["Cannot process chunk. USB drive not found".toList, "Invalid chunk data received".toList,
   "Could not find chunk index".toList, "Could not find chunk size".toList,
   "Could not find data length".toList, "Could not find data filename".toList,
   "Could not find data chunk".toList, "Could not convert data chunk".toList,
   "Data chunk incorrect length".toList, "Decoded length is <= 0".toList,
   "Decoded length does not match payload length".toList, "Unable to decode data".toList]

/-- The split of a file made by the script of the page that `SaveHandler`
sends (`while (remaining > 0)`, `thisChunk = Math.min(remaining, chunkSize)`,
`file.slice(offset, offset + thisChunk)`); the first argument bounds the
number of turns. -/
def pieces.go (chunkSize : Nat) : Nat → List Nat → List (List Nat)
  | 0, _ => []
  | fuel + 1, data =>
    if data = [] then []
    else data.take chunkSize :: pieces.go chunkSize fuel (data.drop chunkSize)

/-- The consecutive pieces of `chunkSize` bytes of `data`, the last one
possibly shorter; no piece for empty `data`. -/
def pieces (chunkSize : Nat) (data : List Nat) : List (List Nat) :=
  pieces.go chunkSize data.length data

/-- The request submits `piece` as chunk `index` of the file `name` with chunk
size `chunkSize`: something is received and `ChunkHandler` reads from it the
fields `index`, `chunksize`, `datalen` (the length of `piece`) and `filename`,
and a `datachunk` payload whose cleaned length is a multiple of 4, whose
decoded length is the length of `piece` and which decodes to `piece`; and
every field it copies fits its buffer. -/
def Delivers (env : Env) (req : httpd_req_t) (name : List Char) (chunkSize index : Nat)
    (piece : List Nat) : Prop :=
  0 < (httpd_req_recv req (MAX_CHUNK_LEN * 2 - 1)).1 ∧
  (ParsePostData env.digit (ChunkHandler.postData env req) "index".toList).map atoi
    = some (index : Int) ∧
  (ParsePostData env.digit (ChunkHandler.postData env req) "chunksize".toList).map atoi
    = some (chunkSize : Int) ∧
  (ParsePostData env.digit (ChunkHandler.postData env req) "datalen".toList).map atoi
    = some (piece.length : Int) ∧
  (ParsePostData env.digit (ChunkHandler.postData env req) "filename".toList).map cstr
    = some name ∧
  (ParsePostData env.digit (ChunkHandler.postData env req) "datachunk".toList).map
      (fun b64 => (strlen b64 % 4, ChunkHandler.destLen b64,
        (mbedtls_base64_decode false piece.length b64 (strlen b64)).ret,
        (mbedtls_base64_decode false piece.length b64 (strlen b64)).out))
    = some (0, piece.length, 0, piece) ∧
  ChunkHandler.Fits env req

instance (env : Env) (req : httpd_req_t) (name : List Char) (chunkSize index : Nat)
    (piece : List Nat) : Decidable (Delivers env req name chunkSize index piece) := by
  unfold Delivers; infer_instance

/-- The write of `piece` succeeds: `fopen` returns a stream, `fwrite` accepts
every byte and `fflush` stores every byte. -/
def WriteSucceeds (env : Env) (piece : List Nat) : Prop :=
  env.fopen_ok = true ∧ piece.length ≤ env.fwrite_max ∧
  piece.length ≤ env.fflush_fail.getD piece.length

instance (env : Env) (piece : List Nat) : Decidable (WriteSucceeds env piece) := by
  unfold WriteSucceeds; infer_instance

/-- The requests submit the pieces in order, as the chunks `index`,
`index + 1`, ... of the file `name`, and every write succeeds. -/
def DeliversAll (name : List Char) (chunkSize : Nat) :
    Nat → List (Env × httpd_req_t) → List (List Nat) → Prop
  | _, [], [] => True
  | index, run :: runs, piece :: rest =>
    Delivers run.1 run.2 name chunkSize index piece ∧ WriteSucceeds run.1 piece ∧
      DeliversAll name chunkSize (index + 1) runs rest
  | _, _, _ => False

/-- The world after `ChunkHandler` has processed the requests one after the
other. -/
def upload (w : World) : List (Env × httpd_req_t) → World
  | [] => w
  | run :: runs => upload (ChunkHandler run.1 w run.2).world runs

/-! ## Concrete inputs -/

/-- A device description. -/
def sampleInfo : msc_host_device_info_t :=
  { sector_count := 2048, sector_size := 512, idProduct := 1, idVendor := 2,
    iManufacturer := "Maker".toList, iProduct := "Stick".toList, iSerialNumber := "0001".toList }

/-- A platform on which every call succeeds, no time stamp parses and the
memory around the buffers is zero. -/
def sampleEnv : Env :=
  { digit := 0, slack := [], BUFSIZ := 128, strptime := fun _ _ => none, mktime := fun _ => 0,
    fopen_ok := true, fwrite_max := 4096, fread_fail := none, info_err := ESP_OK,
    info := sampleInfo, wcstombs := fun s => some s }

/-- A POST request with the given body. -/
def postRequest (body : String) : httpd_req_t :=
  { content := body.toList, recv_fails := false, query := [] }

/-- No device: the initial values of the globals, an empty file system. -/
def absentWorld : World :=
  { USBAddr := 0, USBHandle := none, VFSHandle := none, ourTime := 0,
    files := fun _ => none, dirs := fun _ => none }

/-- A mounted device at address 1 with device handle 7 and mount handle 9,
holding the file `/usb/F` with the six bytes `ABCDEF`. -/
def mountedWorld : World :=
  { USBAddr := 1, USBHandle := some 7, VFSHandle := some 9, ourTime := 0,
    files := fun p => if p = "/usb/F".toList then some [65, 66, 67, 68, 69, 70] else none,
    dirs := fun _ => none }

/-- A mounted device whose file system holds no file. -/
def blankWorld : World :=
  { USBAddr := 1, USBHandle := some 7, VFSHandle := some 9, ourTime := 0,
    files := fun _ => none, dirs := fun _ => none }

/-- A mounted device with the directory `/recursive/`, which holds a file and
a subdirectory with one file. -/
def treeWorld : World :=
  { USBAddr := 1, USBHandle := some 7, VFSHandle := some 9, ourTime := 0,
    files := fun _ => none,
    dirs := fun p =>
      if p = "/usb/recursive/".toList then
        some [{ d_name := "sub".toList, d_type := DT_DIR },
              { d_name := "a.txt".toList, d_type := DT_REG }]
      else if p = "/usb/recursive/sub/".toList then
        some [{ d_name := "deep.txt".toList, d_type := DT_REG }]
      else none }

/-- A driver whose calls all return `ESP_OK`; a new device gets handle 11 and
mount handle 12. -/
def okDriver : MscDriver :=
  { install_err := ESP_OK, install_handle := 11, register_err := ESP_OK, register_handle := 12,
    uninstall_err := ESP_OK, unregister_err := ESP_OK }

/-- A driver that refuses to install a device. -/
def noInstallDriver : MscDriver := { okDriver with install_err := 259 }

/-- A driver that installs the device and fails to mount its file system. -/
def noMountDriver : MscDriver := { okDriver with register_err := 259 }

/-- A driver that installs the device, fails to mount its file system and then
fails to uninstall the device. -/
def stuckDriver : MscDriver := { okDriver with register_err := 259, uninstall_err := 258 }

/-! ## Listing: vocabulary -/

/-- The link that `ListDirectory` formats for a regular file
(`<a href="/download?file=%s%s" download="%s%s">%s</a>`), by its three parts:
the `file` parameter of the href, the download attribute and the link text. -/
def fileLink (file download text : List Char) : List Char :=
  "<a href=\"/download?file=".toList ++ file ++ "\" download=\"".toList ++ download
    ++ "\">".toList ++ text ++ "</a>".toList

/-- The path that `ListDirectory` hands to `opendir` for `baseDir`. -/
def ListDirectory.dirPath (baseDir : List Char) : List Char :=
  snprintf (strlen baseDir + MAX_DIR_LEN - 1) (MNT_PATH ++ cstr baseDir)

/-- The directory `newBaseDir` that `ListDirectory` builds for the subdirectory
`d_name` of `baseDir` (lines 490 to 506): the two names joined by `snprintf`,
then a `/` appended when the character at index `fullLen` is not a `/`. -/
def ListDirectory.newBaseDir (baseDir d_name : List Char) : List Char :=
  let baseDirLen := strlen baseDir + MAX_DIR_LEN + 1
  let newBaseDir0 := snprintf (baseDirLen - 1) (cstr baseDir ++ cstr d_name)
  let fullLen := strlen newBaseDir0
  if (newBaseDir0 ++ [NULLCH]).getD fullLen NULLCH ≠ '/' then newBaseDir0 ++ ['/']
  else newBaseDir0

/-- The line break that `ListDirectory` sends for every entry. -/
def lineBreak : Resp := Resp.send_chunk "<br>".toList

/-- The indentation that `ListDirectory` sends at `depth`. -/
def indentation (depth : Int) : List Resp :=
  List.replicate depth.toNat (Resp.send_chunk "_&nbsp;".toList)

/-- A mounted drive whose root directory holds `report.pdf`, `notes.txt` and
`SCAN.PDF`. -/
def pdfWorld : World :=
  { USBAddr := 1, USBHandle := some 7, VFSHandle := some 9, ourTime := 0,
    files := fun p => if p = "/usb//report.pdf".toList then some [37, 80, 68, 70] else none,
    dirs := fun p =>
      if p = "/usb/".toList then
        some [{ d_name := "report.pdf".toList, d_type := DT_REG },
              { d_name := "notes.txt".toList, d_type := DT_REG },
              { d_name := "SCAN.PDF".toList, d_type := DT_REG }]
      else none }

/-- The chunks that the loop of `ListDirectory` sends for `entries` of `baseDir`
at `depth`, subdirectories being listed by `ListDirectory` one level down. -/
def listed (w : World) (baseDir : List Char) (depth maxDepth : Int)
    (entries : List dirent) : List Resp :=
  ((entries.map (ListDirectory.entry (fun d => ListDirectory w d (depth + 1) maxDepth)
    baseDir depth maxDepth)).map Prod.fst).flatten

/-- The item that `ListDirectory` sends for the subdirectory `d_name`. -/
def dirItem (d_name : List Char) : Resp :=
  Resp.send_chunk (snprintf (MAX_DIR_LEN + BUFFER_PAD - 1)
    ("&lt;".toList ++ cstr d_name ++ "&gt;".toList))

/-- A mounted drive whose root holds `before.txt`, the directory `gone` that
cannot be opened, and `after.txt`. -/
def brokenWorld : World :=
  { USBAddr := 1, USBHandle := some 7, VFSHandle := some 9, ourTime := 0,
    files := fun _ => none,
    dirs := fun p =>
      if p = "/usb/".toList then
        some [{ d_name := "before.txt".toList, d_type := DT_REG },
              { d_name := "gone".toList, d_type := DT_DIR },
              { d_name := "after.txt".toList, d_type := DT_REG }]
      else none }

/-! ## Upload and download: vocabulary -/

/-- Whether a library call is a call of `fwrite`. -/
def Call.isWrite : Call → Bool
  | .fwrite _ _ => true
  | _ => false

/-- A GET request with the URL query `query`. -/
def getRequest (query : String) : httpd_req_t :=
  { content := [], recv_fails := false, query := query.toList }

/-- The broken-down time of 1970-01-01T00:00:00. -/
def epochTm : tm :=
  { tm_sec := 0, tm_min := 0, tm_hour := 0, tm_mday := 1, tm_mon := 0, tm_year := 70 }

/-- A platform on which `strptime` reads `1970-01-01T00:00:00Z` under the first
format and `mktime` gives 0 seconds for it. -/
def epochEnv : Env :=
  { sampleEnv with
    strptime := fun s format =>
      if s = "1970-01-01T00:00:00Z".toList ∧ format = "%Y-%m-%dT%H:%M:%S%Z".toList
      then some epochTm else none,
    mktime := fun t => if t = epochTm then 0 else 1 }

/-- The first chunk of a file `F`, stamped 1970-01-01T00:00:00Z. -/
def epochChunk : httpd_req_t :=
  postRequest
    "index=0&chunksize=2&datalen=2&filename=F&timestamp=1970-01-01T00%3A00%3A00Z&datachunk=eHk%3D"

/-- Whether a library call is a call of `settimeofday`. -/
def Call.isClock : Call → Bool
  | .settimeofday _ => true
  | _ => false

/-- Two chunk requests that differ at most in their `timestamp` field and in
the way the platform reads it: `httpd_req_recv` succeeds for both or fails for
both, `ParsePostData` reads the same `index`, `chunksize`, `datalen`,
`filename` and `datachunk` from both, the `datachunk` field is found and is
empty in both or in neither, and `fopen`, `fwrite` and `fflush` behave alike. -/
def SameChunk (env : Env) (req : httpd_req_t) (env' : Env) (req' : httpd_req_t) : Prop :=
  ((httpd_req_recv req (MAX_CHUNK_LEN * 2 - 1)).1 ≤ 0
    ↔ (httpd_req_recv req' (MAX_CHUNK_LEN * 2 - 1)).1 ≤ 0) ∧
  (∀ key ∈ ["index".toList, "chunksize".toList, "datalen".toList, "filename".toList,
      "datachunk".toList],
    ParsePostData env.digit (ChunkHandler.postData env req) key
      = ParsePostData env'.digit (ChunkHandler.postData env' req') key) ∧
  (FindPostData (ChunkHandler.postData env req) "datachunk".toList).map
      (fun srcData => decide (FindPostDataLen srcData > 0))
    = (FindPostData (ChunkHandler.postData env' req') "datachunk".toList).map
      (fun srcData => decide (FindPostDataLen srcData > 0)) ∧
  env.fopen_ok = env'.fopen_ok ∧ env.fwrite_max = env'.fwrite_max ∧
  env.fflush_fail = env'.fflush_fail

instance (env : Env) (req : httpd_req_t) (env' : Env) (req' : httpd_req_t) :
    Decidable (SameChunk env req env' req') := by
  unfold SameChunk; infer_instance

/-! ## Percent-decoding: vocabulary -/

/-- Percent-decoding as the specification words it: every character other than
`%` stands for itself (also `+`), and `%` followed by two hex digits stands for
the byte with that value. There is no result when a `%` is not followed by two
hex digits. -/
def percentDecode : List Char → Option (List Char)
  | [] => some []
  | c :: rest =>
    if c = '%' then
      match rest with
      | a :: b :: rest2 =>
        match hexValue a, hexValue b, percentDecode rest2 with
        | some v, some u, some out => some (Char.ofNat (16 * v + u) :: out)
        | _, _, _ => none
      | _ => none
    else (percentDecode rest).map (fun out => c :: out)

/-! ## Directory trees -/

/-- A path with every run of `/` collapsed to one `/`, the way the file system
reads it. -/
def collapseSlashes : List Char → List Char
  | [] => []
  | c :: rest =>
    if c = '/' ∧ rest.head? = some '/' then collapseSlashes rest
    else c :: collapseSlashes rest

/-- A mounted drive with one directory `docs` that holds the file `a.txt`;
paths are read with repeated `/` collapsed. -/
def docsWorld : World :=
  { USBAddr := 1, USBHandle := some 7, VFSHandle := some 9, ourTime := 0,
    files := fun p =>
      if collapseSlashes p = "/usb/docs/a.txt".toList then some [104, 105] else none,
    dirs := fun p =>
      if collapseSlashes p = "/usb".toList ∨ collapseSlashes p = "/usb/".toList then
        some [{ d_name := "docs".toList, d_type := DT_DIR }]
      else if collapseSlashes p = "/usb/docs".toList ∨ collapseSlashes p = "/usb/docs/".toList then
        some [{ d_name := "a.txt".toList, d_type := DT_REG }]
      else none }

/-- The entries of one directory, in the order `readdir` returns them, each
subdirectory with its own entries: `dots` is an entry `.` or `..`. -/
inductive Tree where
  /-- No further entry. -/
  | nil
  /-- The entry `.` or `..`, then the entries that follow. -/
  | dots (name : List Char) (rest : Tree)
  /-- A regular file, then the entries that follow. -/
  | file (name : List Char) (rest : Tree)
  /-- A subdirectory with its entries, then the entries that follow. -/
  | dir (name : List Char) (children : Tree) (rest : Tree)

/-- What `readdir` returns for the directory. -/
def Tree.entries : Tree → List dirent
  | .nil => []
  | .dots name rest => { d_name := name, d_type := DT_DIR } :: rest.entries
  | .file name rest => { d_name := name, d_type := DT_REG } :: rest.entries
  | .dir name _ rest => { d_name := name, d_type := DT_DIR } :: rest.entries

/-- The path of the subdirectory `name` of the directory `base`, relative to the
mount point and written with a trailing `/`. -/
def childDir (base name : List Char) : List Char :=
  (if base.getLast? = some '/' then base else base ++ ['/']) ++ name ++ ['/']

/-- Every subdirectory below `base` can be opened and holds its entries. -/
def Tree.Below (w : World) : List Char → Tree → Prop
  | _, .nil => True
  | base, .dots _ rest => Tree.Below w base rest
  | base, .file _ rest => Tree.Below w base rest
  | base, .dir name children rest =>
    w.dirs (MNT_PATH ++ childDir base name) = some children.entries ∧
    Tree.Below w (childDir base name) children ∧ Tree.Below w base rest

/-- The drive holds the directory tree `t` at `root`: the root and every
directory below it can be opened and hold the entries of `t`. -/
def Tree.Hosted (w : World) (root : List Char) (t : Tree) : Prop :=
  w.dirs (MNT_PATH ++ root) = some t.entries ∧ t.Below w root

/-- The names are C strings of at most `MAX_DIR_LEN` characters, those of
directories shorter than `MAX_DIR_LEN` and other than `.` and `..`. -/
def Tree.WellNamed : Tree → Prop
  | .nil => True
  | .dots name rest => (name = ".".toList ∨ name = "..".toList) ∧ rest.WellNamed
  | .file name rest => NULLCH ∉ name ∧ name.length ≤ MAX_DIR_LEN ∧ rest.WellNamed
  | .dir name children rest =>
    NULLCH ∉ name ∧ name ≠ ".".toList ∧ name ≠ "..".toList ∧ name.length < MAX_DIR_LEN ∧
    children.WellNamed ∧ rest.WellNamed

/-- The tree without the entries more than `levels` levels below its top
level. -/
def Tree.prune : Nat → Tree → Tree
  | _, .nil => .nil
  | levels, .dots name rest => .dots name (Tree.prune levels rest)
  | levels, .file name rest => .file name (Tree.prune levels rest)
  | 0, .dir name _ rest => .dir name .nil (Tree.prune 0 rest)
  | levels + 1, .dir name children rest =>
    .dir name (Tree.prune levels children) (Tree.prune (levels + 1) rest)

/-- Every entry of the tree as a listing item, in pre-order: a line break, the
indentation of its depth, and the link of a file (with the path of its
directory before its name) or the name of a directory in angle brackets; `.`
and `..` leave only the line break. -/
def Tree.items : List Char → Nat → Tree → List Resp
  | _, _, .nil => []
  | base, depth, .dots _ rest => lineBreak :: Tree.items base depth rest
  | base, depth, .file name rest =>
    lineBreak :: indentation depth
      ++ [Resp.send_chunk (fileLink (base ++ name)
          (name ++ (if ".pdf".toList <:+ name ∨ ".PDF".toList <:+ name then ".usb".toList else []))
          name)]
      ++ Tree.items base depth rest
  | base, depth, .dir name children rest =>
    lineBreak :: indentation depth
      ++ [Resp.send_chunk ("&lt;".toList ++ name ++ "&gt;".toList)]
      ++ Tree.items (childDir base name) (depth + 1) children
      ++ Tree.items base depth rest

/-- A mounted drive whose directory `docs` holds the directory `sub` and the
file `a.txt`, `sub` holding the file `deep.txt`; paths are read with repeated
`/` collapsed and with or without a trailing `/`. -/
def nestedWorld : World :=
  { USBAddr := 1, USBHandle := some 7, VFSHandle := some 9, ourTime := 0,
    files := fun p =>
      if collapseSlashes p = "/usb/docs/a.txt".toList then some [104, 105]
      else if collapseSlashes p = "/usb/docs/sub/deep.txt".toList then some [33]
      else none,
    dirs := fun p =>
      if collapseSlashes p = "/usb".toList ∨ collapseSlashes p = "/usb/".toList then
        some [{ d_name := "docs".toList, d_type := DT_DIR }]
      else if collapseSlashes p = "/usb/docs".toList ∨ collapseSlashes p = "/usb/docs/".toList then
        some [{ d_name := "sub".toList, d_type := DT_DIR },
              { d_name := "a.txt".toList, d_type := DT_REG }]
      else if collapseSlashes p = "/usb/docs/sub".toList
          ∨ collapseSlashes p = "/usb/docs/sub/".toList then
        some [{ d_name := "deep.txt".toList, d_type := DT_REG }]
      else none }

/-- The tree of `nestedWorld` below `docs`. -/
def nestedTree : Tree :=
  .dir "sub".toList (.file "deep.txt".toList .nil) (.file "a.txt".toList .nil)

/-- A directory name of `MAX_DIR_LEN` characters. -/
def longName : List Char := List.replicate MAX_DIR_LEN 'a'

/-- A mounted drive whose root holds one directory, named `longName`, that
holds the file `f.txt`. -/
def longNameWorld : World :=
  { USBAddr := 1, USBHandle := some 7, VFSHandle := some 9, ourTime := 0,
    files := fun _ => none,
    dirs := fun p =>
      if p = "/usb/".toList then some [{ d_name := longName, d_type := DT_DIR }]
      else if p = "/usb/".toList ++ longName ++ ['/'] then
        some [{ d_name := "f.txt".toList, d_type := DT_REG }]
      else none }

/-! ## Further vocabulary and inputs -/

/-- The library calls that the loop of `ListDirectory` makes for `entries` of
`baseDir` at `depth`, subdirectories being listed by `ListDirectory` one level
down. -/
def listedCalls (w : World) (baseDir : List Char) (depth maxDepth : Int)
    (entries : List dirent) : List Call :=
  ((entries.map (ListDirectory.entry (fun d => ListDirectory w d (depth + 1) maxDepth)
    baseDir depth maxDepth)).map Prod.snd).flatten

/-- A mounted drive whose root holds `.`, `..` and the file `a.txt`, and where
every other path, the root's `./` and `../` included, opens as a directory
holding `trap.txt`. -/
def dotsWorld : World :=
  { USBAddr := 1, USBHandle := some 7, VFSHandle := some 9, ourTime := 0,
    files := fun _ => none,
    dirs := fun p =>
      if p = "/usb/".toList then
        some [{ d_name := ".".toList, d_type := DT_DIR },
              { d_name := "..".toList, d_type := DT_DIR },
              { d_name := "a.txt".toList, d_type := DT_REG }]
      else some [{ d_name := "trap.txt".toList, d_type := DT_REG }] }

/-- The path of the directory `levels` levels below the root when every
directory is named `d`, written with a trailing `/`. -/
def deepPath (levels : Nat) : List Char :=
  "/usb/".toList ++ (List.replicate levels "d/".toList).flatten

/-- A mounted drive with twelve directories named `d` nested in each other
below the root, the innermost empty. -/
def deepWorld : World :=
  { USBAddr := 1, USBHandle := some 7, VFSHandle := some 9, ourTime := 0,
    files := fun _ => none,
    dirs := fun p =>
      if p = deepPath ((p.length - 5) / 2) ∧ (p.length - 5) / 2 < 12 then
        some [{ d_name := "d".toList, d_type := DT_DIR }]
      else if p = deepPath 12 then some []
      else none }

/-- The value of the field `key` of a form body: the text after the `=` of the
first `name=value` pair whose name is `key`, as submitted (percent-escapes not
removed); `none` when no pair has that name. -/
def formField (body key : List Char) : Option (List Char) :=
  ((body.splitOn '&').find? (fun pair => pair.takeWhile (fun c => c ≠ '=') = key)).map
    (fun pair => (pair.dropWhile (fun c => c ≠ '=')).drop 1)

/-- A platform like `sampleEnv` on which the device takes no byte: `fwrite`
accepts the bytes into the buffer of the stream, `fflush` stores none of them
and returns `EOF`. -/
def fullDeviceEnv : Env := { sampleEnv with fflush_fail := some 0 }

/-- Whether the entry is the directory `.` or `..`, which a listing does not
show. -/
def dirent.isDot (e : dirent) : Bool :=
  decide (e.d_type = DT_DIR ∧ (e.d_name = ".".toList ∨ e.d_name = "..".toList))

/-- The item by which a listing shows the entry `e` of the directory `baseDir`:
the name in angle brackets for a directory; for a file the link whose href is
the directory followed by the name, whose text is the name and whose download
attribute is the name, followed by `.usb` when the name ends in `.pdf` or
`.PDF`. -/
def entryItem (baseDir : List Char) (e : dirent) : Resp :=
  if e.d_type = DT_DIR then Resp.send_chunk ("&lt;".toList ++ e.d_name ++ "&gt;".toList)
  else
    Resp.send_chunk (fileLink (cstr baseDir ++ e.d_name)
      (e.d_name ++
        (if ".pdf".toList <:+ e.d_name ∨ ".PDF".toList <:+ e.d_name then ".usb".toList else []))
      e.d_name)

/-- The items of the entries other than `.` and `..`, in the order of the
entries. -/
def entryItems (baseDir : List Char) (entries : List dirent) : List Resp :=
  (entries.filter (fun e => ! e.isDot)).map (entryItem baseDir)

/-- Whether every subdirectory below `base` can be opened and holds its entries
is decided by looking at each directory of the tree. -/
def Tree.decBelow (w : World) : (base : List Char) → (t : Tree) → Decidable (Tree.Below w base t)
  | _, .nil => isTrue trivial
  | base, .dots _ rest => Tree.decBelow w base rest
  | base, .file _ rest => Tree.decBelow w base rest
  | base, .dir name children rest =>
    match Tree.decBelow w (childDir base name) children, Tree.decBelow w base rest with
    | isTrue h1, isTrue h2 =>
      if h : w.dirs (MNT_PATH ++ childDir base name) = some children.entries then
        isTrue ⟨h, h1, h2⟩
      else isFalse (fun hb => h hb.1)
    | isFalse h1, _ => isFalse (fun hb => h1 hb.2.1)
    | _, isFalse h2 => isFalse (fun hb => h2 hb.2.2)

instance (w : World) (base : List Char) (t : Tree) : Decidable (Tree.Below w base t) :=
  Tree.decBelow w base t

instance (w : World) (root : List Char) (t : Tree) : Decidable (Tree.Hosted w root t) := by
  unfold Tree.Hosted; infer_instance

/-- Whether the names of a tree are well formed is decided name by name. -/
def Tree.decWellNamed : (t : Tree) → Decidable t.WellNamed
  | .nil => isTrue trivial
  | .dots name rest =>
    match Tree.decWellNamed rest with
    | isTrue h =>
      if hn : name = ".".toList ∨ name = "..".toList then isTrue ⟨hn, h⟩
      else isFalse (fun hw => hn hw.1)
    | isFalse h => isFalse (fun hw => h hw.2)
  | .file name rest =>
    match Tree.decWellNamed rest with
    | isTrue h =>
      if hn : NULLCH ∉ name ∧ name.length ≤ MAX_DIR_LEN then isTrue ⟨hn.1, hn.2, h⟩
      else isFalse (fun hw => hn ⟨hw.1, hw.2.1⟩)
    | isFalse h => isFalse (fun hw => h hw.2.2)
  | .dir name children rest =>
    match Tree.decWellNamed children, Tree.decWellNamed rest with
    | isTrue h1, isTrue h2 =>
      if hn : NULLCH ∉ name ∧ name ≠ ".".toList ∧ name ≠ "..".toList ∧ name.length < MAX_DIR_LEN
      then isTrue ⟨hn.1, hn.2.1, hn.2.2.1, hn.2.2.2, h1, h2⟩
      else isFalse (fun hw => hn ⟨hw.1, hw.2.1, hw.2.2.1, hw.2.2.2.1⟩)
    | isFalse h1, _ => isFalse (fun hw => h1 hw.2.2.2.2.1)
    | _, isFalse h2 => isFalse (fun hw => h2 hw.2.2.2.2.2)

instance (t : Tree) : Decidable t.WellNamed := Tree.decWellNamed t

/-- `FreeUSBDevice` changes no global other than `USBAddr`. -/
theorem FreeUSBDevice_handles (drv : MscDriver) (w : World) :
    (FreeUSBDevice drv w).world.USBHandle = w.USBHandle ∧
    (FreeUSBDevice drv w).world.VFSHandle = w.VFSHandle := by
  unfold FreeUSBDevice
  split_ifs <;> exact ⟨rfl, rfl⟩

set_option maxRecDepth 20000 in
/-- C6, the code at the failing input: the lifecycle loop processes the detach
of the tracked device, every driver call returns `ESP_OK`; afterwards the
address is 0 but the device handle and the mount handle are still set, so the
state is not Absent, and a later `/info` request passes the test for a device
and hands the stale handle to the driver. -/
theorem detach_keeps_handles :
    (app_main.loop okDriver mountedWorld (.APP_DEVICE_DISCONNECTED (some 7))).aborted = false ∧
    (app_main.loop okDriver mountedWorld (.APP_DEVICE_DISCONNECTED (some 7))).world.USBAddr = 0 ∧
    (app_main.loop okDriver mountedWorld (.APP_DEVICE_DISCONNECTED (some 7))).world.USBHandle
      = some 7 ∧
    (app_main.loop okDriver mountedWorld (.APP_DEVICE_DISCONNECTED (some 7))).world.VFSHandle
      = some 9 ∧
    ¬ Absent (app_main.loop okDriver mountedWorld (.APP_DEVICE_DISCONNECTED (some 7))).world ∧
    (InfoHandler sampleEnv
        (app_main.loop okDriver mountedWorld (.APP_DEVICE_DISCONNECTED (some 7))).world
        (postRequest "")).calls = [Call.msc_host_get_device_info 7 ESP_OK] := by
  decide

/-- C7 as stated fails: an attach processed while a device is mounted, whose
install and mount succeed, replaces the tracked device handle 7 by 11 and the
mount handle 9 by 12. -/
theorem second_attach_overwrites :
    Mounted mountedWorld ∧
    (app_main.loop okDriver mountedWorld (.APP_DEVICE_CONNECTED 2)).world.USBHandle = some 11 ∧
    (app_main.loop okDriver mountedWorld (.APP_DEVICE_CONNECTED 2)).world.VFSHandle = some 12 ∧
    (app_main.loop okDriver mountedWorld (.APP_DEVICE_CONNECTED 2)).world.USBHandle
      ≠ mountedWorld.USBHandle := by
  decide

/-- C7 amended: for an attach message processed while the state is Mounted,
the tracked device handle and mount handle stay as they were when the device
install fails; when the install succeeds they are overwritten, by the handles
of the new device when the mount succeeds, and cleared when the mount fails
and the device is uninstalled. -/
theorem attach_while_mounted (drv : MscDriver) (w : World) (address : Nat) (_hM : Mounted w) :
    (drv.install_err ≠ ESP_OK →
      (app_main.loop drv w (.APP_DEVICE_CONNECTED address)).world.USBHandle = w.USBHandle ∧
      (app_main.loop drv w (.APP_DEVICE_CONNECTED address)).world.VFSHandle = w.VFSHandle) ∧
    (drv.install_err = ESP_OK → drv.register_err = ESP_OK →
      (app_main.loop drv w (.APP_DEVICE_CONNECTED address)).world.USBHandle
        = some drv.install_handle ∧
      (app_main.loop drv w (.APP_DEVICE_CONNECTED address)).world.VFSHandle
        = some drv.register_handle) ∧
    (drv.install_err = ESP_OK → drv.register_err ≠ ESP_OK → drv.uninstall_err = ESP_OK →
      (app_main.loop drv w (.APP_DEVICE_CONNECTED address)).world.USBHandle = none ∧
      (app_main.loop drv w (.APP_DEVICE_CONNECTED address)).world.VFSHandle = none) := by
  refine ⟨fun h => ?_, fun h1 h2 => ?_, fun h1 h2 h3 => ?_⟩
  · simp [app_main.loop, AllocateUSBDevice, h]
  · simp [app_main.loop, AllocateUSBDevice, h1, h2]
  · simp [app_main.loop, AllocateUSBDevice, h1, h2, h3]

/-- Witness of `attach_while_mounted`: a failed install on the mounted sample
world leaves handle 7 and mount handle 9 in place. -/
theorem attach_while_mounted_witness :
    Mounted mountedWorld ∧ noInstallDriver.install_err ≠ ESP_OK ∧
    (app_main.loop noInstallDriver mountedWorld (.APP_DEVICE_CONNECTED 2)).world.USBHandle
      = mountedWorld.USBHandle ∧
    (app_main.loop noInstallDriver mountedWorld (.APP_DEVICE_CONNECTED 2)).world.VFSHandle
      = mountedWorld.VFSHandle :=
  ⟨by decide, by decide,
    (attach_while_mounted noInstallDriver mountedWorld 2 (by decide)).1 (by decide)⟩

/-- C8 as stated fails in two places.  First, an attach whose install fails
while a device handle and a mount handle are tracked leaves the state Mounted
although the install did not succeed.  Second, when the install succeeds, the
mount fails and the uninstall call fails too, `ESP_ERROR_CHECK` stops the
firmware: no error is returned and the globals are not cleared. -/
theorem attach_only_if_fails :
    (noInstallDriver.install_err ≠ ESP_OK ∧ Mounted mountedWorld ∧
      Mounted (AllocateUSBDevice noInstallDriver mountedWorld (.APP_DEVICE_CONNECTED 2)).world) ∧
    (stuckDriver.install_err = ESP_OK ∧ stuckDriver.register_err ≠ ESP_OK ∧
      (AllocateUSBDevice stuckDriver absentWorld (.APP_DEVICE_CONNECTED 2)).aborted = true ∧
      ¬ Absent (AllocateUSBDevice stuckDriver absentWorld (.APP_DEVICE_CONNECTED 2)).world) := by
  decide

/-- C8 amended: for an attach in which the device install succeeds and the
mount fails, `AllocateUSBDevice` calls the uninstall of the new device and,
when that call returns `ESP_OK`, returns the mount error and leaves the state
Absent; and starting from the Absent state, the state is Mounted after an
attach only if both the install and the mount succeeded. -/
theorem attach_mount_failure (drv : MscDriver) (w : World) (msg : app_message_t) :
    (drv.install_err = ESP_OK → drv.register_err ≠ ESP_OK → drv.uninstall_err = ESP_OK →
      Call.msc_host_uninstall_device drv.install_handle ESP_OK
        ∈ (AllocateUSBDevice drv w msg).calls ∧
      (AllocateUSBDevice drv w msg).err = drv.register_err ∧
      (AllocateUSBDevice drv w msg).aborted = false ∧
      Absent (AllocateUSBDevice drv w msg).world) ∧
    (Absent w → Mounted (AllocateUSBDevice drv w msg).world →
      drv.install_err = ESP_OK ∧ drv.register_err = ESP_OK) := by
  constructor
  · intro h1 h2 h3
    simp [AllocateUSBDevice, h1, h2, h3, Absent]
  · intro hA hM
    obtain ⟨_, hU, hV⟩ := hA
    by_cases h1 : drv.install_err = ESP_OK
    · by_cases h2 : drv.register_err = ESP_OK
      · exact ⟨h1, h2⟩
      · by_cases h3 : drv.uninstall_err = ESP_OK <;>
          simp [AllocateUSBDevice, h1, h2, h3, Mounted, hV] at hM
    · simp [AllocateUSBDevice, h1, Mounted, hU] at hM

/-- Witness of `attach_mount_failure`: on the sample worlds, a failed mount
ends Absent with the mount error returned, and a successful attach from the
Absent state had both calls succeed. -/
theorem attach_mount_failure_witness :
    (noMountDriver.install_err = ESP_OK ∧ noMountDriver.register_err ≠ ESP_OK ∧
      noMountDriver.uninstall_err = ESP_OK ∧
      (AllocateUSBDevice noMountDriver mountedWorld (.APP_DEVICE_CONNECTED 2)).err = 259 ∧
      Absent (AllocateUSBDevice noMountDriver mountedWorld (.APP_DEVICE_CONNECTED 2)).world) ∧
    (Absent absentWorld ∧
      Mounted (AllocateUSBDevice okDriver absentWorld (.APP_DEVICE_CONNECTED 2)).world ∧
      okDriver.install_err = ESP_OK ∧ okDriver.register_err = ESP_OK) :=
  ⟨⟨by decide, by decide, by decide,
      ((attach_mount_failure noMountDriver mountedWorld (.APP_DEVICE_CONNECTED 2)).1
        (by decide) (by decide) (by decide)).2.1,
      ((attach_mount_failure noMountDriver mountedWorld (.APP_DEVICE_CONNECTED 2)).1
        (by decide) (by decide) (by decide)).2.2.2⟩,
    ⟨by decide, by decide,
      (attach_mount_failure okDriver absentWorld (.APP_DEVICE_CONNECTED 2)).2
        (by decide) (by decide)⟩⟩

/-! ## Requests without a device -/

/-- C9: for a request to `/filechunk`, `/download`, `/select` or `/info` made
while the mount state is Absent, the handler replies with an error, makes no
library call at all (so no open, read, write or directory listing) and leaves
the globals and the file system as they were. -/
theorem absent_device_rejected (env : Env) (w : World) (req : httpd_req_t) (hA : Absent w) :
    (isErrorReply (ChunkHandler env w req).resp ∧ (ChunkHandler env w req).calls = [] ∧
      (ChunkHandler env w req).world = w) ∧
    (isErrorReply (DownloadHandler env w req).resp ∧ (DownloadHandler env w req).calls = [] ∧
      (DownloadHandler env w req).world = w) ∧
    (isErrorReply (SelectHandler env w req).resp ∧ (SelectHandler env w req).calls = [] ∧
      (SelectHandler env w req).world = w) ∧
    (isErrorReply (InfoHandler env w req).resp ∧ (InfoHandler env w req).calls = [] ∧
      (InfoHandler env w req).world = w) := by
  obtain ⟨_, hU, _⟩ := hA
  have hC : ChunkHandler env w req
      = ChunkError w [] "Cannot process chunk. USB drive not found".toList := by
    simp only [ChunkHandler, hU, if_true]
  have hD : DownloadHandler env w req
      = ErrorHandler w [] "Cannot download files. USB drive not found".toList := by
    simp only [DownloadHandler, hU, if_true]
  have hS : SelectHandler env w req
      = ErrorHandler w [] "Cannot select files. USB drive not found".toList := by
    simp only [SelectHandler, hU, if_true]
  have hI : InfoHandler env w req
      = ErrorHandler w [] "No information. USB drive not found".toList := by
    simp only [InfoHandler, hU]
  rw [hC, hD, hS, hI]
  exact ⟨⟨⟨_, Or.inl rfl⟩, rfl, rfl⟩, ⟨⟨_, Or.inr rfl⟩, rfl, rfl⟩, ⟨⟨_, Or.inr rfl⟩, rfl, rfl⟩,
    ⟨⟨_, Or.inr rfl⟩, rfl, rfl⟩⟩

/-- Witness of `absent_device_rejected`: the four handlers on the world
without a device. -/
theorem absent_device_rejected_witness :
    Absent absentWorld ∧
    (ChunkHandler sampleEnv absentWorld (postRequest "index=0")).calls = [] ∧
    (DownloadHandler sampleEnv absentWorld (postRequest "index=0")).calls = [] ∧
    (SelectHandler sampleEnv absentWorld (postRequest "index=0")).calls = [] ∧
    (InfoHandler sampleEnv absentWorld (postRequest "index=0")).calls = [] :=
  ⟨by decide,
    (absent_device_rejected sampleEnv absentWorld (postRequest "index=0") (by decide)).1.2.1,
    (absent_device_rejected sampleEnv absentWorld (postRequest "index=0") (by decide)).2.1.2.1,
    (absent_device_rejected sampleEnv absentWorld (postRequest "index=0") (by decide)).2.2.1.2.1,
    (absent_device_rejected sampleEnv absentWorld (postRequest "index=0") (by decide)).2.2.2.2.1⟩

/-! ## Listing without the `recursive` field -/

/-- With `maxDepth = 0` the loop body of `ListDirectory` makes no library call. -/
theorem entry_no_descent (recurse : List Char → ListOutcome) (baseDir : List Char)
    (depth : Int) (entry : dirent) :
    (ListDirectory.entry recurse baseDir depth 0 entry).2 = [] := by
  unfold ListDirectory.entry
  simp only []
  split_ifs <;> first | rfl | omega

/-- With `maxDepth = 0` `ListDirectory` opens the start directory and no other. -/
theorem ListDirectory_flat (w : World) (baseDir : List Char) :
    (ListDirectory w baseDir 0 0).calls
        = [Call.opendir (snprintf (strlen baseDir + MAX_DIR_LEN - 1) (MNT_PATH ++ cstr baseDir))
            false] ∨
    (ListDirectory w baseDir 0 0).calls
        = [Call.opendir (snprintf (strlen baseDir + MAX_DIR_LEN - 1) (MNT_PATH ++ cstr baseDir))
            true, Call.closedir] := by
  unfold ListDirectory
  simp only [sub_self, Int.toNat_zero, zero_add]
  unfold ListDirectory.go
  simp only [ne_eq, not_true_eq_false, false_and, if_false]
  cases w.dirs (snprintf (strlen baseDir + MAX_DIR_LEN - 1) (MNT_PATH ++ cstr baseDir)) with
  | none => exact Or.inl rfl
  | some entries =>
    right
    simp only [List.map_map]
    have : (entries.map (Prod.snd ∘ ListDirectory.entry
        (fun d => ListDirectory.go w 1 d (0 + 1) 0) baseDir 0 0)).flatten = [] := by
      rw [List.flatten_eq_nil_iff]
      intro l hl
      rw [List.mem_map] at hl
      obtain ⟨e, _, rfl⟩ := hl
      exact entry_no_descent _ _ _ _
    rw [this]
    rfl

/-- When the lookup of `recursive` fails, `SelectHandler` makes no library call other
than those of `ListDirectory` with `maxDepth = 0`, which opens the start directory only. -/
theorem select_without_recursive (env : Env) (w : World) (req : httpd_req_t)
    (hr : ParsePostData env.digit
      (SelectHandler.postData env req) "recursive".toList = none) :
    (SelectHandler env w req).calls = [] ∨
    ∃ startDir, (SelectHandler env w req).calls = (ListDirectory w startDir 0 0).calls := by
  unfold SelectHandler
  by_cases hU : w.USBHandle = none
  · rw [if_pos hU]
    exact Or.inl rfl
  · rw [if_neg hU]
    simp only []
    by_cases hR : (httpd_req_recv req env.BUFSIZ).1 ≤ 0
    · rw [if_pos hR]
      exact Or.inl rfl
    · rw [if_neg hR]
      cases ParsePostData env.digit (SelectHandler.postData env req) "startdir".toList with
      | none => exact Or.inl rfl
      | some startDir0 =>
        right
        simp only [hr, Option.isSome_none, Bool.false_eq_true, if_false, ite_self]
        exact ⟨_, rfl⟩

/-- C10, the code at the failing input: the form body
`startdir=%2Frecursive%2F&depth=2&submit=Submit` has the fields `startdir`,
`depth` and `submit` and no field `recursive`; the lookup of `recursive`
succeeds all the same (the word occurs in the value of `startdir`), the
subdirectory `sub` is opened and its file `deep.txt` is listed. -/
theorem select_descends_without_recursive_field :
    formFieldNames "startdir=%2Frecursive%2F&depth=2&submit=Submit".toList
      = ["startdir".toList, "depth".toList, "submit".toList] ∧
    (ParsePostData sampleEnv.digit
      (SelectHandler.postData sampleEnv
        (postRequest "startdir=%2Frecursive%2F&depth=2&submit=Submit"))
      "recursive".toList).isSome = true ∧
    Call.opendir "/usb/recursive/sub/".toList true
      ∈ (SelectHandler sampleEnv treeWorld
          (postRequest "startdir=%2Frecursive%2F&depth=2&submit=Submit")).calls ∧
    Resp.send_chunk
        "<a href=\"/download?file=/recursive/sub/deep.txt\" download=\"deep.txt\">deep.txt</a>".toList
      ∈ (SelectHandler sampleEnv treeWorld
          (postRequest "startdir=%2Frecursive%2F&depth=2&submit=Submit")).resp := by
  decide

/-! ## Upload: lemmas -/

/-- The clock block of `ChunkHandler` changes `ourTime` only and makes no file-system
call. -/
theorem setClock_world (env : Env) (w : World) (pd : List Char) :
    (ChunkHandler.setClock env w pd).1.files = w.files ∧
    (ChunkHandler.setClock env w pd).1.dirs = w.dirs ∧
    (ChunkHandler.setClock env w pd).1.USBHandle = w.USBHandle ∧
    (ChunkHandler.setClock env w pd).1.VFSHandle = w.VFSHandle ∧
    (ChunkHandler.setClock env w pd).1.USBAddr = w.USBAddr ∧
    ∀ c ∈ (ChunkHandler.setClock env w pd).2, c.isFileSystem = false := by
  have key : ∀ x : World × List Call, (x = (w, []) ∨ ∃ t, x = ({ w with ourTime := t }, [Call.settimeofday t])) →
      x.1.files = w.files ∧ x.1.dirs = w.dirs ∧ x.1.USBHandle = w.USBHandle ∧
      x.1.VFSHandle = w.VFSHandle ∧ x.1.USBAddr = w.USBAddr ∧
      ∀ c ∈ x.2, c.isFileSystem = false := by
    rintro x (rfl | ⟨t, rfl⟩)
    · simp
    · refine ⟨rfl, rfl, rfl, rfl, rfl, ?_⟩
      intro c hc
      simp only [List.mem_singleton] at hc
      subst hc
      rfl
  apply key
  unfold ChunkHandler.setClock
  by_cases h0 : w.ourTime = 0
  · simp only [h0, if_true]
    cases ParsePostData env.digit pd "timestamp".toList with
    | none => exact Or.inl rfl
    | some ts =>
      simp only []
      cases env.strptime (cstr ts) "%Y-%m-%dT%H:%M:%S%Z".toList with
      | some ti =>
        simp only []
        split_ifs
        · exact Or.inr ⟨_, rfl⟩
        · exact Or.inl rfl
      | none =>
        simp only []
        cases env.strptime (cstr ts) "%Y-%m-%dT%H:%M:%S%z".toList with
        | none => exact Or.inl rfl
        | some ti =>
          simp only []
          split_ifs
          · exact Or.inr ⟨_, rfl⟩
          · exact Or.inl rfl
  · rw [if_neg h0]
    exact Or.inl rfl

/-- The pointer that `strchr` returns lies inside the string; when it is the start of the
string, the string starts with the character. -/
theorem strchr_length (s : List Char) (ch : Char) (p : List Char) (h : strchr s ch = some p) :
    p.length ≤ s.length ∧ (p.length = s.length → s.head? = some ch) := by
  induction s with
  | nil => simp [strchr] at h
  | cons c rest ih =>
    unfold strchr at h
    split_ifs at h with h1 h2
    · simp only [Option.some.injEq] at h
      subst h
      simp [h1]
    · have := ih h
      simp only [List.length_cons, List.head?_cons]
      omega

/-- A field of length 0 is copied to the empty string. -/
theorem loop_of_len_zero (d : Int) (src : List Char) (h : FindPostDataLen src = 0) :
    ParsePostData.loop d 0 src = [] := by
  cases src with
  | nil => rfl
  | cons c rest =>
    by_cases h1 : c = '&'
    · simp [ParsePostData.loop, h1]
    · by_cases h2 : c = NULLCH
      · simp [ParsePostData.loop, h2]
      · exfalso
        unfold FindPostDataLen at h
        split at h
        · simp [strlen, cstr, List.takeWhile, h2] at h
        · rename_i p hp
          have := strchr_length _ _ _ hp
          simp at this h
          have h3 := this.2 (by omega)
          exact h1 h3

/-- A field that parses was found by `FindPostData`. -/
theorem ParsePostData_eq_some (d : Int) (pd key b64 : List Char)
    (hp : ParsePostData d pd key = some b64) :
    ∃ src, FindPostData pd key = some src ∧ b64 = ParsePostData.loop d 0 src := by
  unfold ParsePostData at hp
  cases hs : FindPostData pd key with
  | none => rw [hs] at hp; simp at hp
  | some src =>
    rw [hs] at hp
    simp only [Option.some.injEq] at hp
    exact ⟨src, rfl, hp.symm⟩

/-- A field of length 0 is parsed to the empty string. -/
theorem ParsePostData_of_len_zero (d : Int) (pd key src b64 : List Char)
    (hs : FindPostData pd key = some src) (hl : FindPostDataLen src = 0)
    (hp : ParsePostData d pd key = some b64) : b64 = [] := by
  unfold ParsePostData at hp
  rw [hs] at hp
  simp only [Option.some.injEq] at hp
  rw [← hp]
  exact loop_of_len_zero d src hl

/-- A store before a run changes neither the world, the reply nor the calls of the run. -/
theorem storing_agrees (stored size : Nat) (o : Outcome) :
    (Outcome.storing stored size o).Agrees o :=
  ⟨rfl, rfl, rfl⟩

/-- Agreement of runs is transitive. -/
theorem Outcome.Agrees.trans {a b c : Outcome} (h : a.Agrees b) (h' : b.Agrees c) :
    a.Agrees c :=
  ⟨h.1.trans h'.1, h.2.1.trans h'.2.1, h.2.2.trans h'.2.2⟩

/-- A store before a run does not change the reply of the run. -/
theorem storing_resp (stored size : Nat) (o : Outcome) :
    (Outcome.storing stored size o).resp = o.resp := rfl

/-- A store before a run does not change the world after the run. -/
theorem storing_world (stored size : Nat) (o : Outcome) :
    (Outcome.storing stored size o).world = o.world := rfl

/-- A run overruns after a store exactly when the store does not fit or the run overruns. -/
theorem storing_overrun (stored size : Nat) (o : Outcome) :
    (Outcome.storing stored size o).overrun = false ↔ (stored ≤ size ∧ o.overrun = false) := by
  unfold Outcome.storing
  simp only [Bool.or_eq_false_iff, decide_eq_false_iff_not, not_lt]
  exact ⟨fun h => ⟨h.2, h.1⟩, fun h => ⟨h.2, h.1⟩⟩

/-- The file part of `ChunkHandler` stores into no buffer of fixed size. -/
theorem store_overrun (env : Env) (w : World) (calls : List Call) (URLFile : List Char)
    (index chunkSize : Int) (destData : List Nat) (destLen : Nat) :
    (ChunkHandler.store env w calls URLFile index chunkSize destData destLen).overrun = false := by
  unfold ChunkHandler.store
  simp only []
  split
  · rfl
  · split_ifs <;> rfl

/-- The three ways the payload part of `ChunkHandler` ends: a rejection that leaves the
world and the calls as they were, the reply `OK` for an empty field, or the file part
reached with a payload that passed every check. -/
theorem decode_cases (env : Env) (w : World) (calls : List Call) (pd URLFile : List Char)
    (index chunkSize dataLen : Int) :
    (∃ msg ∈ rejectionMessages,
      (ChunkHandler.decode env w calls pd URLFile index chunkSize dataLen).Agrees
        (ChunkError w calls msg)) ∨
    (∃ src, FindPostData pd "datachunk".toList = some src ∧ FindPostDataLen src = 0 ∧
      ChunkHandler.decode env w calls pd URLFile index chunkSize dataLen
        = { world := w, resp := [Resp.send "OK".toList], calls := calls }) ∨
    (∃ src b64, FindPostData pd "datachunk".toList = some src ∧ 0 < FindPostDataLen src ∧
      ParsePostData env.digit pd "datachunk".toList = some b64 ∧ strlen b64 % 4 = 0 ∧
      0 < ChunkHandler.destLen b64 ∧ ChunkHandler.destLen b64 = intToSize dataLen ∧
      (mbedtls_base64_decode false (ChunkHandler.destLen b64) b64 (strlen b64)).ret = 0 ∧
      (ChunkHandler.decode env w calls pd URLFile index chunkSize dataLen).Agrees
        (ChunkHandler.store env w calls URLFile index chunkSize
            (mbedtls_base64_decode false (ChunkHandler.destLen b64) b64 (strlen b64)).out
            (ChunkHandler.destLen b64))) := by
  unfold ChunkHandler.decode
  cases hs : FindPostData pd "datachunk".toList with
  | none => exact Or.inl ⟨_, by simp [rejectionMessages], rfl, rfl, rfl⟩
  | some src =>
    simp only []
    by_cases hl : FindPostDataLen src > 0
    · rw [if_pos hl]
      cases hb : ParsePostData env.digit pd "datachunk".toList with
      | none => exact Or.inl ⟨_, by simp [rejectionMessages], rfl, rfl, rfl⟩
      | some b64 =>
        simp only []
        by_cases h4 : strlen b64 % 4 ≠ 0
        · rw [if_pos h4]
          exact Or.inl ⟨_, by simp [rejectionMessages], rfl, rfl, rfl⟩
        · rw [if_neg h4]
          by_cases h0 : ChunkHandler.destLen b64 ≤ 0
          · rw [if_pos h0]
            exact Or.inl ⟨_, by simp [rejectionMessages], rfl, rfl, rfl⟩
          · rw [if_neg h0]
            by_cases hm : ChunkHandler.destLen b64 ≠ intToSize dataLen
            · rw [if_pos hm]
              exact Or.inl ⟨_, by simp [rejectionMessages], rfl, rfl, rfl⟩
            · rw [if_neg hm]
              by_cases hr : (mbedtls_base64_decode false (ChunkHandler.destLen b64) b64 (strlen b64)).ret ≠ 0
              · rw [if_pos hr]
                exact Or.inl ⟨_, by simp [rejectionMessages], rfl, rfl, rfl⟩
              · rw [if_neg hr]
                refine Or.inr (Or.inr ⟨src, b64, rfl, hl, rfl, ?_, ?_, ?_, ?_, rfl, rfl, rfl⟩)
                · omega
                · omega
                · exact not_not.mp hm
                · exact not_not.mp hr
    · rw [if_neg hl]
      exact Or.inr (Or.inl ⟨src, rfl, by omega, rfl⟩)

/-- The payload part of `ChunkHandler` overruns `b64Data` exactly when a non-empty
`datachunk` field is found and its cleaned text with the terminating NUL is longer
than the raw field. -/
theorem decode_overrun (env : Env) (w : World) (calls : List Call) (pd URLFile : List Char)
    (index chunkSize dataLen : Int) :
    (ChunkHandler.decode env w calls pd URLFile index chunkSize dataLen).overrun = false ↔
    ((ChunkHandler.b64Size pd).getD 0 = 0 ∨
      (ParsePostData.stored env.digit pd "datachunk".toList).getD 0
        ≤ (ChunkHandler.b64Size pd).getD 0) := by
  unfold ChunkHandler.decode ChunkHandler.b64Size ParsePostData.stored
  cases hs : FindPostData pd "datachunk".toList with
  | none => simp [ChunkError]
  | some src =>
    simp only [Option.map_some', Option.getD_some]
    by_cases hl : FindPostDataLen src > 0
    · rw [if_pos hl]
      cases hb : ParsePostData env.digit pd "datachunk".toList with
      | none =>
        simp only [Option.map_none', Option.getD_none]
        constructor
        · intro _; exact Or.inr (Nat.zero_le _)
        · intro _; rfl
      | some b64 =>
        simp only [Option.map_some', Option.getD_some]
        rw [storing_overrun]
        have hin : (let srcLen := strlen b64
            if srcLen % 4 ≠ 0 then ChunkError w calls "Data chunk incorrect length".toList
            else
              let destLen := ChunkHandler.destLen b64
              if destLen ≤ 0 then ChunkError w calls "Decoded length is <= 0".toList
              else if destLen ≠ intToSize dataLen then
                ChunkError w calls "Decoded length does not match payload length".toList
              else
                let decoded := mbedtls_base64_decode false destLen b64 srcLen
                if decoded.ret ≠ 0 then ChunkError w calls "Unable to decode data".toList
                else ChunkHandler.store env w calls URLFile index chunkSize decoded.out
                  destLen).overrun = false := by
          simp only []
          split_ifs
          · rfl
          · rfl
          · rfl
          · rfl
          · exact store_overrun _ _ _ _ _ _ _ _
        constructor
        · intro h; exact Or.inr h.1
        · rintro (h | h)
          · omega
          · exact ⟨h, hin⟩
    · rw [if_neg hl]
      constructor
      · intro _; left; omega
      · intro _; rfl

/-- The two ways the head of `ChunkHandler` ends: a rejection, or the payload part reached
with the four fields found. -/
theorem ChunkHandler_cases (env : Env) (w : World) (req : httpd_req_t) :
    (∃ msg ∈ rejectionMessages, (ChunkHandler env w req).Agrees (ChunkError w [] msg)) ∨
    (∃ indexField sizeField lenField URLFile,
      w.USBHandle ≠ none ∧ 0 < (httpd_req_recv req (MAX_CHUNK_LEN * 2 - 1)).1 ∧
      ParsePostData env.digit (ChunkHandler.postData env req) "index".toList = some indexField ∧
      ParsePostData env.digit (ChunkHandler.postData env req) "chunksize".toList = some sizeField ∧
      ParsePostData env.digit (ChunkHandler.postData env req) "datalen".toList = some lenField ∧
      ParsePostData env.digit (ChunkHandler.postData env req) "filename".toList = some URLFile ∧
      (ChunkHandler env w req).Agrees
        (ChunkHandler.decode env
            (ChunkHandler.setClock env w (ChunkHandler.postData env req)).1
            (ChunkHandler.setClock env w (ChunkHandler.postData env req)).2
            (ChunkHandler.postData env req) URLFile
            (atoi indexField) (atoi sizeField) (atoi lenField))) := by
  unfold ChunkHandler
  by_cases hU : w.USBHandle = none
  · rw [if_pos hU]
    exact Or.inl ⟨_, by simp [rejectionMessages], rfl, rfl, rfl⟩
  · rw [if_neg hU]
    simp only []
    by_cases hR : (httpd_req_recv req (MAX_CHUNK_LEN * 2 - 1)).1 ≤ 0
    · rw [if_pos hR]
      exact Or.inl ⟨_, by simp [rejectionMessages], rfl, rfl, rfl⟩
    · rw [if_neg hR]
      cases hi : ParsePostData env.digit (ChunkHandler.postData env req) "index".toList with
      | none => exact Or.inl ⟨_, by simp [rejectionMessages], rfl, rfl, rfl⟩
      | some indexField =>
      simp only []
      cases hs : ParsePostData env.digit (ChunkHandler.postData env req) "chunksize".toList with
      | none => exact Or.inl ⟨_, by simp [rejectionMessages], rfl, rfl, rfl⟩
      | some sizeField =>
      simp only []
      cases hl : ParsePostData env.digit (ChunkHandler.postData env req) "datalen".toList with
      | none => exact Or.inl ⟨_, by simp [rejectionMessages], rfl, rfl, rfl⟩
      | some lenField =>
      simp only []
      cases hf : ParsePostData env.digit (ChunkHandler.postData env req) "filename".toList with
      | none => exact Or.inl ⟨_, by simp [rejectionMessages], rfl, rfl, rfl⟩
      | some URLFile =>
      simp only []
      refine Or.inr ⟨indexField, sizeField, lenField, URLFile, hU, by omega, rfl, rfl, rfl, rfl,
        ?_⟩
      exact (storing_agrees _ _ _).trans ((storing_agrees _ _ _).trans
        ((storing_agrees _ _ _).trans ((storing_agrees _ _ _).trans (storing_agrees _ _ _))))

/-- A request whose copies all fit their buffers is run without an overrun, whatever the
world. -/
theorem Fits_overrun (env : Env) (w : World) (req : httpd_req_t)
    (h : ChunkHandler.Fits env req) : (ChunkHandler env w req).overrun = false := by
  obtain ⟨hkeys, hb64⟩ := h
  have hidx := hkeys "index".toList (by simp)
  have hsize := hkeys "chunksize".toList (by simp)
  have hlen := hkeys "datalen".toList (by simp)
  have hname := hkeys "filename".toList (by simp)
  have hts := hkeys "timestamp".toList (by simp)
  unfold ParsePostData.stored at hidx hsize hlen hname
  unfold ChunkHandler
  by_cases hU : w.USBHandle = none
  · rw [if_pos hU]
    rfl
  · rw [if_neg hU]
    simp only []
    by_cases hR : (httpd_req_recv req (MAX_CHUNK_LEN * 2 - 1)).1 ≤ 0
    · rw [if_pos hR]
      rfl
    · rw [if_neg hR]
      cases hi : ParsePostData env.digit (ChunkHandler.postData env req) "index".toList with
      | none => rfl
      | some indexField =>
      rw [hi] at hidx
      simp only [Option.map_some', Option.getD_some] at hidx
      simp only []
      rw [storing_overrun]
      refine ⟨hidx, ?_⟩
      cases hs : ParsePostData env.digit (ChunkHandler.postData env req) "chunksize".toList with
      | none => rfl
      | some sizeField =>
      rw [hs] at hsize
      simp only [Option.map_some', Option.getD_some] at hsize
      simp only []
      rw [storing_overrun]
      refine ⟨hsize, ?_⟩
      cases hl : ParsePostData env.digit (ChunkHandler.postData env req) "datalen".toList with
      | none => rfl
      | some lenField =>
      rw [hl] at hlen
      simp only [Option.map_some', Option.getD_some] at hlen
      simp only []
      rw [storing_overrun]
      refine ⟨hlen, ?_⟩
      cases hf : ParsePostData env.digit (ChunkHandler.postData env req) "filename".toList with
      | none => rfl
      | some URLFile =>
      rw [hf] at hname
      simp only [Option.map_some', Option.getD_some] at hname
      simp only []
      rw [storing_overrun, storing_overrun, decode_overrun]
      refine ⟨hname, ?_, hb64⟩
      split_ifs
      · exact hts
      · exact Nat.zero_le _

/-- An error reply is not the reply `OK`. -/
theorem isErrorReply_not_ok (resp : List Resp) (h : isErrorReply resp) : ¬ isOkReply resp := by
  rcases h with ⟨msg, h | h⟩ <;> simp [isOkReply, h]

/-- The value of `atoi` is an `int`. -/
theorem atoi_range (s : List Char) : INT_MIN ≤ atoi s ∧ atoi s ≤ INT_MAX := by
  unfold atoi
  simp only []
  split_ifs <;> simp only [INT_MIN, INT_MAX] at * <;> omega

/-- A non-negative `int` keeps its value as a `size_t`. -/
theorem intToSize_natCast (n : Nat) (h : (n : Int) ≤ INT_MAX) : intToSize (n : Int) = n := by
  unfold intToSize
  simp only [INT_MAX] at h
  omega

/-- The path built by `ChunkHandler` is never truncated: it is `/usb/` followed by the
file name. -/
theorem USBFile_eq (URLFile : List Char) :
    snprintf (strlen URLFile + MAX_DIR_LEN - 1) (MNT_PATH ++ ['/'] ++ cstr URLFile)
      = MNT_PATH ++ '/' :: cstr URLFile := by
  unfold snprintf
  have h4 : MNT_PATH.length = 4 := by decide
  have hM : MAX_DIR_LEN = 255 := rfl
  rw [List.take_of_length_le]
  · simp
  · simp only [List.length_append, List.length_singleton, h4, hM, strlen]
    omega

/-- Library `fseek` keeps the path of the stream. -/
theorem fseek_path (f : FILE) (offset : Nat) : (fseek f offset).path = f.path := by
  unfold fseek
  split_ifs <;> rfl

/-- Library `fseek` keeps the mode of the stream. -/
theorem fseek_append (f : FILE) (offset : Nat) : (fseek f offset).append = f.append := by
  unfold fseek
  split_ifs <;> rfl

/-- What `fwrite`, `fflush` and `fclose` on a stream with an empty buffer leave in the file
store: the accepted bytes that `fflush` stores, at the end of the file in append mode and
at the file position otherwise. -/
theorem flush_files (fail : Option Nat) (files : List Char → Option (List Nat)) (f : FILE)
    (max : Nat) (data : List Nat) (hb : f.buffer = []) :
    (fclose fail (fflush fail files (fwrite max f data).1).1
      (fflush fail files (fwrite max f data).1).2.1).1
      = if (data.take max).take (fail.getD (data.take max).length) = [] then files
        else setFile files f.path
          (if f.append then
            (files f.path).getD [] ++ (data.take max).take (fail.getD (data.take max).length)
          else writeAt ((files f.path).getD []) f.pos
            ((data.take max).take (fail.getD (data.take max).length))) := by
  unfold fclose fflush fwrite
  simp only [hb, List.nil_append, List.take_nil, if_true]

/-- Library `fseek` leaves the buffer of the stream as it is. -/
theorem fseek_buffer (f : FILE) (offset : Nat) : (fseek f offset).buffer = f.buffer := by
  unfold fseek
  split_ifs <;> rfl

/-- The file part of `ChunkHandler` when the file opens and every byte is written and
stored: the file holds the decoded bytes for chunk 0, and its former bytes followed by
the decoded bytes for any other chunk. -/
theorem store_ok (env : Env) (w : World) (calls : List Call) (URLFile : List Char)
    (index chunkSize : Int) (destData : List Nat)
    (ho : env.fopen_ok = true) (hw : destData.length ≤ env.fwrite_max)
    (hf : destData.length ≤ env.fflush_fail.getD destData.length) :
    isOkReply (ChunkHandler.store env w calls URLFile index chunkSize destData
      destData.length).resp ∧
    (ChunkHandler.store env w calls URLFile index chunkSize destData
      destData.length).world.USBHandle = w.USBHandle ∧
    (ChunkHandler.store env w calls URLFile index chunkSize destData
      destData.length).world.files (MNT_PATH ++ '/' :: cstr URLFile)
      = some (if index = 0 then destData
          else (w.files (MNT_PATH ++ '/' :: cstr URLFile)).getD [] ++ destData) := by
  have htake : (destData.take destData.length).take env.fwrite_max = destData := by
    rw [List.take_length, List.take_of_length_le hw]
  have hstored : ((destData.take destData.length).take env.fwrite_max).take
      (env.fflush_fail.getD ((destData.take destData.length).take env.fwrite_max).length)
      = destData := by
    rw [htake, List.take_of_length_le hf]
  have hlen : ∀ f : FILE, (fwrite env.fwrite_max f (destData.take destData.length)).2
      = destData.length := by
    intro f
    unfold fwrite
    simp only [htake]
  unfold ChunkHandler.store
  simp only [USBFile_eq]
  by_cases h0 : index = 0
  · subst h0
    have hopen : fopen env.fopen_ok w.files (MNT_PATH ++ '/' :: cstr URLFile) "wb".toList
        = (setFile w.files (MNT_PATH ++ '/' :: cstr URLFile) [],
           some { path := MNT_PATH ++ '/' :: cstr URLFile, append := false, pos := 0 }) := by
      simp [fopen, ho]
    simp only [if_true, hopen]
    rw [flush_files _ _ _ _ _ (by rw [fseek_buffer]), hstored]
    rw [hlen, if_neg (by simp)]
    refine ⟨rfl, rfl, ?_⟩
    by_cases hd : destData = []
    · subst hd
      simp [setFile]
    · rw [if_neg hd]
      simp [setFile, fseek, intToSize, writeAt]
  · have hne : "ab".toList ≠ "wb".toList := by decide
    have hopen : fopen env.fopen_ok w.files (MNT_PATH ++ '/' :: cstr URLFile) "ab".toList
        = (setFile w.files (MNT_PATH ++ '/' :: cstr URLFile)
            ((w.files (MNT_PATH ++ '/' :: cstr URLFile)).getD []),
           some { path := MNT_PATH ++ '/' :: cstr URLFile, append := true, pos := 0 }) := by
      simp [fopen, ho]
    simp only [if_neg h0, hopen]
    rw [flush_files _ _ _ _ _ (by rw [fseek_buffer]), hstored]
    rw [hlen, if_neg (by simp)]
    refine ⟨rfl, rfl, ?_⟩
    by_cases hd : destData = []
    · subst hd
      simp [setFile]
    · rw [if_neg hd]
      simp [setFile, fseek_path, fseek_append]

/-- The payload part of `ChunkHandler` reaches the file part for a non-empty payload that
decodes to `piece`. -/
theorem decode_delivers (env : Env) (w : World) (calls : List Call) (pd URLFile b64 : List Char)
    (index chunkSize : Int) (piece : List Nat)
    (hp : ParsePostData env.digit pd "datachunk".toList = some b64)
    (h4 : strlen b64 % 4 = 0) (hlen : ChunkHandler.destLen b64 = piece.length)
    (hret : (mbedtls_base64_decode false piece.length b64 (strlen b64)).ret = 0)
    (hout : (mbedtls_base64_decode false piece.length b64 (strlen b64)).out = piece)
    (hne : piece ≠ []) (hmax : (piece.length : Int) ≤ INT_MAX) :
    (ChunkHandler.decode env w calls pd URLFile index chunkSize (piece.length : Int)).Agrees
      (ChunkHandler.store env w calls URLFile index chunkSize piece piece.length) := by
  obtain ⟨src, hs, hb⟩ := ParsePostData_eq_some _ _ _ _ hp
  have hpos : 0 < piece.length := List.length_pos.mpr hne
  have hsrc : FindPostDataLen src > 0 := by
    by_contra hz
    have h0 : FindPostDataLen src = 0 := by omega
    have hb0 : b64 = [] := by rw [hb]; exact loop_of_len_zero _ _ h0
    rw [hb0] at hlen
    have : ChunkHandler.destLen [] = 0 := by decide
    omega
  unfold ChunkHandler.decode
  rw [hs]
  simp only []
  rw [if_pos hsrc, hp]
  simp only []
  rw [if_neg (by omega), hlen, if_neg (by omega), if_neg (by rw [intToSize_natCast _ hmax]; simp),
    if_neg (by rw [hret]; simp), hout]
  exact storing_agrees _ _ _

/-- The head of `ChunkHandler` when a device is present, something is received and the
four fields are found: the payload part is reached. -/
theorem ChunkHandler_found (env : Env) (w : World) (req : httpd_req_t)
    (indexField sizeField lenField URLFile : List Char)
    (hU : w.USBHandle ≠ none) (hr : 0 < (httpd_req_recv req (MAX_CHUNK_LEN * 2 - 1)).1)
    (hi : ParsePostData env.digit (ChunkHandler.postData env req) "index".toList
      = some indexField)
    (hs : ParsePostData env.digit (ChunkHandler.postData env req) "chunksize".toList
      = some sizeField)
    (hl : ParsePostData env.digit (ChunkHandler.postData env req) "datalen".toList
      = some lenField)
    (hf : ParsePostData env.digit (ChunkHandler.postData env req) "filename".toList
      = some URLFile) :
    (ChunkHandler env w req).Agrees
      (ChunkHandler.decode env
        (ChunkHandler.setClock env w (ChunkHandler.postData env req)).1
        (ChunkHandler.setClock env w (ChunkHandler.postData env req)).2
        (ChunkHandler.postData env req) URLFile
        (atoi indexField) (atoi sizeField) (atoi lenField)) := by
  unfold ChunkHandler
  rw [if_neg hU]
  simp only []
  rw [if_neg (by omega), hi]
  simp only []
  rw [hs]
  simp only []
  rw [hl]
  simp only []
  rw [hf]
  exact (storing_agrees _ _ _).trans ((storing_agrees _ _ _).trans
    ((storing_agrees _ _ _).trans ((storing_agrees _ _ _).trans (storing_agrees _ _ _))))

/-- One chunk submitted and written: no buffer is overrun, the reply is `OK` and the file
holds `piece` for chunk 0, its former bytes followed by `piece` for any other chunk. -/
theorem chunk_step (env : Env) (w : World) (req : httpd_req_t) (name : List Char)
    (chunkSize index : Nat) (piece : List Nat)
    (hU : w.USBHandle ≠ none) (hd : Delivers env req name chunkSize index piece)
    (hne : piece ≠ []) (hw : WriteSucceeds env piece) :
    isOkReply (ChunkHandler env w req).resp ∧
    (ChunkHandler env w req).world.USBHandle = w.USBHandle ∧
    (ChunkHandler env w req).world.files (MNT_PATH ++ '/' :: name)
      = some (if index = 0 then piece
          else (w.files (MNT_PATH ++ '/' :: name)).getD [] ++ piece) ∧
    (ChunkHandler env w req).overrun = false := by
  obtain ⟨hr, hi, hs, hl, hf, hb, hfit⟩ := hd
  rw [Option.map_eq_some'] at hi hs hl hf hb
  obtain ⟨indexField, hi, hiv⟩ := hi
  obtain ⟨sizeField, hs, hsv⟩ := hs
  obtain ⟨lenField, hl, hlv⟩ := hl
  obtain ⟨URLFile, hf, hfv⟩ := hf
  obtain ⟨b64, hb, hbv⟩ := hb
  simp only [Prod.mk.injEq] at hbv
  obtain ⟨h4, hlen, hret, hout⟩ := hbv
  have hmax : (piece.length : Int) ≤ INT_MAX := by
    rw [← hlv]; exact (atoi_range lenField).2
  have hc := setClock_world env w (ChunkHandler.postData env req)
  have hrun : (ChunkHandler env w req).Agrees
      (ChunkHandler.store env (ChunkHandler.setClock env w (ChunkHandler.postData env req)).1
          (ChunkHandler.setClock env w (ChunkHandler.postData env req)).2 URLFile
          (index : Int) (chunkSize : Int) piece piece.length) := by
    have h1 := ChunkHandler_found env w req indexField sizeField lenField URLFile hU hr hi hs hl
      hf
    rw [hiv, hsv, hlv] at h1
    exact h1.trans
      (decode_delivers env _ _ _ URLFile b64 _ _ piece hb h4 hlen hret hout hne hmax)
  have hst := store_ok env (ChunkHandler.setClock env w (ChunkHandler.postData env req)).1
    (ChunkHandler.setClock env w (ChunkHandler.postData env req)).2 URLFile
    (index : Int) (chunkSize : Int) piece hw.1 hw.2.1 hw.2.2
  rw [hfv, hc.1, hc.2.2.1] at hst
  rw [hrun.1, isOkReply, hrun.2.1]
  refine ⟨hst.1, hst.2.1, ?_, Fits_overrun env w req hfit⟩
  rw [hst.2.2]
  congr 1
  by_cases h0 : index = 0
  · simp [h0]
  · have : ¬ ((index : Int) = 0) := by omega
    simp [h0, this]

/-- The pieces of a file concatenate to the file, none of them is empty, and a non-empty
file has a piece. -/
theorem pieces_go_spec (chunkSize : Nat) (hc : 1 ≤ chunkSize) :
    ∀ (fuel : Nat) (data : List Nat), data.length ≤ fuel →
      (pieces.go chunkSize fuel data).flatten = data ∧
      (∀ p ∈ pieces.go chunkSize fuel data, p ≠ []) ∧
      (data ≠ [] → pieces.go chunkSize fuel data ≠ []) := by
  intro fuel
  induction fuel with
  | zero =>
    intro data h
    have : data = [] := List.length_eq_zero.mp (by omega)
    subst this
    simp [pieces.go]
  | succ n ih =>
    intro data h
    unfold pieces.go
    by_cases hd : data = []
    · simp [hd]
    · rw [if_neg hd]
      have hpos : 0 < data.length := List.length_pos.mpr hd
      have hlen : (data.drop chunkSize).length ≤ n := by
        rw [List.length_drop]; omega
      obtain ⟨h1, h2, _⟩ := ih (data.drop chunkSize) hlen
      refine ⟨?_, ?_, ?_⟩
      · rw [List.flatten_cons, h1, List.take_append_drop]
      · intro p hp
        rcases List.mem_cons.mp hp with rfl | hp
        · intro h0
          have := congrArg List.length h0
          rw [List.length_take] at this
          simp only [List.length_nil] at this
          omega
        · exact h2 p hp
      · intro _
        exact List.cons_ne_nil _ _

/-- Chunks with indexes from `index >= 1` on are appended to the file one after the
other. -/
theorem upload_appends (name : List Char) (chunkSize : Nat) :
    ∀ (ps : List (List Nat)) (runs : List (Env × httpd_req_t)) (w : World) (index : Nat),
      1 ≤ index → w.USBHandle ≠ none → (∀ p ∈ ps, p ≠ []) →
      DeliversAll name chunkSize index runs ps →
      (upload w runs).files (MNT_PATH ++ '/' :: name)
        = some ((w.files (MNT_PATH ++ '/' :: name)).getD [] ++ ps.flatten) ∨
      (ps = [] ∧ upload w runs = w) := by
  intro ps
  induction ps with
  | nil =>
    intro runs w index _ _ _ hd
    cases runs with
    | nil => exact Or.inr ⟨rfl, rfl⟩
    | cons r rs => simp [DeliversAll] at hd
  | cons p ps ih =>
    intro runs w index hi hU hne hd
    cases runs with
    | nil => simp [DeliversAll] at hd
    | cons r rs =>
      obtain ⟨hd1, hw1, hrest⟩ := hd
      have hp : p ≠ [] := hne p (List.mem_cons_self _ _)
      obtain ⟨_, hU', hfile, _⟩ := chunk_step r.1 w r.2 name chunkSize index p hU hd1 hp hw1
      rw [if_neg (by omega)] at hfile
      left
      show (upload (ChunkHandler r.1 w r.2).world rs).files _ = _
      rcases ih rs (ChunkHandler r.1 w r.2).world (index + 1) (by omega) (by rw [hU']; exact hU)
          (fun q hq => hne q (List.mem_cons_of_mem _ hq)) hrest with h | ⟨h1, h2⟩
      · rw [h, hfile]
        simp
      · rw [h2, hfile, h1]
        simp

/-! ## Upload: properties -/

/-- C1 as stated fails for the empty byte sequence: it has no piece, so no request is
made and the file keeps its prior six bytes; and a request that submits an empty
piece as chunk 0 is answered `OK` and leaves the six bytes in place as well. -/
theorem empty_upload_keeps_file :
    pieces 2 [] = [] ∧
    (upload mountedWorld []).files "/usb/F".toList = some [65, 66, 67, 68, 69, 70] ∧
    isOkReply (ChunkHandler sampleEnv mountedWorld
      (postRequest "datachunk=&datalen=0&chunksize=2&filename=F&index=0")).resp ∧
    (ChunkHandler sampleEnv mountedWorld
      (postRequest "datachunk=&datalen=0&chunksize=2&filename=F&index=0")).world.files
        "/usb/F".toList = some [65, 66, 67, 68, 69, 70] := by
  decide

/-- C1 amended: for every non-empty byte sequence, every chunk size of at least 1 and
every prior content of the destination file, when the pieces are submitted in index
order 0, 1, 2, ..., `ChunkHandler` reads the fields of each request as submitted, every
field it copies fits its buffer, and every write succeeds (`fopen` returns a stream,
`fwrite` accepts every byte, `fflush` stores every byte), the stored file is exactly the
byte sequence. -/
theorem upload_in_order (name : List Char) (chunkSize : Nat) (data : List Nat) (w : World)
    (runs : List (Env × httpd_req_t))
    (hc : 1 ≤ chunkSize) (hne : data ≠ []) (hU : w.USBHandle ≠ none)
    (hd : DeliversAll name chunkSize 0 runs (pieces chunkSize data)) :
    (upload w runs).files (MNT_PATH ++ '/' :: name) = some data := by
  obtain ⟨hflat, hnonempty, hsome⟩ := pieces_go_spec chunkSize hc data.length data (le_refl _)
  change (pieces chunkSize data).flatten = data at hflat
  change ∀ p ∈ pieces chunkSize data, p ≠ [] at hnonempty
  change data ≠ [] → pieces chunkSize data ≠ [] at hsome
  cases hps : pieces chunkSize data with
  | nil => exact absurd hps (hsome hne)
  | cons p ps =>
    rw [hps] at hd hflat hnonempty
    cases runs with
    | nil => simp [DeliversAll] at hd
    | cons r rs =>
      obtain ⟨hd1, hw1, hrest⟩ := hd
      have hp : p ≠ [] := hnonempty p (List.mem_cons_self _ _)
      obtain ⟨_, hU', hfile, _⟩ := chunk_step r.1 w r.2 name chunkSize 0 p hU hd1 hp hw1
      rw [if_pos rfl] at hfile
      show (upload (ChunkHandler r.1 w r.2).world rs).files _ = _
      rcases upload_appends name chunkSize ps rs (ChunkHandler r.1 w r.2).world 1 (le_refl _)
          (by rw [hU']; exact hU) (fun q hq => hnonempty q (List.mem_cons_of_mem _ hq))
          hrest with h | ⟨h1, h2⟩
      · rw [h, hfile, ← hflat]
        simp
      · rw [h2, hfile, ← hflat, h1]
        simp

/-- Witness of `upload_in_order`: chunk size 2, `Hi` then `!`, on a device whose file
`/usb/F` held six other bytes; the stored file is `0x48 0x69 0x21`. -/
theorem upload_in_order_witness :
    DeliversAll "F".toList 2 0
      [(sampleEnv, postRequest "datachunk=SGk%3D&datalen=2&chunksize=2&filename=F&index=0"),
       (sampleEnv, postRequest "datachunk=IQ%3D%3D&datalen=1&chunksize=2&filename=F&index=1")]
      (pieces 2 [72, 105, 33]) ∧
    (upload mountedWorld
      [(sampleEnv, postRequest "datachunk=SGk%3D&datalen=2&chunksize=2&filename=F&index=0"),
       (sampleEnv, postRequest "datachunk=IQ%3D%3D&datalen=1&chunksize=2&filename=F&index=1")]).files
      "/usb/F".toList = some [72, 105, 33] :=
  ⟨⟨by decide, by decide, by decide, by decide, trivial⟩,
    upload_in_order "F".toList 2 [72, 105, 33] mountedWorld _ (by decide) (by decide) (by decide)
      ⟨by decide, by decide, by decide, by decide, trivial⟩⟩

/-- The lookup slip of `FindPostData` seen from an upload: `Hi` then `!` with chunk
size 2 for a file named `index.html`.  The search for `index` stops inside the file
name, the index read from the second request is `atoi("html") = 0` rather than 1, the
file is truncated again and holds the second piece only. -/
theorem upload_index_html_truncates :
    formFieldNames "datachunk=IQ%3D%3D&datalen=1&chunksize=2&filename=index.html&index=1".toList
      = ["datachunk".toList, "datalen".toList, "chunksize".toList, "filename".toList,
         "index".toList] ∧
    ParsePostData sampleEnv.digit
        (ChunkHandler.postData sampleEnv
          (postRequest "datachunk=IQ%3D%3D&datalen=1&chunksize=2&filename=index.html&index=1"))
        "index".toList = some "html".toList ∧
    atoi "html".toList = 0 ∧
    (upload blankWorld
      [(sampleEnv,
         postRequest "datachunk=SGk%3D&datalen=2&chunksize=2&filename=index.html&index=0"),
       (sampleEnv,
         postRequest "datachunk=IQ%3D%3D&datalen=1&chunksize=2&filename=index.html&index=1")]).files
      "/usb/index.html".toList = some [33] := by
  decide

/-- C2, the code at the failing input: chunk 1 with chunk size 2 and the two bytes `xy`
is accepted, `fseek` is called with offset 2, and the bytes land at the end of the
file: at offset 6 of the six-byte file `ABCDEF`, and at offset 0 when the file does not
exist yet (chunk 1 arriving before chunk 0). -/
theorem late_chunk_is_appended :
    isOkReply (ChunkHandler sampleEnv mountedWorld
      (postRequest "datachunk=eHk%3D&datalen=2&chunksize=2&filename=F&index=1")).resp ∧
    Call.fseek 2 ∈ (ChunkHandler sampleEnv mountedWorld
      (postRequest "datachunk=eHk%3D&datalen=2&chunksize=2&filename=F&index=1")).calls ∧
    mountedWorld.files "/usb/F".toList = some [65, 66, 67, 68, 69, 70] ∧
    (ChunkHandler sampleEnv mountedWorld
      (postRequest "datachunk=eHk%3D&datalen=2&chunksize=2&filename=F&index=1")).world.files
        "/usb/F".toList = some [65, 66, 67, 68, 69, 70, 120, 121] ∧
    (ChunkHandler sampleEnv blankWorld
      (postRequest "datachunk=eHk%3D&datalen=2&chunksize=2&filename=F&index=1")).world.files
        "/usb/F".toList = some [120, 121] := by
  decide

/-- C3 as stated fails: the request `datachunk=&datalen=5&...` has a payload that decodes
to 0 bytes and declares 5, and `ChunkHandler` replies `OK`. -/
theorem empty_payload_accepted :
    ParsePostData sampleEnv.digit
        (ChunkHandler.postData sampleEnv
          (postRequest "datachunk=&datalen=5&chunksize=2&filename=F&index=0"))
        "datachunk".toList = some [] ∧
    ChunkHandler.destLen [] = 0 ∧
    (ParsePostData sampleEnv.digit
        (ChunkHandler.postData sampleEnv
          (postRequest "datachunk=&datalen=5&chunksize=2&filename=F&index=0"))
        "datalen".toList).map atoi = some 5 ∧
    isOkReply (ChunkHandler sampleEnv mountedWorld
      (postRequest "datachunk=&datalen=5&chunksize=2&filename=F&index=0")).resp := by
  decide

/-- A field that is copied to the empty string has length 0. -/
theorem len_zero_of_loop_nil (d : Int) (src : List Char) (h : ParsePostData.loop d 0 src = []) :
    FindPostDataLen src = 0 := by
  cases src with
  | nil => rfl
  | cons c rest =>
    unfold ParsePostData.loop at h
    split_ifs at h with h1
    rcases h1 with h1 | h1
    · subst h1
      simp [FindPostDataLen, strchr, strlen, cstr, NULLCH]
    · subst h1
      simp [FindPostDataLen, strchr]

/-- C3 amended: for every upload chunk request that overruns no buffer and from which
`ChunkHandler` reads a `datachunk` payload and a `datalen`: when the payload read is not
empty and its decoded length differs from the `datalen` read (both as 32-bit `size_t`,
as the test `destLen != dataLen` compares them), the reply is an error and never `OK`;
when the payload read is empty, a device is mounted, something is received and the
fields `index`, `chunksize` and `filename` are found, the reply is `OK` whatever the
`datalen`. -/
theorem length_mismatch_rejected (env : Env) (w : World) (req : httpd_req_t)
    (b64 lenField : List Char)
    (hfit : (ChunkHandler env w req).overrun = false)
    (hp : ParsePostData env.digit (ChunkHandler.postData env req) "datachunk".toList = some b64)
    (hl : ParsePostData env.digit (ChunkHandler.postData env req) "datalen".toList
      = some lenField) :
    (b64 ≠ [] → ChunkHandler.destLen b64 ≠ intToSize (atoi lenField) →
      isErrorReply (ChunkHandler env w req).resp ∧ ¬ isOkReply (ChunkHandler env w req).resp) ∧
    (b64 = [] → w.USBHandle ≠ none → 0 < (httpd_req_recv req (MAX_CHUNK_LEN * 2 - 1)).1 →
      (∀ key ∈ ["index".toList, "chunksize".toList, "filename".toList],
        ParsePostData env.digit (ChunkHandler.postData env req) key ≠ none) →
      isOkReply (ChunkHandler env w req).resp) := by
  have _ := hfit
  constructor
  · intro hne hm
    suffices h : isErrorReply (ChunkHandler env w req).resp from ⟨h, isErrorReply_not_ok _ h⟩
    rcases ChunkHandler_cases env w req with ⟨msg, _, h⟩ | ⟨i, s, l, f, _, _, _, _, hl', _, h⟩
    · rw [h.2.1]
      exact ⟨msg, Or.inl rfl⟩
    · rw [h.2.1]
      rw [hl] at hl'
      simp only [Option.some.injEq] at hl'
      subst hl'
      rcases decode_cases env (ChunkHandler.setClock env w (ChunkHandler.postData env req)).1
          (ChunkHandler.setClock env w (ChunkHandler.postData env req)).2
          (ChunkHandler.postData env req) f (atoi i) (atoi s) (atoi lenField) with
        ⟨msg, _, h'⟩ | ⟨src, hs, hz, _⟩ | ⟨src, b, _, _, hb, _, _, hd, _⟩
      · rw [h'.2.1]
        exact ⟨msg, Or.inl rfl⟩
      · exact absurd (ParsePostData_of_len_zero _ _ _ _ _ hs hz hp) hne
      · exfalso
        rw [hp] at hb
        simp only [Option.some.injEq] at hb
        subst hb
        exact hm hd
  · intro hnil hU hr hkeys
    subst hnil
    have hi := hkeys "index".toList (by simp)
    have hs := hkeys "chunksize".toList (by simp)
    have hf := hkeys "filename".toList (by simp)
    obtain ⟨indexField, hi⟩ := Option.ne_none_iff_exists'.mp hi
    obtain ⟨sizeField, hs⟩ := Option.ne_none_iff_exists'.mp hs
    obtain ⟨URLFile, hf⟩ := Option.ne_none_iff_exists'.mp hf
    have h := ChunkHandler_found env w req indexField sizeField lenField URLFile hU hr hi hs hl hf
    rw [isOkReply, h.2.1]
    obtain ⟨src, hsrc, hloop⟩ := ParsePostData_eq_some _ _ _ _ hp
    have hz := len_zero_of_loop_nil _ _ hloop.symm
    unfold ChunkHandler.decode
    rw [hsrc]
    simp only []
    rw [if_neg (by omega)]

/-- Witness of `length_mismatch_rejected`: the payload `SGk=` decodes to 2 bytes and the
request declares 3, which is rejected; the empty payload with `datalen=5` is answered
`OK`. -/
theorem length_mismatch_rejected_witness :
    (ParsePostData sampleEnv.digit
        (ChunkHandler.postData sampleEnv
          (postRequest "datachunk=SGk%3D&datalen=3&chunksize=2&filename=F&index=0"))
        "datachunk".toList = some "SGk=".toList ∧
      ChunkHandler.destLen "SGk=".toList = 2 ∧
      isErrorReply (ChunkHandler sampleEnv mountedWorld
        (postRequest "datachunk=SGk%3D&datalen=3&chunksize=2&filename=F&index=0")).resp) ∧
    isOkReply (ChunkHandler sampleEnv mountedWorld
      (postRequest "datachunk=&datalen=5&chunksize=2&filename=F&index=0")).resp :=
  ⟨⟨by decide, by decide,
    ((length_mismatch_rejected sampleEnv mountedWorld
      (postRequest "datachunk=SGk%3D&datalen=3&chunksize=2&filename=F&index=0")
      "SGk=".toList "3".toList (by decide) (by decide) (by decide)).1 (by decide)
        (by decide)).1⟩,
    (length_mismatch_rejected sampleEnv mountedWorld
      (postRequest "datachunk=&datalen=5&chunksize=2&filename=F&index=0")
      [] "5".toList (by decide) (by decide) (by decide)).2 rfl (by decide) (by decide)
        (by decide)⟩

/-- C4, the code at the failing input: the `datachunk` field of the request
`index=0&chunksize=2&datalen=2&filename=datachunk.SGk%3D&datachunk=SGk` is `SGk`, three
characters with no escape in them.  `ChunkHandler` finds the word `datachunk` inside the
value of `filename`, reads the payload `SGk=` from there, overruns no buffer, replies
`OK` and creates the file `/usb/datachunk.SGk=` with the two bytes `Hi`. -/
theorem short_payload_is_stored :
    (formField "index=0&chunksize=2&datalen=2&filename=datachunk.SGk%3D&datachunk=SGk".toList
      "datachunk".toList).bind percentDecode = some "SGk".toList ∧
    "SGk".toList.length % 4 ≠ 0 ∧
    ParsePostData sampleEnv.digit
        (ChunkHandler.postData sampleEnv
          (postRequest "index=0&chunksize=2&datalen=2&filename=datachunk.SGk%3D&datachunk=SGk"))
        "datachunk".toList = some "SGk=".toList ∧
    (ChunkHandler sampleEnv mountedWorld
      (postRequest "index=0&chunksize=2&datalen=2&filename=datachunk.SGk%3D&datachunk=SGk")).overrun
      = false ∧
    isOkReply (ChunkHandler sampleEnv mountedWorld
      (postRequest "index=0&chunksize=2&datalen=2&filename=datachunk.SGk%3D&datachunk=SGk")).resp ∧
    mountedWorld.files "/usb/datachunk.SGk=".toList = none ∧
    (ChunkHandler sampleEnv mountedWorld
      (postRequest "index=0&chunksize=2&datalen=2&filename=datachunk.SGk%3D&datachunk=SGk")).world.files
        "/usb/datachunk.SGk=".toList = some [72, 105] := by
  decide

/-- Where `ChunkHandler` reads a `datachunk` payload whose cleaned length (the `strlen`
of the cleaned buffer, as line 993 measures it) is not a multiple of 4, and overruns no
buffer, it replies with an error, the files and directories are unchanged and no
file-system call is made: the rejection comes before the destination file is opened,
truncated or written. -/
theorem bad_length_rejected (env : Env) (w : World) (req : httpd_req_t) (b64 : List Char)
    (hfit : (ChunkHandler env w req).overrun = false)
    (hp : ParsePostData env.digit (ChunkHandler.postData env req) "datachunk".toList = some b64)
    (h4 : strlen b64 % 4 ≠ 0) :
    isErrorReply (ChunkHandler env w req).resp ∧
    (ChunkHandler env w req).world.files = w.files ∧
    (ChunkHandler env w req).world.dirs = w.dirs ∧
    ∀ c ∈ (ChunkHandler env w req).calls, c.isFileSystem = false := by
  have _ := hfit
  rcases ChunkHandler_cases env w req with ⟨msg, _, h⟩ | ⟨i, s, l, f, _, _, _, _, _, _, h⟩
  · rw [h.1, h.2.1, h.2.2]
    exact ⟨⟨msg, Or.inl rfl⟩, rfl, rfl, by simp [ChunkError]⟩
  · rw [h.1, h.2.1, h.2.2]
    have hc := setClock_world env w (ChunkHandler.postData env req)
    rcases decode_cases env (ChunkHandler.setClock env w (ChunkHandler.postData env req)).1
        (ChunkHandler.setClock env w (ChunkHandler.postData env req)).2
        (ChunkHandler.postData env req) f (atoi i) (atoi s) (atoi l) with
      ⟨msg, _, h'⟩ | ⟨src, hs, hl, _⟩ | ⟨src, b, _, _, hb, hb4, _⟩
    · rw [h'.1, h'.2.1, h'.2.2]
      exact ⟨⟨msg, Or.inl rfl⟩, hc.1, hc.2.1, hc.2.2.2.2.2⟩
    · exfalso
      have := ParsePostData_of_len_zero _ _ _ _ _ hs hl hp
      subst this
      exact h4 rfl
    · exfalso
      rw [hp] at hb
      simp only [Option.some.injEq] at hb
      subst hb
      exact h4 hb4

/-- The bound on the recursion of `ListDirectory` is never reached: from `depth` the C
recursion goes at most to `maxDepth + 1`, and any bound that allows for it gives the
same listing. -/
theorem ListDirectory_go_fuel (w : World) (maxDepth : Int) :
    ∀ (fuel fuel' : Nat) (baseDir : List Char) (depth : Int),
      (if depth > maxDepth then 1 else (maxDepth - depth).toNat + 2) ≤ fuel →
      (if depth > maxDepth then 1 else (maxDepth - depth).toNat + 2) ≤ fuel' →
      ListDirectory.go w fuel baseDir depth maxDepth
        = ListDirectory.go w fuel' baseDir depth maxDepth := by
  intro fuel
  induction fuel with
  | zero =>
    intro fuel' baseDir depth h _
    split_ifs at h <;> omega
  | succ n ih =>
    intro fuel' baseDir depth h h'
    cases fuel' with
    | zero => split_ifs at h' <;> omega
    | succ m =>
      unfold ListDirectory.go
      by_cases hg : depth ≠ maxDepth ∧ depth ≥ maxDepth
      · rw [if_pos hg, if_pos hg]
      · rw [if_neg hg, if_neg hg]
        have hle : ¬ depth > maxDepth := by omega
        rw [if_neg hle] at h h'
        have hrec : (fun d => ListDirectory.go w n d (depth + 1) maxDepth)
            = (fun d => ListDirectory.go w m d (depth + 1) maxDepth) := by
          funext d
          apply ih
          · split_ifs <;> omega
          · split_ifs <;> omega
        simp only [hrec]

/-- Library `fread` reads no more than the bytes left in the file. -/
theorem fread_length (fail : Option Nat) (data : List Nat) (pos count : Nat) :
    (fread fail data pos count).1.length ≤ data.length - pos := by
  unfold fread
  split
  · simp only [List.length_take, List.length_drop]
    omega
  · split_ifs
    · simp only [List.length_take, List.length_drop]
      omega
    · simp only [List.length_take, List.length_drop]
      omega

/-- The bound on the read loop of `DownloadHandler` is never reached: every turn that
goes on has read at least one byte. -/
theorem DownloadHandler_loop_fuel (fail : Option Nat) (data : List Nat) :
    ∀ (fuel fuel' pos : Nat), data.length - pos + 1 ≤ fuel → data.length - pos + 1 ≤ fuel' →
      DownloadHandler.loop fail data fuel pos = DownloadHandler.loop fail data fuel' pos := by
  intro fuel
  induction fuel with
  | zero => intro fuel' pos h _; omega
  | succ n ih =>
    intro fuel' pos h h'
    cases fuel' with
    | zero => omega
    | succ m =>
      unfold DownloadHandler.loop
      simp only []
      have hlen := fread_length fail data pos MAX_CHUNK_LEN
      by_cases hb : (fread fail data pos MAX_CHUNK_LEN).1.length > 0
      · rw [if_pos hb, if_pos hb]
        have := ih m (pos + (fread fail data pos MAX_CHUNK_LEN).1.length) (by omega) (by omega)
        rw [this]
      · rw [if_neg hb, if_neg hb]

/-- The pointer that `strchr` returns points to a character. -/
theorem strchr_pos (s : List Char) (ch : Char) (p : List Char) (h : strchr s ch = some p) :
    0 < p.length := by
  induction s with
  | nil => simp [strchr] at h
  | cons c rest ih =>
    unfold strchr at h
    split_ifs at h with h1 h2
    · simp only [Option.some.injEq] at h
      subst h
      simp
    · exact ih h

/-- The bound on the search loop of `httpd_query_key_value` is never reached: every turn
that goes on has stepped over at least one character. -/
theorem httpd_query_key_value_loop_fuel (key : List Char) (buf_len : Nat) :
    ∀ (fuel fuel' : Nat) (qry : List Char), qry.length + 1 ≤ fuel → qry.length + 1 ≤ fuel' →
      httpd_query_key_value.loop key buf_len fuel qry
        = httpd_query_key_value.loop key buf_len fuel' qry := by
  intro fuel
  induction fuel with
  | zero => intro fuel' qry h _; omega
  | succ n ih =>
    intro fuel' qry h h'
    cases fuel' with
    | zero => omega
    | succ m =>
      unfold httpd_query_key_value.loop
      by_cases h0 : strlen qry = 0
      · rw [if_pos h0, if_pos h0]
      · rw [if_neg h0, if_neg h0]
        cases hv : strchr qry '=' with
        | none => rfl
        | some val_ptr =>
          simp only []
          by_cases hk : qry.length - val_ptr.length ≠ strlen key ∨
              (qry.take (qry.length - val_ptr.length)).map tolower ≠ (cstr key).map tolower
          · rw [if_pos hk, if_pos hk]
            cases hn : strchr val_ptr '&' with
            | none => rfl
            | some next =>
              simp only []
              have h1 := (strchr_length _ _ _ hv).1
              have h2 := (strchr_length _ _ _ hn).1
              have h3 := strchr_pos _ _ _ hn
              apply ih
              · rw [List.length_drop]; omega
              · rw [List.length_drop]; omega
          · rw [if_neg hk, if_neg hk]

/-! ## Listing: files and their links -/


theorem cstr_of_no_nul (s : List Char) (h : NULLCH ∉ s) : cstr s = s := by
  unfold cstr
  rw [List.takeWhile_eq_self_iff]
  intro c hc
  simp only [ne_eq, decide_eq_true_eq]
  rintro rfl
  exact h hc

theorem strlen_of_no_nul (s : List Char) (h : NULLCH ∉ s) : strlen s = s.length := by
  unfold strlen
  rw [cstr_of_no_nul s h]

theorem cstr_no_nul (s : List Char) : NULLCH ∉ cstr s := by
  unfold cstr
  intro h
  have := List.mem_takeWhile_imp h
  simp at this

theorem cstr_length_le (s : List Char) : (cstr s).length ≤ s.length := by
  unfold cstr
  exact (List.takeWhile_prefix _).length_le

theorem EndsWith_iff (name suffix : List Char) (hn : NULLCH ∉ name) (hs : NULLCH ∉ suffix) :
    EndsWith name suffix = true ↔ suffix <:+ name := by
  unfold EndsWith
  simp only [strlen_of_no_nul _ hn, strlen_of_no_nul _ hs, cstr_of_no_nul _ hn,
    cstr_of_no_nul _ hs, List.take_length]
  by_cases hlen : suffix.length > name.length
  · rw [if_pos hlen]
    constructor
    · intro h; cases h
    · intro h
      have := h.length_le
      omega
  · rw [if_neg hlen]
    have htake : (name.drop (name.length - suffix.length)).take suffix.length
        = name.drop (name.length - suffix.length) := by
      apply List.take_of_length_le
      rw [List.length_drop]
      omega
    rw [htake, List.suffix_iff_eq_drop]
    constructor
    · intro h
      split_ifs at h with h1
      · exact h1.symm
    · intro h
      rw [if_pos h.symm]

theorem dirPath_eq (baseDir : List Char) :
    ListDirectory.dirPath baseDir = MNT_PATH ++ cstr baseDir := by
  unfold ListDirectory.dirPath snprintf
  have h4 : MNT_PATH.length = 4 := by decide
  have hM : MAX_DIR_LEN = 255 := rfl
  apply List.take_of_length_le
  simp only [List.length_append, h4, hM, strlen]
  omega

theorem entry_file (recurse : List Char → ListOutcome) (baseDir : List Char)
    (depth maxDepth : Int) (entry : dirent)
    (hreg : entry.d_type ≠ DT_DIR) (hn : NULLCH ∉ entry.d_name)
    (hlen : entry.d_name.length ≤ MAX_DIR_LEN) :
    ListDirectory.entry recurse baseDir depth maxDepth entry
      = (lineBreak :: indentation depth ++
          [Resp.send_chunk (fileLink (cstr baseDir ++ entry.d_name)
            (entry.d_name ++
              (if ".pdf".toList <:+ entry.d_name ∨ ".PDF".toList <:+ entry.d_name
                then ".usb".toList else []))
            entry.d_name)], []) := by
  have hpdf := EndsWith_iff entry.d_name ".pdf".toList hn (by decide)
  have hPDF := EndsWith_iff entry.d_name ".PDF".toList hn (by decide)
  have hM : MAX_DIR_LEN = 255 := rfl
  have hP : BUFFER_PAD = 64 := rfl
  unfold ListDirectory.entry
  simp only [hreg, false_and, if_false, cstr_of_no_nul _ hn]
  have hext : (if (EndsWith entry.d_name ".pdf".toList || EndsWith entry.d_name ".PDF".toList) = true
      then ".usb".toList else [])
      = (if ".pdf".toList <:+ entry.d_name ∨ ".PDF".toList <:+ entry.d_name
          then ".usb".toList else []) := by
    by_cases h : ".pdf".toList <:+ entry.d_name ∨ ".PDF".toList <:+ entry.d_name
    · rw [if_pos h, if_pos]
      rw [Bool.or_eq_true]
      exact h.imp hpdf.mpr hPDF.mpr
    · rw [if_neg h, if_neg]
      intro h'
      rw [Bool.or_eq_true] at h'
      exact h (h'.imp hpdf.mp hPDF.mp)
  rw [hext]
  have hfit : snprintf (strlen baseDir + MAX_DIR_LEN * 3 + BUFFER_PAD - 1)
      ("<a href=\"/download?file=".toList ++ cstr baseDir ++ entry.d_name
        ++ "\" download=\"".toList ++ entry.d_name
        ++ (if ".pdf".toList <:+ entry.d_name ∨ ".PDF".toList <:+ entry.d_name
            then ".usb".toList else [])
        ++ "\">".toList ++ entry.d_name ++ "</a>".toList)
      = fileLink (cstr baseDir ++ entry.d_name)
          (entry.d_name ++
            (if ".pdf".toList <:+ entry.d_name ∨ ".PDF".toList <:+ entry.d_name
              then ".usb".toList else []))
          entry.d_name := by
    unfold snprintf fileLink
    rw [List.take_of_length_le]
    · simp only [List.append_assoc]
    · have h1 : "<a href=\"/download?file=".toList.length = 24 := by decide
      have h2 : "\" download=\"".toList.length = 12 := by decide
      have h3 : "\">".toList.length = 2 := by decide
      have h4 : "</a>".toList.length = 4 := by decide
      have h5 : (if ".pdf".toList <:+ entry.d_name ∨ ".PDF".toList <:+ entry.d_name
            then ".usb".toList else []).length ≤ 4 := by
        split_ifs <;> decide
      simp only [List.length_append, h1, h2, h3, h4, hM, hP, strlen]
      rw [hM] at hlen
      omega
  rw [hfit]
  rfl


theorem ListDirectory_go_open (w : World) (fuel : Nat) (baseDir : List Char)
    (depth maxDepth : Int) (entries : List dirent) (hd : depth ≤ maxDepth)
    (ho : w.dirs (MNT_PATH ++ cstr baseDir) = some entries) :
    ListDirectory.go w (fuel + 1) baseDir depth maxDepth
      = { ret := true,
          resp := ((entries.map
            (ListDirectory.entry (fun d => ListDirectory.go w fuel d (depth + 1) maxDepth)
              baseDir depth maxDepth)).map Prod.fst).flatten,
          calls := [Call.opendir (MNT_PATH ++ cstr baseDir) true]
            ++ ((entries.map
              (ListDirectory.entry (fun d => ListDirectory.go w fuel d (depth + 1) maxDepth)
                baseDir depth maxDepth)).map Prod.snd).flatten
            ++ [Call.closedir] } := by
  have hp := dirPath_eq baseDir
  unfold ListDirectory.dirPath at hp
  conv_lhs => rw [ListDirectory.go]
  rw [if_neg (by omega)]
  simp only [hp, ho]

theorem ListDirectory_go_closed (w : World) (fuel : Nat) (baseDir : List Char)
    (depth maxDepth : Int) (hd : depth ≤ maxDepth)
    (ho : w.dirs (MNT_PATH ++ cstr baseDir) = none) :
    ListDirectory.go w (fuel + 1) baseDir depth maxDepth
      = { ret := false, resp := (ListError "Could not open a subdirectory".toList).resp,
          calls := [Call.opendir (MNT_PATH ++ cstr baseDir) false] } := by
  have hp := dirPath_eq baseDir
  unfold ListDirectory.dirPath at hp
  conv_lhs => rw [ListDirectory.go]
  rw [if_neg (by omega)]
  simp only [hp, ho]

/-- C12: a regular file met by `ListDirectory` is sent as one link whose href
file parameter is the directory followed by the name, whose link text is the
name, and whose download attribute is the name followed by `.usb` exactly when
the name ends with `.pdf` or `.PDF` and the bare name otherwise; that link is
part of the listing of every directory that holds the file. -/
theorem pdf_download_attribute (w : World) (baseDir : List Char) (depth maxDepth : Int)
    (entries : List dirent) (file : dirent)
    (hd : depth ≤ maxDepth)
    (ho : w.dirs (MNT_PATH ++ cstr baseDir) = some entries)
    (hf : file ∈ entries)
    (hreg : file.d_type ≠ DT_DIR)
    (hn : NULLCH ∉ file.d_name)
    (hlen : file.d_name.length ≤ MAX_DIR_LEN) :
    (∀ recurse : List Char → ListOutcome,
      ListDirectory.entry recurse baseDir depth maxDepth file
        = (lineBreak :: indentation depth ++
            [Resp.send_chunk (fileLink (cstr baseDir ++ file.d_name)
              (file.d_name ++
                (if ".pdf".toList <:+ file.d_name ∨ ".PDF".toList <:+ file.d_name
                  then ".usb".toList else []))
              file.d_name)], [])) ∧
    Resp.send_chunk (fileLink (cstr baseDir ++ file.d_name)
        (file.d_name ++
          (if ".pdf".toList <:+ file.d_name ∨ ".PDF".toList <:+ file.d_name
            then ".usb".toList else []))
        file.d_name)
      ∈ (ListDirectory w baseDir depth maxDepth).resp := by
  refine ⟨fun recurse => entry_file recurse baseDir depth maxDepth file hreg hn hlen, ?_⟩
  unfold ListDirectory
  rw [ListDirectory_go_open w _ baseDir depth maxDepth entries hd ho]
  simp only [List.mem_flatten, List.mem_map, exists_exists_and_eq_and]
  refine ⟨file, hf, ?_⟩
  rw [entry_file _ baseDir depth maxDepth file hreg hn hlen]
  simp

/-- Witness of `pdf_download_attribute`: `report.pdf` in the root of `pdfWorld` is linked
with file parameter `/report.pdf`, download name `report.pdf.usb` and text `report.pdf`. -/
theorem pdf_download_attribute_witness :
    Resp.send_chunk (fileLink "/report.pdf".toList "report.pdf.usb".toList "report.pdf".toList)
      ∈ (ListDirectory pdfWorld "/".toList 0 0).resp :=
  (pdf_download_attribute pdfWorld "/".toList 0 0
    [{ d_name := "report.pdf".toList, d_type := DT_REG },
     { d_name := "notes.txt".toList, d_type := DT_REG },
     { d_name := "SCAN.PDF".toList, d_type := DT_REG }]
    { d_name := "report.pdf".toList, d_type := DT_REG }
    (by decide) (by decide) (by decide) (by decide) (by decide) (by decide)).2

/-! ## Listing: a subdirectory that cannot be opened -/

theorem ListDirectory_step (w : World) (baseDir : List Char) (depth maxDepth : Int)
    (entries : List dirent) (hd : depth ≤ maxDepth)
    (ho : w.dirs (MNT_PATH ++ cstr baseDir) = some entries) :
    ListDirectory w baseDir depth maxDepth
      = { ret := true,
          resp := listed w baseDir depth maxDepth entries,
          calls := [Call.opendir (MNT_PATH ++ cstr baseDir) true]
            ++ ((entries.map
              (ListDirectory.entry (fun d => ListDirectory w d (depth + 1) maxDepth)
                baseDir depth maxDepth)).map Prod.snd).flatten
            ++ [Call.closedir] } := by
  have hrec : (fun d => ListDirectory.go w ((maxDepth - depth).toNat + 1) d (depth + 1) maxDepth)
      = (fun d => ListDirectory w d (depth + 1) maxDepth) := by
    funext d
    unfold ListDirectory
    apply ListDirectory_go_fuel
    · split_ifs <;> omega
    · split_ifs <;> omega
  unfold listed
  conv_lhs => unfold ListDirectory
  rw [ListDirectory_go_open w _ baseDir depth maxDepth entries hd ho, hrec]

theorem ListDirectory_closed (w : World) (baseDir : List Char) (depth maxDepth : Int)
    (hd : depth ≤ maxDepth) (ho : w.dirs (MNT_PATH ++ cstr baseDir) = none) :
    ListDirectory w baseDir depth maxDepth
      = { ret := false, resp := (ListError "Could not open a subdirectory".toList).resp,
          calls := [Call.opendir (MNT_PATH ++ cstr baseDir) false] } := by
  unfold ListDirectory
  exact ListDirectory_go_closed w _ baseDir depth maxDepth hd ho

theorem listed_append (w : World) (baseDir : List Char) (depth maxDepth : Int)
    (xs ys : List dirent) :
    listed w baseDir depth maxDepth (xs ++ ys)
      = listed w baseDir depth maxDepth xs ++ listed w baseDir depth maxDepth ys := by
  unfold listed
  simp only [List.map_append, List.flatten_append]

theorem listed_cons (w : World) (baseDir : List Char) (depth maxDepth : Int)
    (x : dirent) (ys : List dirent) :
    listed w baseDir depth maxDepth (x :: ys)
      = (ListDirectory.entry (fun d => ListDirectory w d (depth + 1) maxDepth)
          baseDir depth maxDepth x).1 ++ listed w baseDir depth maxDepth ys := by
  unfold listed
  simp only [List.map_cons, List.flatten_cons]

theorem entry_dir (recurse : List Char → ListOutcome) (baseDir : List Char)
    (depth maxDepth : Int) (sub : dirent) (hdir : sub.d_type = DT_DIR)
    (hdot : cstr sub.d_name ≠ ".".toList) (hdots : cstr sub.d_name ≠ "..".toList)
    (hm : 0 < maxDepth) :
    ListDirectory.entry recurse baseDir depth maxDepth sub
      = (lineBreak :: indentation depth ++ [dirItem sub.d_name]
          ++ (recurse (ListDirectory.newBaseDir baseDir sub.d_name)).resp
          ++ (if ¬ (recurse (ListDirectory.newBaseDir baseDir sub.d_name)).ret
              then (ListError "Could not list subdirectory".toList).resp else []),
         (recurse (ListDirectory.newBaseDir baseDir sub.d_name)).calls) := by
  unfold ListDirectory.entry
  rw [if_neg (by rintro ⟨_, h | h⟩ <;> contradiction)]
  simp only [hdir, if_true]
  rw [if_pos (by omega)]
  rfl

/-! ## Upload: the reply tells whether the bytes were written -/

theorem setClock_cases (env : Env) (w : World) (pd : List Char) :
    ChunkHandler.setClock env w pd = (w, []) ∨
    ∃ t, ChunkHandler.setClock env w pd = ({ w with ourTime := t }, [Call.settimeofday t]) := by
  unfold ChunkHandler.setClock
  by_cases h0 : w.ourTime = 0
  · simp only [h0, if_true]
    cases ParsePostData env.digit pd "timestamp".toList with
    | none => exact Or.inl rfl
    | some ts =>
      simp only []
      cases env.strptime (cstr ts) "%Y-%m-%dT%H:%M:%S%Z".toList with
      | some ti =>
        simp only []
        split_ifs
        · exact Or.inr ⟨_, rfl⟩
        · exact Or.inl rfl
      | none =>
        simp only []
        cases env.strptime (cstr ts) "%Y-%m-%dT%H:%M:%S%z".toList with
        | none => exact Or.inl rfl
        | some ti =>
          simp only []
          split_ifs
          · exact Or.inr ⟨_, rfl⟩
          · exact Or.inl rfl
  · rw [if_neg h0]
    exact Or.inl rfl

theorem setClock_no_write (env : Env) (w : World) (pd : List Char) :
    ∀ c ∈ (ChunkHandler.setClock env w pd).2,
      c.isWrite = false ∧ (∀ path mode ok, c ≠ Call.fopen path mode ok) := by
  rcases setClock_cases env w pd with h | ⟨t, h⟩ <;> rw [h] <;> intro c hc
  · cases hc
  · simp only [List.mem_singleton] at hc
    subst hc
    exact ⟨rfl, fun _ _ _ h => by cases h⟩

theorem store_cases (env : Env) (w : World) (calls : List Call) (URLFile : List Char)
    (index chunkSize : Int) (destData : List Nat) (destLen : Nat) :
    (env.fopen_ok = false ∧ ∃ path mode,
      ChunkHandler.store env w calls URLFile index chunkSize destData destLen
        = ChunkError w (calls ++ [Call.fopen path mode false]) "Could not create save file".toList) ∨
    (env.fopen_ok = true ∧ ∃ path mode pos,
      (ChunkHandler.store env w calls URLFile index chunkSize destData destLen).calls
        = calls ++ [Call.fopen path mode true, Call.fseek pos,
            Call.fwrite (destData.take destLen) ((destData.take destLen).take env.fwrite_max).length,
            Call.fflush, Call.fclose] ∧
      ((((destData.take destLen).take env.fwrite_max).length ≠ destLen ∧
        (ChunkHandler.store env w calls URLFile index chunkSize destData destLen).resp
          = [Resp.send_err HTTPD_500_INTERNAL_SERVER_ERROR
              "Did not write enough data to USB drive".toList]) ∨
       (((destData.take destLen).take env.fwrite_max).length = destLen ∧
        (ChunkHandler.store env w calls URLFile index chunkSize destData destLen).resp
          = [Resp.send "OK".toList]))) := by
  have hfalse : ∀ path mode, (fopen false w.files path mode).2 = none := by
    intro path mode
    simp [fopen]
  have hopen : ∀ path, ∃ f, (fopen true w.files path
      (if index = 0 then "wb".toList else "ab".toList)).2 = some f := by
    intro path
    by_cases hi : index = 0
    · rw [if_pos hi]
      exact ⟨{ path := path, append := false, pos := 0 }, by simp [fopen]⟩
    · rw [if_neg hi]
      refine ⟨{ path := path, append := true, pos := 0 }, ?_⟩
      unfold fopen
      rw [if_neg (by simp), if_neg (by decide), if_pos rfl]
  have hlen : ∀ f : FILE, (fwrite env.fwrite_max f (destData.take destLen)).2
      = ((destData.take destLen).take env.fwrite_max).length := fun _ => rfl
  cases hok : env.fopen_ok with
  | false =>
    left
    refine ⟨rfl, snprintf (strlen URLFile + MAX_DIR_LEN - 1) (MNT_PATH ++ ['/'] ++ cstr URLFile),
      (if index = 0 then "wb".toList else "ab".toList), ?_⟩
    unfold ChunkHandler.store
    simp only [hok, hfalse]
  | true =>
    right
    refine ⟨rfl, snprintf (strlen URLFile + MAX_DIR_LEN - 1) (MNT_PATH ++ ['/'] ++ cstr URLFile),
      (if index = 0 then "wb".toList else "ab".toList), intToSize (index * chunkSize), ?_⟩
    obtain ⟨f, hf⟩ := hopen (snprintf (strlen URLFile + MAX_DIR_LEN - 1) (MNT_PATH ++ ['/'] ++ cstr URLFile))
    unfold ChunkHandler.store
    simp only [hok, hf, hlen]
    by_cases hn : ((destData.take destLen).take env.fwrite_max).length = destLen
    · rw [if_neg (not_not.mpr hn)]
      exact ⟨rfl, Or.inr ⟨hn, rfl⟩⟩
    · rw [if_pos hn]
      exact ⟨rfl, Or.inl ⟨hn, rfl⟩⟩


theorem ChunkHandler_payload_cases (env : Env) (w : World) (req : httpd_req_t) (src : List Char)
    (hsrc : FindPostData (ChunkHandler.postData env req) "datachunk".toList = some src)
    (hne : 0 < FindPostDataLen src) :
    (∃ msg w0 calls0, (ChunkHandler env w req).Agrees (ChunkError w0 calls0 msg) ∧
      ∀ c ∈ calls0, c.isWrite = false ∧ (∀ path mode ok, c ≠ Call.fopen path mode ok)) ∨
    (∃ URLFile index chunkSize b64,
      ParsePostData env.digit (ChunkHandler.postData env req) "datachunk".toList = some b64 ∧
      (ChunkHandler env w req).Agrees
        (ChunkHandler.store env
            (ChunkHandler.setClock env w (ChunkHandler.postData env req)).1
            (ChunkHandler.setClock env w (ChunkHandler.postData env req)).2
            URLFile index chunkSize
            (mbedtls_base64_decode false (ChunkHandler.destLen b64) b64 (strlen b64)).out
            (ChunkHandler.destLen b64))) := by
  rcases ChunkHandler_cases env w req with ⟨msg, _, h⟩ | ⟨a, b, c, URLFile, _, _, _, _, _, _, h⟩
  · exact Or.inl ⟨msg, w, [], h, fun c hc => by cases hc⟩
  · rcases decode_cases env (ChunkHandler.setClock env w (ChunkHandler.postData env req)).1
        (ChunkHandler.setClock env w (ChunkHandler.postData env req)).2
        (ChunkHandler.postData env req) URLFile (atoi a) (atoi b) (atoi c)
      with ⟨msg, _, h2⟩ | ⟨src2, hs2, hz, _⟩ | ⟨src2, b64, _, _, hp, _, _, _, _, h2⟩
    · exact Or.inl ⟨msg, _, _, h.trans h2, setClock_no_write env w _⟩
    · rw [hsrc] at hs2
      cases hs2
      omega
    · exact Or.inr ⟨URLFile, atoi a, atoi b, b64, hp, h.trans h2⟩

/-- Where `ChunkHandler` overruns no buffer and finds a `datachunk` field that is not
empty, it replies `OK` only after a successful `fopen` and one `fwrite` that accepted
every decoded byte; when `fopen` fails, or `fwrite` accepts fewer bytes than it was
given, the reply is an error; and `fwrite` is called at most once, so a short write is
not retried.  Whether `fflush` and `fclose` stored the bytes has no part in the reply. -/
theorem ok_only_after_full_write (env : Env) (w : World) (req : httpd_req_t) (src : List Char)
    (hfit : (ChunkHandler env w req).overrun = false)
    (hsrc : FindPostData (ChunkHandler.postData env req) "datachunk".toList = some src)
    (hne : 0 < FindPostDataLen src) :
    (isOkReply (ChunkHandler env w req).resp →
      ∃ b64 path mode,
        ParsePostData env.digit (ChunkHandler.postData env req) "datachunk".toList = some b64 ∧
        ((mbedtls_base64_decode false (ChunkHandler.destLen b64) b64 (strlen b64)).out.take
          (ChunkHandler.destLen b64)).length = ChunkHandler.destLen b64 ∧
        Call.fopen path mode true ∈ (ChunkHandler env w req).calls ∧
        Call.fwrite
          ((mbedtls_base64_decode false (ChunkHandler.destLen b64) b64 (strlen b64)).out.take
            (ChunkHandler.destLen b64))
          (ChunkHandler.destLen b64) ∈ (ChunkHandler env w req).calls) ∧
    (env.fopen_ok = false → isErrorReply (ChunkHandler env w req).resp) ∧
    (∀ path mode, Call.fopen path mode false ∈ (ChunkHandler env w req).calls →
      isErrorReply (ChunkHandler env w req).resp) ∧
    (∀ data n, Call.fwrite data n ∈ (ChunkHandler env w req).calls → n < data.length →
      isErrorReply (ChunkHandler env w req).resp) ∧
    ((ChunkHandler env w req).calls.filter Call.isWrite).length ≤ 1 := by
  have _ := hfit
  have herr : ∀ w0 calls0 msg, isErrorReply (ChunkError w0 calls0 msg).resp :=
    fun _ _ msg => ⟨msg, Or.inl rfl⟩
  rcases ChunkHandler_payload_cases env w req src hsrc hne
    with ⟨msg, w0, calls0, h, hc⟩ | ⟨URLFile, index, chunkSize, b64, hp, h⟩
  · rw [h.2.1, h.2.2]
    refine ⟨fun hok => absurd hok (isErrorReply_not_ok _ (herr _ _ _)), fun _ => herr _ _ _,
      fun _ _ _ => herr _ _ _, fun _ _ _ _ => herr _ _ _, ?_⟩
    have : (ChunkError w0 calls0 msg).calls.filter Call.isWrite = [] := by
      rw [List.filter_eq_nil_iff]
      intro c hcm
      rw [(hc c hcm).1]
      simp
    rw [this]
    exact Nat.zero_le _
  · rw [h.2.1, h.2.2]
    have hclock := setClock_no_write env w (ChunkHandler.postData env req)
    have hfilter : (ChunkHandler.setClock env w (ChunkHandler.postData env req)).2.filter
        Call.isWrite = [] := by
      rw [List.filter_eq_nil_iff]
      intro c hcm
      rw [(hclock c hcm).1]
      simp
    rcases store_cases env (ChunkHandler.setClock env w (ChunkHandler.postData env req)).1
        (ChunkHandler.setClock env w (ChunkHandler.postData env req)).2 URLFile index chunkSize
        (mbedtls_base64_decode false (ChunkHandler.destLen b64) b64 (strlen b64)).out
        (ChunkHandler.destLen b64)
      with ⟨hf, path, mode, hs⟩ | ⟨hf, path, mode, pos, hcalls, hr⟩
    · rw [hs]
      refine ⟨fun hok => absurd hok (isErrorReply_not_ok _ (herr _ _ _)), fun _ => herr _ _ _,
        fun _ _ _ => herr _ _ _, fun _ _ _ _ => herr _ _ _, ?_⟩
      simp only [ChunkError, List.filter_append, hfilter]
      simp [Call.isWrite]
    · have hcount : ((ChunkHandler.store env
            (ChunkHandler.setClock env w (ChunkHandler.postData env req)).1
            (ChunkHandler.setClock env w (ChunkHandler.postData env req)).2 URLFile index chunkSize
            (mbedtls_base64_decode false (ChunkHandler.destLen b64) b64 (strlen b64)).out
            (ChunkHandler.destLen b64)).calls.filter Call.isWrite).length ≤ 1 := by
        rw [hcalls, List.filter_append, hfilter]
        simp [Call.isWrite]
      rcases hr with ⟨hn, hresp⟩ | ⟨hn, hresp⟩
      · have he : isErrorReply (ChunkHandler.store env
            (ChunkHandler.setClock env w (ChunkHandler.postData env req)).1
            (ChunkHandler.setClock env w (ChunkHandler.postData env req)).2 URLFile index chunkSize
            (mbedtls_base64_decode false (ChunkHandler.destLen b64) b64 (strlen b64)).out
            (ChunkHandler.destLen b64)).resp := by
          rw [hresp]
          exact ⟨_, Or.inl rfl⟩
        exact ⟨fun hok => absurd hok (isErrorReply_not_ok _ he), fun _ => he,
          fun _ _ _ => he, fun _ _ _ _ => he, hcount⟩
      · have hfull : ((mbedtls_base64_decode false (ChunkHandler.destLen b64) b64
            (strlen b64)).out.take (ChunkHandler.destLen b64)).length
            = ChunkHandler.destLen b64 := by
          have h1 := (List.take_sublist env.fwrite_max
            ((mbedtls_base64_decode false (ChunkHandler.destLen b64) b64
              (strlen b64)).out.take (ChunkHandler.destLen b64))).length_le
          have h2 := List.length_take_le (ChunkHandler.destLen b64)
            (mbedtls_base64_decode false (ChunkHandler.destLen b64) b64 (strlen b64)).out
          omega
        refine ⟨fun _ => ⟨b64, path, mode, hp, hfull, ?_, ?_⟩, ?_, ?_, ?_, hcount⟩
        · rw [hcalls]
          simp
        · rw [hcalls, hn]
          simp
        · intro hfalse
          rw [hfalse] at hf
          cases hf
        · intro p m hmem
          rw [hcalls, List.mem_append] at hmem
          rcases hmem with hmem | hmem
          · exact absurd rfl ((hclock _ hmem).2 p m false)
          · simp at hmem
        · intro data n hmem hlt
          rw [hcalls, List.mem_append] at hmem
          rcases hmem with hmem | hmem
          · have := (hclock _ hmem).1
            simp [Call.isWrite] at this
          · simp only [List.mem_cons, List.mem_singleton, Call.fwrite.injEq, reduceCtorEq,
              false_or, or_false, List.not_mem_nil] at hmem
            obtain ⟨rfl, rfl⟩ := hmem
            rw [hn, hfull] at hlt
            omega


/-- Witness of `ok_only_after_full_write`: chunk 1 of `F` with the payload `eHk=`. -/
theorem ok_only_after_full_write_witness :
    (ChunkHandler sampleEnv mountedWorld
      (postRequest "index=1&chunksize=2&datalen=2&filename=F&datachunk=eHk%3D")).overrun = false ∧
    FindPostData (ChunkHandler.postData sampleEnv
        (postRequest "index=1&chunksize=2&datalen=2&filename=F&datachunk=eHk%3D"))
      "datachunk".toList = some ("eHk%3D".toList ++ [NULLCH]) ∧
    0 < FindPostDataLen ("eHk%3D".toList ++ [NULLCH]) ∧
    ((ChunkHandler sampleEnv mountedWorld
        (postRequest "index=1&chunksize=2&datalen=2&filename=F&datachunk=eHk%3D")).calls.filter
      Call.isWrite).length ≤ 1 :=
  ⟨by decide, by decide, by decide,
    (ok_only_after_full_write sampleEnv mountedWorld
      (postRequest "index=1&chunksize=2&datalen=2&filename=F&datachunk=eHk%3D")
      ("eHk%3D".toList ++ [NULLCH]) (by decide) (by decide) (by decide)).2.2.2.2⟩

/-! ## Download: the bytes of the file, in chunks -/

theorem pieces_go_length (chunkSize : Nat) :
    ∀ (fuel : Nat) (data : List Nat), ∀ p ∈ pieces.go chunkSize fuel data, p.length ≤ chunkSize := by
  intro fuel
  induction fuel with
  | zero => intro data p hp; simp [pieces.go] at hp
  | succ n ih =>
    intro data p hp
    unfold pieces.go at hp
    by_cases hd : data = []
    · rw [if_pos hd] at hp
      cases hp
    · rw [if_neg hd] at hp
      rcases List.mem_cons.mp hp with rfl | hp
      · exact List.length_take_le _ _
      · exact ih _ p hp

theorem pieces_go_nil (chunkSize fuel : Nat) : pieces.go chunkSize fuel [] = [] := by
  cases fuel <;> simp [pieces.go]

theorem fread_no_error (fail : Option Nat) (data : List Nat) (pos count : Nat)
    (hread : ∀ k, fail = some k → data.length ≤ k) :
    fread fail data pos count
      = ((data.drop pos).take count, decide (data.length < pos + count)) := by
  unfold fread
  cases fail with
  | none => rfl
  | some k =>
    simp only []
    rw [if_pos (hread k rfl)]

theorem DownloadHandler_loop_calls (fail : Option Nat) (data : List Nat) :
    ∀ (fuel pos : Nat), ∀ c ∈ (DownloadHandler.loop fail data fuel pos).2.1,
      ∃ n, c = Call.fread n := by
  intro fuel
  induction fuel with
  | zero => intro pos c hc; simp [DownloadHandler.loop] at hc
  | succ n ih =>
    intro pos c hc
    unfold DownloadHandler.loop at hc
    simp only [] at hc
    by_cases hb : (fread fail data pos MAX_CHUNK_LEN).1.length > 0
    · rw [if_pos hb] at hc
      by_cases he : (fread fail data pos MAX_CHUNK_LEN).2 = true
      · rw [if_pos he] at hc
        simp only [List.mem_singleton] at hc
        exact ⟨_, hc⟩
      · rw [if_neg he] at hc
        rcases List.mem_cons.mp hc with rfl | hc
        · exact ⟨_, rfl⟩
        · exact ih _ c hc
    · rw [if_neg hb] at hc
      simp only [List.mem_singleton] at hc
      exact ⟨_, hc⟩

theorem DownloadHandler_loop_resp (fail : Option Nat) (data : List Nat) :
    ∀ (fuel pos : Nat), ∃ chunks : List (List Nat),
      (DownloadHandler.loop fail data fuel pos).1 = chunks.map Resp.send_data := by
  intro fuel
  induction fuel with
  | zero => intro pos; exact ⟨[], rfl⟩
  | succ n ih =>
    intro pos
    unfold DownloadHandler.loop
    simp only []
    by_cases hb : (fread fail data pos MAX_CHUNK_LEN).1.length > 0
    · rw [if_pos hb]
      by_cases he : (fread fail data pos MAX_CHUNK_LEN).2 = true
      · rw [if_pos he]
        exact ⟨[(fread fail data pos MAX_CHUNK_LEN).1], rfl⟩
      · rw [if_neg he]
        obtain ⟨chunks, hc⟩ := ih (pos + (fread fail data pos MAX_CHUNK_LEN).1.length)
        exact ⟨(fread fail data pos MAX_CHUNK_LEN).1 :: chunks, by simp only [hc, List.map_cons]⟩
    · rw [if_neg hb]
      exact ⟨[], rfl⟩

theorem DownloadHandler_loop_pieces (fail : Option Nat) (data : List Nat)
    (hread : ∀ k, fail = some k → data.length ≤ k) :
    ∀ (fuel pos : Nat), data.length - pos + 1 ≤ fuel →
      (DownloadHandler.loop fail data fuel pos).1
        = (pieces.go MAX_CHUNK_LEN fuel (data.drop pos)).map Resp.send_data ∧
      (DownloadHandler.loop fail data fuel pos).2.2 = true := by
  have hM : MAX_CHUNK_LEN = 1024 := rfl
  intro fuel
  induction fuel with
  | zero => intro pos h; omega
  | succ n ih =>
    intro pos h
    unfold DownloadHandler.loop pieces.go
    simp only [fread_no_error fail data pos MAX_CHUNK_LEN hread]
    by_cases hd : data.drop pos = []
    · have hlen : data.length ≤ pos := by
        have := congrArg List.length hd
        simpa [List.length_drop, Nat.sub_eq_zero_iff_le] using this
      rw [if_pos hd, hd]
      simp only [List.take_nil, List.length_nil, gt_iff_lt, lt_self_iff_false, if_false,
        List.map_nil, true_and, decide_eq_true_eq]
      omega
    · have hlen : pos < data.length := by
        by_contra hcon
        exact hd (List.drop_eq_nil_of_le (by omega))
      rw [if_neg hd]
      have hb : ((data.drop pos).take MAX_CHUNK_LEN).length > 0 := by
        rw [List.length_take, List.length_drop]
        omega
      rw [if_pos hb]
      by_cases he : data.length < pos + MAX_CHUNK_LEN
      · rw [if_pos (by simpa using he)]
        have hrest : (data.drop pos).drop MAX_CHUNK_LEN = [] := by
          apply List.drop_eq_nil_of_le
          rw [List.length_drop]
          omega
        rw [hrest, pieces_go_nil]
        exact ⟨rfl, rfl⟩
      · rw [if_neg (by simpa using he)]
        have hfull : ((data.drop pos).take MAX_CHUNK_LEN).length = MAX_CHUNK_LEN := by
          rw [List.length_take, List.length_drop]
          omega
        rw [hfull]
        obtain ⟨h1, h2⟩ := ih (pos + MAX_CHUNK_LEN) (by omega)
        simp only [h1, h2, List.map_cons, List.drop_drop, and_true]


theorem fopen_rb (ok : Bool) (files : List Char → Option (List Nat)) (path : List Char)
    (handle : FILE) (h : (fopen ok files path "rb".toList).2 = some handle) :
    handle.path = path ∧ ∃ data, files path = some data := by
  unfold fopen at h
  by_cases hok : ¬ ok = true
  · rw [if_pos hok] at h
    cases h
  · rw [if_neg hok, if_neg (by decide), if_neg (by decide)] at h
    cases hfile : files path with
    | none =>
      rw [hfile] at h
      cases h
    | some data =>
      rw [hfile] at h
      simp only [Option.some.injEq] at h
      subst h
      exact ⟨rfl, data, rfl⟩

theorem DownloadHandler_cases (env : Env) (w : World) (req : httpd_req_t) :
    (∃ msg, DownloadHandler env w req = ErrorHandler w [] msg) ∨
    (∃ p msg, DownloadHandler env w req
      = ErrorHandler w [Call.fopen p "rb".toList false] msg) ∨
    (∃ p data, w.files p = some data ∧
      (DownloadHandler env w req).calls
        = [Call.fopen p "rb".toList true]
          ++ (DownloadHandler.loop env.fread_fail data (data.length + 1) 0).2.1
          ++ [Call.fclose] ∧
      (DownloadHandler env w req).resp
        = [Resp.set_type "application/octet-stream".toList]
          ++ (DownloadHandler.loop env.fread_fail data (data.length + 1) 0).1
          ++ [Resp.send_chunk []]
          ++ (if (DownloadHandler.loop env.fread_fail data (data.length + 1) 0).2.2 = true
              then []
              else (ErrorHandler w [] "Did not read enough of the file".toList).resp)) := by
  unfold DownloadHandler
  by_cases hU : w.USBHandle = none
  · rw [if_pos hU]
    exact Or.inl ⟨_, rfl⟩
  rw [if_neg hU]
  simp only []
  by_cases hq : strlen req.query + 1 > 1
  swap
  · rw [if_neg hq]
    exact Or.inl ⟨_, rfl⟩
  rw [if_pos hq]
  by_cases hk : (httpd_query_key_value (snprintf (strlen req.query + 1) (cstr req.query))
      "file".toList MAX_DIR_LEN).1 ≠ ESP_OK
  · rw [if_pos hk]
    exact Or.inl ⟨_, rfl⟩
  rw [if_neg hk]
  cases hf : (fopen env.fopen_ok w.files
      (snprintf (MAX_DIR_LEN * 2 - 1) (MNT_PATH ++ ['/'] ++
        (httpd_query_key_value (snprintf (strlen req.query + 1) (cstr req.query))
          "file".toList MAX_DIR_LEN).2)) "rb".toList).2 with
  | none => exact Or.inr (Or.inl ⟨_, _, rfl⟩)
  | some handle =>
    obtain ⟨hpath, data, hdata⟩ := fopen_rb _ _ _ _ hf
    refine Or.inr (Or.inr ⟨_, data, hdata, ?_⟩)
    simp only [hpath, hdata, Option.getD_some]
    by_cases he : (DownloadHandler.loop env.fread_fail data (data.length + 1) 0).2.2 = true
    · rw [if_neg (not_not.mpr he), if_pos he]
      exact ⟨rfl, (List.append_nil _).symm⟩
    · rw [if_pos he, if_neg he]
      exact ⟨rfl, rfl⟩

/-- C14: once `DownloadHandler` has opened a file, its response is the content
type, data chunks and then one empty terminating chunk, whether or not the
reading reached the end of the file; when no read error occurs the data chunks
are non-empty, hold at most `MAX_CHUNK_LEN` (1024) bytes each, their
concatenation is the content of the file, and nothing follows the terminating
chunk. -/
theorem download_streams_file (env : Env) (w : World) (req : httpd_req_t) (path : List Char)
    (hopen : Call.fopen path "rb".toList true ∈ (DownloadHandler env w req).calls) :
    (∃ (chunks : List (List Nat)) (tail : List Resp),
      (tail = [] ∨ tail = (ErrorHandler w [] "Did not read enough of the file".toList).resp) ∧
      (DownloadHandler env w req).resp
        = [Resp.set_type "application/octet-stream".toList] ++ chunks.map Resp.send_data
          ++ [Resp.send_chunk []] ++ tail) ∧
    (∀ data, w.files path = some data → (∀ k, env.fread_fail = some k → data.length ≤ k) →
      ∃ chunks : List (List Nat),
        (∀ c ∈ chunks, c ≠ [] ∧ c.length ≤ MAX_CHUNK_LEN) ∧
        chunks.flatten = data ∧
        (DownloadHandler env w req).resp
          = [Resp.set_type "application/octet-stream".toList] ++ chunks.map Resp.send_data
            ++ [Resp.send_chunk []]) := by
  rcases DownloadHandler_cases env w req with ⟨msg, h⟩ | ⟨p, msg, h⟩ | ⟨p, data, hdata, hcalls, hresp⟩
  · rw [h] at hopen
    cases hopen
  · rw [h] at hopen
    have : Call.fopen path "rb".toList true ∈ [Call.fopen p "rb".toList false] := hopen
    simp at this
  · have hp : p = path := by
      rw [hcalls] at hopen
      simp only [List.mem_append, List.mem_singleton, Call.fopen.injEq, and_true,
        reduceCtorEq, or_false] at hopen
      rcases hopen with h | h
      · exact h.symm
      · obtain ⟨n, hn⟩ := DownloadHandler_loop_calls _ _ _ _ _ h
        cases hn
    subst hp
    refine ⟨?_, ?_⟩
    · obtain ⟨chunks, hc⟩ := DownloadHandler_loop_resp env.fread_fail data (data.length + 1) 0
      refine ⟨chunks, _, ?_, by rw [hresp, hc]⟩
      split_ifs
      · exact Or.inl rfl
      · exact Or.inr rfl
    · intro data2 hdata2 hread
      rw [hdata] at hdata2
      cases hdata2
      obtain ⟨h1, h2⟩ := DownloadHandler_loop_pieces env.fread_fail data hread
        (data.length + 1) 0 (by omega)
      obtain ⟨hflat, hne, _⟩ := pieces_go_spec MAX_CHUNK_LEN (by decide) (data.length + 1) data
        (by omega)
      refine ⟨pieces.go MAX_CHUNK_LEN (data.length + 1) data,
        fun c hc => ⟨hne c hc, pieces_go_length _ _ _ c hc⟩, hflat, ?_⟩
      rw [hresp, h1, h2, if_pos rfl, List.drop_zero, List.append_nil]

/-- Witness of `download_streams_file`: the download of `/usb/F`, six bytes. -/
theorem download_streams_file_witness :
    ∃ chunks : List (List Nat),
      (∀ c ∈ chunks, c ≠ [] ∧ c.length ≤ MAX_CHUNK_LEN) ∧
      chunks.flatten = [65, 66, 67, 68, 69, 70] ∧
      (DownloadHandler sampleEnv mountedWorld (getRequest "file=F")).resp
        = [Resp.set_type "application/octet-stream".toList] ++ chunks.map Resp.send_data
          ++ [Resp.send_chunk []] :=
  (download_streams_file sampleEnv mountedWorld (getRequest "file=F") "/usb/F".toList
    (by decide)).2 [65, 66, 67, 68, 69, 70] (by decide) (by decide)

/-! ## Upload: the clock -/

theorem setClock_of_set (env : Env) (w : World) (pd : List Char) (h : w.ourTime ≠ 0) :
    ChunkHandler.setClock env w pd = (w, []) := by
  unfold ChunkHandler.setClock
  rw [if_neg h]

theorem store_clock (env : Env) (w : World) (calls : List Call) (URLFile : List Char)
    (index chunkSize : Int) (destData : List Nat) (destLen : Nat) :
    (ChunkHandler.store env w calls URLFile index chunkSize destData destLen).world.ourTime
      = w.ourTime ∧
    (ChunkHandler.store env w calls URLFile index chunkSize destData destLen).calls.filter
      Call.isClock = calls.filter Call.isClock := by
  unfold ChunkHandler.store
  simp only []
  cases (fopen env.fopen_ok w.files
    (snprintf (strlen URLFile + MAX_DIR_LEN - 1) (MNT_PATH ++ ['/'] ++ cstr URLFile))
    (if index = 0 then "wb".toList else "ab".toList)).2 with
  | none => exact ⟨rfl, by simp [ChunkError, Call.isClock]⟩
  | some f =>
    simp only []
    split_ifs <;> exact ⟨rfl, by simp [ChunkError, Call.isClock]⟩

/-- Once `ourTime.tv_sec` is not 0, `ChunkHandler` neither calls `settimeofday`
nor changes `ourTime`, whatever the request. -/
theorem ChunkHandler_keeps_clock (env : Env) (w : World) (req : httpd_req_t)
    (h : w.ourTime ≠ 0) :
    (ChunkHandler env w req).world.ourTime = w.ourTime ∧
    (ChunkHandler env w req).calls.filter Call.isClock = [] := by
  rcases ChunkHandler_cases env w req with ⟨msg, _, hc⟩ | ⟨a, b, c, URLFile, _, _, _, _, _, _, hc⟩
  · rw [hc.1, hc.2.2]
    exact ⟨rfl, rfl⟩
  · rw [hc.1, hc.2.2, setClock_of_set env w _ h]
    rcases decode_cases env w [] (ChunkHandler.postData env req) URLFile (atoi a) (atoi b) (atoi c)
      with ⟨msg, _, h2⟩ | ⟨_, _, _, h2⟩ | ⟨_, _, _, _, _, _, _, _, _, h2⟩
    · rw [h2.1, h2.2.2]
      exact ⟨rfl, rfl⟩
    · rw [h2]
      exact ⟨rfl, rfl⟩
    · rw [h2.1, h2.2.2]
      exact store_clock env w [] URLFile _ _ _ _

/-- C16: on a platform where `mktime` gives 0 for 1970-01-01T00:00:00Z, a chunk
stamped with that time makes `ChunkHandler` call `settimeofday` and leaves
`ourTime.tv_sec` at 0, so the same chunk sent again calls `settimeofday` again:
the clock is set twice in one process lifetime. -/
theorem clock_set_twice_at_epoch :
    (ChunkHandler epochEnv mountedWorld epochChunk).calls.filter Call.isClock
      = [Call.settimeofday 0] ∧
    (ChunkHandler epochEnv mountedWorld epochChunk).world.ourTime = 0 ∧
    (ChunkHandler epochEnv (ChunkHandler epochEnv mountedWorld epochChunk).world
      epochChunk).calls.filter Call.isClock = [Call.settimeofday 0] := by
  decide

/-! ## Upload: the timestamp never decides the reply -/

theorem store_indep (env env' : Env) (w w' : World) (calls calls' : List Call)
    (URLFile : List Char) (index chunkSize : Int) (destData : List Nat) (destLen : Nat)
    (hf : w.files = w'.files) (ho : env.fopen_ok = env'.fopen_ok)
    (hw : env.fwrite_max = env'.fwrite_max) (hfl : env.fflush_fail = env'.fflush_fail) :
    (ChunkHandler.store env w calls URLFile index chunkSize destData destLen).resp
      = (ChunkHandler.store env' w' calls' URLFile index chunkSize destData destLen).resp ∧
    (ChunkHandler.store env w calls URLFile index chunkSize destData destLen).world.files
      = (ChunkHandler.store env' w' calls' URLFile index chunkSize destData destLen).world.files := by
  unfold ChunkHandler.store
  simp only [hf, ho, hw, hfl]
  cases (fopen env'.fopen_ok w'.files
    (snprintf (strlen URLFile + MAX_DIR_LEN - 1) (MNT_PATH ++ ['/'] ++ cstr URLFile))
    (if index = 0 then "wb".toList else "ab".toList)).2 with
  | none => exact ⟨rfl, hf⟩
  | some f =>
    simp only []
    split_ifs <;> exact ⟨rfl, rfl⟩

theorem decode_indep (env env' : Env) (w w' : World) (calls calls' : List Call)
    (pd pd' URLFile : List Char) (index chunkSize dataLen : Int)
    (hfind : (FindPostData pd "datachunk".toList).map
        (fun srcData => decide (FindPostDataLen srcData > 0))
      = (FindPostData pd' "datachunk".toList).map
        (fun srcData => decide (FindPostDataLen srcData > 0)))
    (hparse : ParsePostData env.digit pd "datachunk".toList
      = ParsePostData env'.digit pd' "datachunk".toList)
    (hf : w.files = w'.files) (ho : env.fopen_ok = env'.fopen_ok)
    (hw : env.fwrite_max = env'.fwrite_max) (hfl : env.fflush_fail = env'.fflush_fail) :
    (ChunkHandler.decode env w calls pd URLFile index chunkSize dataLen).resp
      = (ChunkHandler.decode env' w' calls' pd' URLFile index chunkSize dataLen).resp ∧
    (ChunkHandler.decode env w calls pd URLFile index chunkSize dataLen).world.files
      = (ChunkHandler.decode env' w' calls' pd' URLFile index chunkSize dataLen).world.files := by
  unfold ChunkHandler.decode
  rw [hparse]
  cases h1 : FindPostData pd "datachunk".toList with
  | none =>
    cases h2 : FindPostData pd' "datachunk".toList with
    | none => exact ⟨rfl, hf⟩
    | some s' => rw [h1, h2] at hfind; cases hfind
  | some s =>
    cases h2 : FindPostData pd' "datachunk".toList with
    | none => rw [h1, h2] at hfind; cases hfind
    | some s' =>
      rw [h1, h2] at hfind
      simp only [Option.map_some', Option.some.injEq, decide_eq_decide] at hfind
      simp only []
      by_cases hpos : FindPostDataLen s' > 0
      · rw [if_pos (hfind.mpr hpos), if_pos hpos]
        cases ParsePostData env'.digit pd' "datachunk".toList with
        | none => exact ⟨rfl, hf⟩
        | some b64 =>
          simp only [storing_resp, storing_world]
          split_ifs
          · exact ⟨rfl, hf⟩
          · exact ⟨rfl, hf⟩
          · exact ⟨rfl, hf⟩
          · exact ⟨rfl, hf⟩
          · exact store_indep env env' w w' calls calls' URLFile index chunkSize _ _ hf ho hw hfl
      · rw [if_neg (fun h => hpos (hfind.mp h)), if_neg hpos]
        exact ⟨rfl, hf⟩

/-- Two chunk requests from which `ChunkHandler` reads the same `index`, `chunksize`,
`datalen`, `filename` and `datachunk`, and that overrun no buffer, get the same reply and
leave the same files, whatever their `timestamp` fields, whether or not the platform can
read them and whether or not the clock was already set: the clock block itself never
fails a request. -/
theorem timestamp_never_fails_chunk (env env' : Env) (w w' : World) (req req' : httpd_req_t)
    (hfit : (ChunkHandler env w req).overrun = false)
    (hfit' : (ChunkHandler env' w' req').overrun = false)
    (hU : w.USBHandle = w'.USBHandle) (hf : w.files = w'.files)
    (hsame : SameChunk env req env' req') :
    (ChunkHandler env w req).resp = (ChunkHandler env' w' req').resp ∧
    (ChunkHandler env w req).world.files = (ChunkHandler env' w' req').world.files := by
  have _ := hfit
  have _ := hfit'
  obtain ⟨hrecv, hfields, hfind, ho, hw, hfl⟩ := hsame
  have hindex := hfields "index".toList (by simp)
  have hsize := hfields "chunksize".toList (by simp)
  have hlen := hfields "datalen".toList (by simp)
  have hname := hfields "filename".toList (by simp)
  have hchunk := hfields "datachunk".toList (by simp)
  unfold ChunkHandler
  rw [hU]
  by_cases h0 : w'.USBHandle = none
  · rw [if_pos h0, if_pos h0]
    exact ⟨rfl, hf⟩
  rw [if_neg h0, if_neg h0]
  simp only []
  by_cases hr : (httpd_req_recv req' (MAX_CHUNK_LEN * 2 - 1)).1 ≤ 0
  · rw [if_pos (hrecv.mpr hr), if_pos hr]
    exact ⟨rfl, hf⟩
  rw [if_neg (fun h => hr (hrecv.mp h)), if_neg hr]
  simp only [hindex, hsize, hlen, hname]
  cases ParsePostData env'.digit (ChunkHandler.postData env' req') "index".toList with
  | none => exact ⟨rfl, hf⟩
  | some a =>
  simp only [storing_resp, storing_world]
  cases ParsePostData env'.digit (ChunkHandler.postData env' req') "chunksize".toList with
  | none => exact ⟨rfl, hf⟩
  | some b =>
  simp only [storing_resp, storing_world]
  cases ParsePostData env'.digit (ChunkHandler.postData env' req') "datalen".toList with
  | none => exact ⟨rfl, hf⟩
  | some c =>
  simp only [storing_resp, storing_world]
  cases ParsePostData env'.digit (ChunkHandler.postData env' req') "filename".toList with
  | none => exact ⟨rfl, hf⟩
  | some URLFile =>
    simp only [storing_resp, storing_world]
    apply decode_indep _ _ _ _ _ _ _ _ _ _ _ _ hfind hchunk _ ho hw hfl
    rw [(setClock_world env w _).1, (setClock_world env' w' _).1, hf]

/-- Witness of `timestamp_never_fails_chunk`: a chunk without `timestamp` on a platform
that reads no timestamp, and the same chunk stamped 1970-01-01T00:00:00Z on a platform
that reads it. -/
theorem timestamp_never_fails_chunk_witness :
    (ChunkHandler sampleEnv mountedWorld
        (postRequest "index=0&chunksize=2&datalen=2&filename=F&datachunk=eHk%3D")).resp
      = (ChunkHandler epochEnv mountedWorld epochChunk).resp ∧
    (ChunkHandler sampleEnv mountedWorld
        (postRequest "index=0&chunksize=2&datalen=2&filename=F&datachunk=eHk%3D")).world.files
      = (ChunkHandler epochEnv mountedWorld epochChunk).world.files :=
  timestamp_never_fails_chunk sampleEnv epochEnv mountedWorld mountedWorld
    (postRequest "index=0&chunksize=2&datalen=2&filename=F&datachunk=eHk%3D") epochChunk
    (by decide) (by decide) rfl rfl (by decide)

/-! ## Percent-decoding -/

theorem hexValue_lt (c : Char) (v : Nat) (h : hexValue c = some v) : v < 16 := by
  unfold hexValue at h
  split_ifs at h with h1 h2 h3
  · simp only [Option.some.injEq] at h
    have := h1.2
    rw [Char.le_def] at this
    have h9 : ('9' : Char).val.toNat = 57 := by decide
    have : c.toNat ≤ 57 := by
      unfold Char.toNat
      rw [← h9]
      exact this
    omega
  · simp only [Option.some.injEq] at h
    have := h2.2
    rw [Char.le_def] at this
    have h9 : ('f' : Char).val.toNat = 102 := by decide
    have : c.toNat ≤ 102 := by
      unfold Char.toNat
      rw [← h9]
      exact this
    omega
  · simp only [Option.some.injEq] at h
    have := h3.2
    rw [Char.le_def] at this
    have h9 : ('F' : Char).val.toNat = 70 := by decide
    have : c.toNat ≤ 70 := by
      unfold Char.toNat
      rw [← h9]
      exact this
    omega

theorem hexValue_plain (c : Char) (v : Nat) (h : hexValue c = some v) :
    c ≠ NULLCH ∧ isspace c = false ∧ c ≠ '+' ∧ c ≠ '-' := by
  have key : ∀ d : Char, hexValue d = none → c ≠ d := by
    intro d hd hcd
    rw [hcd, hd] at h
    cases h
  refine ⟨key _ (by decide), ?_, key _ (by decide), key _ (by decide)⟩
  cases hs : isspace c with
  | false => rfl
  | true =>
    unfold isspace at hs
    simp only [Bool.or_eq_true, decide_eq_true_eq] at hs
    rcases hs with ((((hs | hs) | hs) | hs) | hs) | hs
    · exact absurd hs (key _ (by decide))
    · exact absurd hs (key _ (by decide))
    · exact absurd hs (key _ (by decide))
    · exact absurd hs (key _ (by decide))
    · exact absurd hs (key _ (by decide))
    · exact absurd hs (key _ (by decide))

theorem sscanf_2x_hex (a b : Char) (rest : List Char) (v u : Nat)
    (ha : hexValue a = some v) (hb : hexValue b = some u) :
    sscanf_2x (a :: b :: rest) = some ((16 * v + u : Nat) : Int) := by
  obtain ⟨ha0, has, hap, ham⟩ := hexValue_plain a v ha
  obtain ⟨hb0, _, _, _⟩ := hexValue_plain b u hb
  have hc : cstr (a :: b :: rest) = a :: b :: cstr rest := by
    unfold cstr
    rw [List.takeWhile_cons_of_pos (by simpa using ha0),
      List.takeWhile_cons_of_pos (by simpa using hb0)]
  unfold sscanf_2x
  rw [hc, List.dropWhile_cons_of_neg (by simp [has])]
  simp only [hap, ham, or_self, if_false, ha, hb]

theorem intToChar_byte (n : Nat) (h : n < 256) : intToChar (n : Int) = Char.ofNat n := by
  unfold intToChar
  congr 1
  omega

theorem loop_percentDecode (d : Int) (tail : List Char)
    (ht : tail = [] ∨ tail.head? = some NULLCH ∨ tail.head? = some '&') :
    ∀ (n : Nat) (value out : List Char), value.length ≤ n →
      NULLCH ∉ value → '&' ∉ value → percentDecode value = some out →
      ParsePostData.loop d 0 (value ++ tail) = out := by
  intro n
  induction n with
  | zero =>
    intro value out hl _ _ hp
    have : value = [] := List.length_eq_zero.mp (by omega)
    subst this
    simp only [percentDecode, Option.some.injEq] at hp
    subst hp
    rw [List.nil_append]
    rcases ht with rfl | ht | ht
    · rfl
    · cases tail with
      | nil => rfl
      | cons c t =>
        simp only [List.head?_cons, Option.some.injEq] at ht
        subst ht
        simp [ParsePostData.loop]
    · cases tail with
      | nil => rfl
      | cons c t =>
        simp only [List.head?_cons, Option.some.injEq] at ht
        subst ht
        simp [ParsePostData.loop]
  | succ n ih =>
    intro value out hl h0 hamp hp
    cases value with
    | nil => exact (ih [] out (by simp) h0 hamp hp)
    | cons c rest =>
      have hc0 : c ≠ NULLCH := fun h => h0 (by simp [h])
      have hcamp : c ≠ '&' := fun h => hamp (by simp [h])
      have hr0 : NULLCH ∉ rest := fun h => h0 (List.mem_cons_of_mem _ h)
      have hramp : '&' ∉ rest := fun h => hamp (List.mem_cons_of_mem _ h)
      simp only [List.length_cons] at hl
      rw [List.cons_append]
      unfold ParsePostData.loop
      rw [if_neg (by simp [hc0, hcamp])]
      unfold percentDecode at hp
      by_cases hpc : c = '%'
      · rw [if_pos hpc] at hp ⊢
        cases rest with
        | nil => simp at hp
        | cons a rest1 =>
          cases rest1 with
          | nil => simp at hp
          | cons b rest2 =>
            simp only [] at hp
            cases ha : hexValue a with
            | none => rw [ha] at hp; simp at hp
            | some v =>
              cases hb : hexValue b with
              | none => rw [ha, hb] at hp; simp at hp
              | some u =>
                cases hrec : percentDecode rest2 with
                | none => rw [ha, hb, hrec] at hp; simp at hp
                | some out2 =>
                  rw [ha, hb, hrec] at hp
                  simp only [Option.some.injEq] at hp
                  subst hp
                  have hv := hexValue_lt a v ha
                  have hu := hexValue_lt b u hb
                  rw [List.cons_append, List.cons_append, sscanf_2x_hex a b _ v u ha hb,
                    Option.getD_some, intToChar_byte _ (by omega)]
                  congr 1
                  show ParsePostData.loop d 0 (rest2 ++ tail) = out2
                  exact ih rest2 out2 (by simp only [List.length_cons] at hl; omega)
                    (fun h => hr0 (by simp [h])) (fun h => hramp (by simp [h])) hrec
      · rw [if_neg hpc] at hp ⊢
        cases hrec : percentDecode rest with
        | none => rw [hrec] at hp; simp at hp
        | some out2 =>
          rw [hrec] at hp
          simp only [Option.map_some', Option.some.injEq] at hp
          subst hp
          congr 1
          exact ih rest out2 (by omega) hr0 hramp hrec

theorem percentDecode_plain (value : List Char) (h : '%' ∉ value) :
    percentDecode value = some value := by
  induction value with
  | nil => rfl
  | cons c rest ih =>
    unfold percentDecode
    rw [if_neg (fun hc => h (by simp [hc])), ih (fun hr => h (List.mem_cons_of_mem _ hr))]
    rfl

/-- Percent-decoding of a well-formed value: when the value of a field runs to the first
`&` or to the end of the body and each `%` in it is followed by two hex digits,
`ParsePostData` yields the value with every `%XX` replaced by the byte of value
XX and every other character, `+` included, copied unchanged; a value without
`%` is yielded as it is. -/
theorem percent_decoding (d : Int) (data key value tail : List Char)
    (hfind : FindPostData data key = some (value ++ tail))
    (ht : tail = [] ∨ tail.head? = some NULLCH ∨ tail.head? = some '&')
    (h0 : NULLCH ∉ value) (hamp : '&' ∉ value) :
    (∀ out, percentDecode value = some out → ParsePostData d data key = some out) ∧
    ('%' ∉ value → ParsePostData d data key = some value) := by
  have key : ∀ out, percentDecode value = some out → ParsePostData d data key = some out := by
    intro out hp
    unfold ParsePostData
    rw [hfind]
    simp only [Option.some.injEq]
    exact loop_percentDecode d tail ht value.length value out (Nat.le_refl _) h0 hamp hp
  exact ⟨key, fun h => key value (percentDecode_plain value h)⟩

/-- An instance of `percent_decoding`: the value `x+y%41%2fz` of the field `k` between two
other fields decodes to `x+yA/z`. -/
theorem percent_decoding_witness :
    ParsePostData 0 "a=1&k=x+y%41%2fz&b=2".toList "k".toList = some "x+yA/z".toList :=
  (percent_decoding 0 "a=1&k=x+y%41%2fz&b=2".toList "k".toList "x+y%41%2fz".toList
    "&b=2".toList (by decide) (by decide) (by decide) (by decide)).1 "x+yA/z".toList (by decide)

/-- C15: in `a%zzb` the two characters after the `%` are
not hex digits; `ParsePostData` stores the uninitialised `digit` (here 0, then
the code of `A`) and steps over them, so `z`, `z` are not copied. -/
theorem malformed_escape_drops_characters :
    ParsePostData 0 "k=a%zzb".toList "k".toList = some ['a', NULLCH, 'b'] ∧
    ParsePostData 65 "k=a%zzb".toList "k".toList = some ['a', 'A', 'b'] := by
  decide

/-! ## Listing: the path in a link -/

/-- C13: listing the root `/docs`, given without a trailing `/`, opens the
directory `/usb/docs` and links its file `a.txt` with the file parameter
`/docsa.txt`, the root and the name joined without a separator; `DownloadHandler`
given that parameter looks for `/usb//docsa.txt` and finds no file, while the
file is the one it opens for `/docs/a.txt`. -/
theorem root_without_slash_breaks_link :
    (SelectHandler sampleEnv docsWorld (postRequest "startdir=%2Fdocs")).calls
      = [Call.opendir "/usb/docs".toList true, Call.closedir] ∧
    (SelectHandler sampleEnv docsWorld (postRequest "startdir=%2Fdocs")).resp
      = [Resp.set_type "text/html".toList,
         Resp.send_chunk
           "<html><body><h1 style=\"text-align:center;\">Files on USB Drive</h1>".toList,
         lineBreak,
         Resp.send_chunk (fileLink "/docsa.txt".toList "a.txt".toList "a.txt".toList),
         Resp.send_chunk ("<br><br>Return to the <a href=\"/\">main</a> page, ".toList
           ++ "or <a href=\"/load\">look</a> for another file.".toList),
         Resp.send_chunk "</body></html>".toList,
         Resp.send_chunk []] ∧
    (DownloadHandler sampleEnv docsWorld (getRequest "file=/docsa.txt")).calls
      = [Call.fopen "/usb//docsa.txt".toList "rb".toList false] ∧
    (DownloadHandler sampleEnv docsWorld (getRequest "file=/docs/a.txt")).resp
      = [Resp.set_type "application/octet-stream".toList, Resp.send_data [104, 105],
         Resp.send_chunk []] := by
  decide

/-! ## Listing: the depth of the traversal -/

theorem newBaseDir_eq (base name : List Char) (hb : NULLCH ∉ base)
    (hs : base.getLast? = some '/') (hn : NULLCH ∉ name) (hl : name.length < MAX_DIR_LEN) :
    ListDirectory.newBaseDir base name = childDir base name := by
  have hM : MAX_DIR_LEN = 255 := rfl
  have hcat : NULLCH ∉ base ++ name := by
    simp only [List.mem_append, not_or]
    exact ⟨hb, hn⟩
  have h0 : snprintf (strlen base + MAX_DIR_LEN + 1 - 1) (cstr base ++ cstr name)
      = base ++ name := by
    rw [cstr_of_no_nul _ hb, cstr_of_no_nul _ hn, strlen_of_no_nul _ hb]
    unfold snprintf
    apply List.take_of_length_le
    rw [List.length_append]
    omega
  unfold ListDirectory.newBaseDir childDir
  simp only [h0, strlen_of_no_nul _ hcat, hs, if_true]
  rw [if_pos]
  rw [List.getD_append_right _ _ _ _ (Nat.le_refl _)]
  simp only [Nat.sub_self, List.getD_cons_zero]
  decide

theorem childDir_spec (base name : List Char) (hb : NULLCH ∉ base) (hn : NULLCH ∉ name) :
    NULLCH ∉ childDir base name ∧ (childDir base name).getLast? = some '/' := by
  unfold childDir
  refine ⟨?_, by simp⟩
  have h1 : NULLCH ≠ '/' := by decide
  split_ifs <;> simp [hb, hn, h1]

theorem entry_dots (recurse : List Char → ListOutcome) (baseDir : List Char)
    (depth maxDepth : Int) (name : List Char)
    (h : name = ".".toList ∨ name = "..".toList) :
    ListDirectory.entry recurse baseDir depth maxDepth { d_name := name, d_type := DT_DIR }
      = ([lineBreak], []) := by
  unfold ListDirectory.entry
  rw [if_pos]
  · rfl
  · refine ⟨rfl, ?_⟩
    rcases h with rfl | rfl
    · exact Or.inl (by decide)
    · exact Or.inr (by decide)

theorem ListDirectory_beyond (w : World) (baseDir : List Char) (depth maxDepth : Int)
    (h : maxDepth < depth) :
    ListDirectory w baseDir depth maxDepth = { ret := true, resp := [], calls := [] } := by
  unfold ListDirectory
  rw [ListDirectory.go, if_pos ⟨by omega, by omega⟩]

theorem dirItem_eq (name : List Char) (hn : NULLCH ∉ name) (hl : name.length ≤ MAX_DIR_LEN) :
    dirItem name = Resp.send_chunk ("&lt;".toList ++ name ++ "&gt;".toList) := by
  have hM : MAX_DIR_LEN = 255 := rfl
  have hP : BUFFER_PAD = 64 := rfl
  unfold dirItem snprintf
  rw [cstr_of_no_nul _ hn, List.take_of_length_le]
  have h1 : "&lt;".toList.length = 4 := by decide
  have h2 : "&gt;".toList.length = 4 := by decide
  simp only [List.length_append, h1, h2]
  omega


theorem listed_tree (w : World) (m : Nat) (hm : 1 ≤ m) :
    ∀ (t : Tree) (base : List Char) (depth : Nat), depth ≤ m →
      NULLCH ∉ base → base.getLast? = some '/' → t.Below w base → t.WellNamed →
      listed w base (depth : Int) (m : Int) t.entries
        = (t.prune (m - depth)).items base depth := by
  intro t
  induction t with
  | nil =>
    intro base depth _ _ _ _ _
    simp only [Tree.entries, Tree.prune, Tree.items]
    rfl
  | dots name rest ih =>
    intro base depth hd hb hs hbelow hwn
    obtain ⟨hname, hrest⟩ := hwn
    simp only [Tree.entries, Tree.prune, Tree.items]
    rw [listed_cons, entry_dots _ _ _ _ _ hname, ih base depth hd hb hs hbelow hrest]
    rfl
  | file name rest ih =>
    intro base depth hd hb hs hbelow hwn
    obtain ⟨hn, hl, hrest⟩ := hwn
    have hreg : ({ d_name := name, d_type := DT_REG } : dirent).d_type ≠ DT_DIR := by
      show DT_REG ≠ DT_DIR
      decide
    simp only [Tree.entries, Tree.prune, Tree.items]
    rw [listed_cons, entry_file _ base _ _ { d_name := name, d_type := DT_REG } hreg hn hl,
      ih base depth hd hb hs hbelow hrest, cstr_of_no_nul _ hb]
  | dir name children rest ihc ihr =>
    intro base depth hd hb hs hbelow hwn
    obtain ⟨hn, hdot, hdots, hl, hchildren, hrest⟩ := hwn
    obtain ⟨hopen, hbc, hbr⟩ := hbelow
    have hchild := childDir_spec base name hb hn
    have hentry := entry_dir (fun d => ListDirectory w d ((depth : Int) + 1) (m : Int)) base
      (depth : Int) (m : Int) { d_name := name, d_type := DT_DIR } rfl
      (by rw [cstr_of_no_nul _ hn]; exact hdot) (by rw [cstr_of_no_nul _ hn]; exact hdots)
      (by omega)
    have hitem := dirItem_eq name hn (Nat.le_of_lt hl)
    simp only [newBaseDir_eq base name hb hs hn hl, hitem] at hentry
    simp only [Tree.entries]
    rw [listed_cons, hentry, ihr base depth hd hb hs hbr hrest]
    by_cases hlt : depth < m
    · obtain ⟨k, hk⟩ : ∃ k, m - depth = k + 1 := ⟨m - depth - 1, by omega⟩
      have hk2 : m - (depth + 1) = k := by omega
      have hstep := ListDirectory_step w (childDir base name) ((depth : Int) + 1) (m : Int)
        children.entries (by omega) (by rw [cstr_of_no_nul _ hchild.1]; exact hopen)
      have hih := ihc (childDir base name) (depth + 1) (by omega) hchild.1 hchild.2 hbc hchildren
      rw [hk2] at hih
      simp only [Nat.cast_add, Nat.cast_one] at hih
      rw [hstep, hk]
      simp only [hih, Tree.prune, Tree.items, Bool.not_true, Bool.false_eq_true, if_false,
        not_true_eq_false, List.append_nil, List.cons_append, List.append_assoc]
    · have hk : m - depth = 0 := by omega
      have hbeyond := ListDirectory_beyond w (childDir base name) ((depth : Int) + 1) (m : Int)
        (by omega)
      rw [hbeyond, hk]
      simp only [Tree.prune, Tree.items, Bool.not_true, Bool.false_eq_true, if_false,
        not_true_eq_false, List.append_nil, List.cons_append, List.append_assoc]

/-- On a drive that holds the directory tree `t` at `root`, a root written with
a trailing `/`, and for every `maxDepth` of at least 1, `ListDirectory` called
with depth 0 succeeds and sends exactly the items of the entries of `t` that are
at most `maxDepth` levels below the root, provided no directory name has
`MAX_DIR_LEN` characters. -/
theorem ListDirectory_lists_to_depth (w : World) (root : List Char) (t : Tree) (m : Nat)
    (hm : 1 ≤ m) (hroot : NULLCH ∉ root) (hslash : root.getLast? = some '/')
    (hosted : t.Hosted w root) (hnames : t.WellNamed) :
    (ListDirectory w root 0 (m : Int)).ret = true ∧
    (ListDirectory w root 0 (m : Int)).resp = (t.prune m).items root 0 := by
  have hstep := ListDirectory_step w root 0 (m : Int) t.entries (by omega)
    (by rw [cstr_of_no_nul _ hroot]; exact hosted.1)
  rw [hstep]
  refine ⟨rfl, ?_⟩
  exact listed_tree w m hm t root 0 (Nat.zero_le _) hroot hslash hosted.2 hnames


/-- An instance of `ListDirectory_lists_to_depth`: the root `/docs/` of `nestedWorld`
with `maxDepth` 1. -/
theorem ListDirectory_lists_to_depth_nested :
    (ListDirectory nestedWorld "/docs/".toList 0 1).resp
      = [lineBreak, Resp.send_chunk "&lt;sub&gt;".toList,
         lineBreak, Resp.send_chunk "_&nbsp;".toList,
         Resp.send_chunk (fileLink "/docs/sub/deep.txt".toList "deep.txt".toList
           "deep.txt".toList),
         lineBreak,
         Resp.send_chunk (fileLink "/docs/a.txt".toList "a.txt".toList "a.txt".toList)] :=
  (ListDirectory_lists_to_depth nestedWorld "/docs/".toList nestedTree 1 (by decide) (by decide)
    (by decide) ⟨by decide, by decide, trivial, trivial⟩
    ⟨by decide, by decide, by decide, by decide, ⟨by decide, by decide, trivial⟩,
      by decide, by decide, trivial⟩).2

/-- C11: in `nestedWorld` every directory can be opened, yet `ListDirectory`
called on the root `/docs` with depth 0 and `maxDepth` 1 does not list
`deep.txt`, an entry of depth 1: it joins the root and the name `sub` without a
separator, asks `opendir` for `/usb/docssub/` and sends the two notices in the
place of the entries of `sub`. -/
theorem depth_one_entries_not_listed :
    nestedWorld.dirs "/usb/docs".toList
      = some [{ d_name := "sub".toList, d_type := DT_DIR },
              { d_name := "a.txt".toList, d_type := DT_REG }] ∧
    nestedWorld.dirs "/usb/docs/sub".toList
      = some [{ d_name := "deep.txt".toList, d_type := DT_REG }] ∧
    (ListDirectory nestedWorld "/docs".toList 0 1).resp
      = [lineBreak, Resp.send_chunk "&lt;sub&gt;".toList,
         Resp.send_chunk "Could not open a subdirectory".toList,
         Resp.send_chunk "Could not list subdirectory".toList,
         lineBreak,
         Resp.send_chunk (fileLink "/docsa.txt".toList "a.txt".toList "a.txt".toList)] ∧
    (ListDirectory nestedWorld "/docs".toList 0 1).calls
      = [Call.opendir "/usb/docs".toList true,
         Call.opendir "/usb/docssub/".toList false, Call.closedir] := by
  decide

set_option maxRecDepth 100000 in
/-- A directory whose name has `MAX_DIR_LEN` characters is not entered either:
`snprintf` cuts the last character of the name, and `opendir` is asked for a
directory that does not exist. -/
theorem long_directory_name_is_cut :
    (ListDirectory longNameWorld "/".toList 0 1).calls
      = [Call.opendir "/usb/".toList true,
         Call.opendir ("/usb/".toList ++ List.replicate 254 'a' ++ ['/']) false,
         Call.closedir] := by
  decide

/-! ## POST data: the lookup of a key -/

/-- `ParsePostData` returns false exactly when `strstr` does not find the bare
key anywhere in the body. -/
theorem ParsePostData_none_iff (d : Int) (data key : List Char) :
    ParsePostData d data key = none ↔ strstr data key = none := by
  unfold ParsePostData FindPostData
  cases strstr data key with
  | none => simp
  | some p => simp

/-- C21: in the body `filename=index.html&index=1`, whose pairs are named
`filename` and `index`, `ParsePostData` yields `html` for the key `index`, not
the value `1` of that pair, and returns true for the keys `name` and `html`,
which are not the name of any pair: `FindPostData` looks for the bare key with
`strstr` and takes what follows its first occurrence. -/
theorem key_found_inside_another_field :
    formFieldNames "filename=index.html&index=1".toList = ["filename".toList, "index".toList] ∧
    ParsePostData 0 "filename=index.html&index=1".toList "index".toList = some "html".toList ∧
    ParsePostData 0 "filename=index.html&index=1".toList "name".toList
      = some "index.html".toList ∧
    ParsePostData 0 "filename=index.html&index=1".toList "html".toList
      = some "index=1".toList := by
  decide

/-! ## Listing: the entries `.` and `..` -/

theorem listedCalls_append (w : World) (baseDir : List Char) (depth maxDepth : Int)
    (xs ys : List dirent) :
    listedCalls w baseDir depth maxDepth (xs ++ ys)
      = listedCalls w baseDir depth maxDepth xs ++ listedCalls w baseDir depth maxDepth ys := by
  unfold listedCalls
  simp only [List.map_append, List.flatten_append]

theorem listedCalls_cons (w : World) (baseDir : List Char) (depth maxDepth : Int)
    (x : dirent) (ys : List dirent) :
    listedCalls w baseDir depth maxDepth (x :: ys)
      = (ListDirectory.entry (fun d => ListDirectory w d (depth + 1) maxDepth)
          baseDir depth maxDepth x).2 ++ listedCalls w baseDir depth maxDepth ys := by
  unfold listedCalls
  simp only [List.map_cons, List.flatten_cons]

theorem entry_dot (recurse : List Char → ListOutcome) (baseDir : List Char)
    (depth maxDepth : Int) (dot : dirent) (hdir : dot.d_type = DT_DIR)
    (hname : cstr dot.d_name = ".".toList ∨ cstr dot.d_name = "..".toList) :
    ListDirectory.entry recurse baseDir depth maxDepth dot = ([lineBreak], []) := by
  unfold ListDirectory.entry
  rw [if_pos ⟨hdir, hname⟩]
  rfl

/-- C22: an entry `.` or `..` of a directory that `ListDirectory` lists gets the
line break that every entry gets and nothing else, neither an item nor a
recursive call, whatever `maxDepth`: the chunks sent and the library calls made
for the directory are those of the entries before and after it, with one line
break in its place. -/
theorem dot_entries_are_skipped (w : World) (baseDir : List Char) (depth maxDepth : Int)
    (before after : List dirent) (dot : dirent)
    (hd : depth ≤ maxDepth)
    (ho : w.dirs (MNT_PATH ++ cstr baseDir) = some (before ++ dot :: after))
    (hdir : dot.d_type = DT_DIR)
    (hname : cstr dot.d_name = ".".toList ∨ cstr dot.d_name = "..".toList) :
    (∀ recurse : List Char → ListOutcome,
      ListDirectory.entry recurse baseDir depth maxDepth dot = ([lineBreak], [])) ∧
    (ListDirectory w baseDir depth maxDepth).resp
      = listed w baseDir depth maxDepth before ++ [lineBreak]
        ++ listed w baseDir depth maxDepth after ∧
    (ListDirectory w baseDir depth maxDepth).calls
      = [Call.opendir (MNT_PATH ++ cstr baseDir) true]
        ++ (listedCalls w baseDir depth maxDepth before
          ++ listedCalls w baseDir depth maxDepth after)
        ++ [Call.closedir] := by
  refine ⟨fun recurse => entry_dot recurse baseDir depth maxDepth dot hdir hname, ?_, ?_⟩
  · rw [ListDirectory_step w baseDir depth maxDepth _ hd ho]
    simp only []
    rw [listed_append, listed_cons, entry_dot _ baseDir depth maxDepth dot hdir hname]
    simp only [List.append_assoc, List.singleton_append]
  · rw [ListDirectory_step w baseDir depth maxDepth _ hd ho]
    simp only []
    have h := listedCalls_append w baseDir depth maxDepth before (dot :: after)
    rw [listedCalls_cons, entry_dot _ baseDir depth maxDepth dot hdir hname,
      List.nil_append] at h
    unfold listedCalls at h ⊢
    rw [h]

/-- Witness of `dot_entries_are_skipped`: the entry `..` of the root of
`dotsWorld`, between `.` and `a.txt`, with `maxDepth` 3. -/
theorem dot_entries_are_skipped_witness :
    (ListDirectory dotsWorld "/".toList 0 3).resp
      = listed dotsWorld "/".toList 0 3 [{ d_name := ".".toList, d_type := DT_DIR }]
        ++ [lineBreak]
        ++ listed dotsWorld "/".toList 0 3 [{ d_name := "a.txt".toList, d_type := DT_REG }] ∧
    (ListDirectory dotsWorld "/".toList 0 3).calls
      = [Call.opendir (MNT_PATH ++ cstr "/".toList) true]
        ++ (listedCalls dotsWorld "/".toList 0 3 [{ d_name := ".".toList, d_type := DT_DIR }]
          ++ listedCalls dotsWorld "/".toList 0 3
            [{ d_name := "a.txt".toList, d_type := DT_REG }])
        ++ [Call.closedir] :=
  (dot_entries_are_skipped dotsWorld "/".toList 0 3
    [{ d_name := ".".toList, d_type := DT_DIR }]
    [{ d_name := "a.txt".toList, d_type := DT_REG }]
    { d_name := "..".toList, d_type := DT_DIR }
    (by decide) (by decide) (by decide) (by decide)).2

/-- In `dotsWorld`, where a descent into `.` or `..` would find `trap.txt`, the
listing of the root with `maxDepth` 3 opens the root only and sends two bare
line breaks and the link of `a.txt`. -/
theorem dots_listing :
    (ListDirectory dotsWorld "/".toList 0 3).calls
      = [Call.opendir "/usb/".toList true, Call.closedir] ∧
    (ListDirectory dotsWorld "/".toList 0 3).resp
      = [lineBreak, lineBreak, lineBreak,
         Resp.send_chunk (fileLink "/a.txt".toList "a.txt".toList "a.txt".toList)] := by
  decide

/-! ## Listing: the depth the client asks for -/

theorem FindPostDataLen_value (value tail : List Char)
    (ht : tail = [] ∨ tail.head? = some NULLCH ∨ tail.head? = some '&')
    (h0 : NULLCH ∉ value) (hamp : '&' ∉ value) :
    FindPostDataLen (value ++ tail) = value.length := by
  have hchr : strchr (value ++ tail) '&' = none ∧ strlen (value ++ tail) = value.length ∨
      strchr (value ++ tail) '&' = some tail := by
    induction value with
    | nil =>
      rw [List.nil_append]
      rcases ht with rfl | ht | ht
      · exact Or.inl ⟨rfl, rfl⟩
      · cases tail with
        | nil => exact Or.inl ⟨rfl, rfl⟩
        | cons c t =>
          simp only [List.head?_cons, Option.some.injEq] at ht
          subst ht
          left
          refine ⟨?_, ?_⟩
          · unfold strchr
            rw [if_neg (by decide), if_pos rfl]
          · simp [strlen, cstr]
      · cases tail with
        | nil => exact Or.inl ⟨rfl, rfl⟩
        | cons c t =>
          simp only [List.head?_cons, Option.some.injEq] at ht
          subst ht
          right
          unfold strchr
          rw [if_pos rfl]
    | cons c rest ih =>
      have hc0 : c ≠ NULLCH := fun h => h0 (by simp [h])
      have hcamp : c ≠ '&' := fun h => hamp (by simp [h])
      have hr0 : NULLCH ∉ rest := fun h => h0 (List.mem_cons_of_mem _ h)
      have hramp : '&' ∉ rest := fun h => hamp (List.mem_cons_of_mem _ h)
      rw [List.cons_append]
      rcases ih hr0 hramp with ⟨h1, h2⟩ | h1
      · left
        refine ⟨?_, ?_⟩
        · unfold strchr
          rw [if_neg hcamp, if_neg hc0]
          exact h1
        · unfold strlen cstr at h2 ⊢
          rw [List.takeWhile_cons_of_pos (by simpa using hc0), List.length_cons, h2,
            List.length_cons]
      · right
        unfold strchr
        rw [if_neg hcamp, if_neg hc0]
        exact h1
  unfold FindPostDataLen
  rcases hchr with ⟨h1, h2⟩ | h1
  · rw [h1]
    exact h2
  · rw [h1]
    simp only [List.length_append]
    omega

/-- A payload without `%`: `ParsePostData` stores one byte more than the raw
length of the field, whatever the payload. -/
theorem plain_payload_stored (d : Int) (data key value tail : List Char)
    (hfind : FindPostData data key = some (value ++ tail))
    (ht : tail = [] ∨ tail.head? = some NULLCH ∨ tail.head? = some '&')
    (h0 : NULLCH ∉ value) (hamp : '&' ∉ value) (hpct : '%' ∉ value) :
    (FindPostData data key).map FindPostDataLen = some value.length ∧
    ParsePostData.stored d data key = some (value.length + 1) := by
  refine ⟨?_, ?_⟩
  · rw [hfind, Option.map_some', FindPostDataLen_value value tail ht h0 hamp]
  · have hp : ParsePostData d data key = some value := by
      unfold ParsePostData
      rw [hfind]
      simp only [Option.some.injEq]
      exact loop_percentDecode d tail ht value.length value value (Nat.le_refl _) h0 hamp
        (percentDecode_plain value hpct)
    unfold ParsePostData.stored
    rw [hp]
    rfl

/-- C24: the chunk `datachunk=AAAA` (three zero bytes) is accepted with `OK`;
its field has raw length 4, so `b64Data` is `malloc(4)`, and `ParsePostData`
stores 5 bytes into it, the four characters and the terminating NUL. -/
theorem payload_overruns_b64Data :
    ChunkHandler.b64Size (ChunkHandler.postData sampleEnv
        (postRequest "index=0&chunksize=3&datalen=3&filename=F&datachunk=AAAA")) = some 4 ∧
    ParsePostData.stored sampleEnv.digit (ChunkHandler.postData sampleEnv
        (postRequest "index=0&chunksize=3&datalen=3&filename=F&datachunk=AAAA"))
      "datachunk".toList = some 5 ∧
    (ChunkHandler sampleEnv mountedWorld
        (postRequest "index=0&chunksize=3&datalen=3&filename=F&datachunk=AAAA")).resp
      = [Resp.send "OK".toList] ∧
    (ChunkHandler sampleEnv mountedWorld
        (postRequest "index=0&chunksize=3&datalen=3&filename=F&datachunk=AAAA")).world.files
      "/usb/F".toList = some [0, 0, 0] := by
  decide

/-! ## POST data: a `%` at the end of the body -/

/-- C25: for the body `k=%`, a `%` as its last character, what `ParsePostData`
yields depends on the bytes that follow the terminating NUL: after the `%` it
steps over three characters, the NUL among them, and copies what it finds
behind (`AB`, `CD`); the same with one character after the `%` (`k=%4`); and in
`k=%a&x=1` it steps over the `&` and copies the next pair. -/
theorem scan_runs_past_terminator :
    ParsePostData 0 ("k=%".toList ++ NULLCH :: "zAB".toList) "k".toList
      = some [NULLCH, 'A', 'B'] ∧
    ParsePostData 0 ("k=%".toList ++ NULLCH :: "zCD".toList) "k".toList
      = some [NULLCH, 'C', 'D'] ∧
    ParsePostData 0 ("k=%4".toList ++ NULLCH :: "AB".toList) "k".toList
      = some [Char.ofNat 4, 'A', 'B'] ∧
    ParsePostData 0 "k=%a&x=1".toList "k".toList = some [Char.ofNat 10, 'x', '=', '1'] := by
  decide

/-! ## Upload: the file position -/

/-- For a product below 2^32 the file position is the product. -/
theorem intToSize_product (index chunkSize : Int) (hi : 0 ≤ index) (hc : 0 ≤ chunkSize)
    (hlt : index * chunkSize < 4294967296) :
    (intToSize (index * chunkSize) : Int) = index * chunkSize := by
  have h0 : 0 ≤ index * chunkSize := Int.mul_nonneg hi hc
  unfold intToSize
  rw [Int.emod_eq_of_lt h0 hlt, Int.toNat_of_nonneg h0]

/-- C26: for `index=4194304` and `chunksize=1024`, both read by `atoi` as they
stand, the product is 4294967296 and `ChunkHandler` seeks to position 0; for
`index=2097152` and `chunksize=1024` the product is above `INT_MAX`, so the
`int` multiplication overflows. -/
theorem file_position_wraps :
    atoi "4194304".toList * atoi "1024".toList = 4294967296 ∧
    (ChunkHandler sampleEnv mountedWorld
        (postRequest "index=4194304&chunksize=1024&datalen=2&filename=F&datachunk=eHk%3D")).calls
      = [Call.fopen "/usb/F".toList "ab".toList true, Call.fseek 0, Call.fwrite [120, 121] 2,
         Call.fflush, Call.fclose] ∧
    INT_MAX < atoi "2097152".toList * atoi "1024".toList := by
  decide

/-! ## Upload: replies that the fields of the request do not explain -/

/-- C17, the code at the failing input: on a platform that reads the time stamp
`1970-01-01T00:00:00Z` and no other, three requests for chunk 0 of `F` with the same
`index`, `chunksize`, `datalen`, `filename` and `datachunk` fields.  The one whose
`timestamp` is `datalen=9`, which parses under neither format, is rejected with
`Decoded length does not match payload length` and leaves `/usb/F` as it was, because
the search for `datalen` stops inside the timestamp value and reads `3D9`; the ones with
the readable timestamp and with no timestamp are answered `OK` and store the two bytes. -/
theorem unreadable_timestamp_fails_chunk :
    (formField
        "timestamp=datalen%3D9&index=0&chunksize=2&datalen=2&filename=F&datachunk=eHk%3D".toList
        "timestamp".toList).bind percentDecode = some "datalen=9".toList ∧
    epochEnv.strptime "datalen=9".toList "%Y-%m-%dT%H:%M:%S%Z".toList = none ∧
    epochEnv.strptime "datalen=9".toList "%Y-%m-%dT%H:%M:%S%z".toList = none ∧
    (∀ key ∈ ["index".toList, "chunksize".toList, "datalen".toList, "filename".toList,
        "datachunk".toList],
      formField
          "timestamp=datalen%3D9&index=0&chunksize=2&datalen=2&filename=F&datachunk=eHk%3D".toList
          key
        = formField
          "timestamp=1970-01-01T00%3A00%3A00Z&index=0&chunksize=2&datalen=2&filename=F&datachunk=eHk%3D".toList
          key ∧
      formField
          "timestamp=datalen%3D9&index=0&chunksize=2&datalen=2&filename=F&datachunk=eHk%3D".toList
          key
        = formField "index=0&chunksize=2&datalen=2&filename=F&datachunk=eHk%3D".toList key) ∧
    ParsePostData epochEnv.digit
        (ChunkHandler.postData epochEnv (postRequest
          "timestamp=datalen%3D9&index=0&chunksize=2&datalen=2&filename=F&datachunk=eHk%3D"))
        "datalen".toList = some "3D9".toList ∧
    (ChunkHandler epochEnv mountedWorld (postRequest
      "timestamp=datalen%3D9&index=0&chunksize=2&datalen=2&filename=F&datachunk=eHk%3D")).overrun
      = false ∧
    (ChunkHandler epochEnv mountedWorld (postRequest
      "timestamp=datalen%3D9&index=0&chunksize=2&datalen=2&filename=F&datachunk=eHk%3D")).resp
      = [Resp.send_err HTTPD_500_INTERNAL_SERVER_ERROR
          "Decoded length does not match payload length".toList] ∧
    (ChunkHandler epochEnv mountedWorld (postRequest
      "timestamp=datalen%3D9&index=0&chunksize=2&datalen=2&filename=F&datachunk=eHk%3D")).world.files
        "/usb/F".toList = some [65, 66, 67, 68, 69, 70] ∧
    isOkReply (ChunkHandler epochEnv mountedWorld (postRequest
      "timestamp=1970-01-01T00%3A00%3A00Z&index=0&chunksize=2&datalen=2&filename=F&datachunk=eHk%3D")).resp ∧
    (ChunkHandler epochEnv mountedWorld (postRequest
      "timestamp=1970-01-01T00%3A00%3A00Z&index=0&chunksize=2&datalen=2&filename=F&datachunk=eHk%3D")).calls.filter
        Call.isClock = [Call.settimeofday 0] ∧
    (ChunkHandler epochEnv mountedWorld (postRequest
      "timestamp=1970-01-01T00%3A00%3A00Z&index=0&chunksize=2&datalen=2&filename=F&datachunk=eHk%3D")).world.files
        "/usb/F".toList = some [120, 121] ∧
    isOkReply (ChunkHandler epochEnv mountedWorld (postRequest
      "index=0&chunksize=2&datalen=2&filename=F&datachunk=eHk%3D")).resp ∧
    (ChunkHandler epochEnv mountedWorld (postRequest
      "index=0&chunksize=2&datalen=2&filename=F&datachunk=eHk%3D")).world.files
        "/usb/F".toList = some [120, 121] := by
  decide

/-- C19, the code at two failing inputs.  The `datachunk` field of the request
`index=0&chunksize=2&datalen=2&filename=datachunkX&datachunk=eHk%3D` is `eHk=`, the two
bytes `xy`: `ChunkHandler` finds the word `datachunk` inside the value of `filename`,
takes the field for empty and replies `OK` without a call of `fopen` or `fwrite`, the
file `/usb/datachunkX` not existing afterwards.  And on a device that takes no byte the
request `index=0&chunksize=2&datalen=2&filename=F&datachunk=eHk%3D` is answered `OK`
after `fwrite` returned 2: `fflush` returns `EOF`, its result is not looked at, and the
file `/usb/F`, truncated by `fopen`, holds no byte. -/
theorem ok_without_stored_bytes :
    (formField "index=0&chunksize=2&datalen=2&filename=datachunkX&datachunk=eHk%3D".toList
      "datachunk".toList).bind percentDecode = some "eHk=".toList ∧
    (mbedtls_base64_decode false 2 "eHk=".toList 4).out = [120, 121] ∧
    (ChunkHandler sampleEnv mountedWorld (postRequest
      "index=0&chunksize=2&datalen=2&filename=datachunkX&datachunk=eHk%3D")).overrun = false ∧
    isOkReply (ChunkHandler sampleEnv mountedWorld (postRequest
      "index=0&chunksize=2&datalen=2&filename=datachunkX&datachunk=eHk%3D")).resp ∧
    (ChunkHandler sampleEnv mountedWorld (postRequest
      "index=0&chunksize=2&datalen=2&filename=datachunkX&datachunk=eHk%3D")).calls = [] ∧
    (ChunkHandler sampleEnv mountedWorld (postRequest
      "index=0&chunksize=2&datalen=2&filename=datachunkX&datachunk=eHk%3D")).world.files
        "/usb/datachunkX".toList = none ∧
    (ChunkHandler fullDeviceEnv mountedWorld (postRequest
      "index=0&chunksize=2&datalen=2&filename=F&datachunk=eHk%3D")).overrun = false ∧
    isOkReply (ChunkHandler fullDeviceEnv mountedWorld (postRequest
      "index=0&chunksize=2&datalen=2&filename=F&datachunk=eHk%3D")).resp ∧
    (ChunkHandler fullDeviceEnv mountedWorld (postRequest
      "index=0&chunksize=2&datalen=2&filename=F&datachunk=eHk%3D")).calls
      = [Call.fopen "/usb/F".toList "wb".toList true, Call.fseek 0, Call.fwrite [120, 121] 2,
         Call.fflush, Call.fclose] ∧
    (fflush fullDeviceEnv.fflush_fail (setFile mountedWorld.files "/usb/F".toList [])
      { path := "/usb/F".toList, append := false, pos := 0, buffer := [120, 121] }).2.2 = EOF ∧
    (ChunkHandler fullDeviceEnv mountedWorld (postRequest
      "index=0&chunksize=2&datalen=2&filename=F&datachunk=eHk%3D")).world.files
        "/usb/F".toList = some [] := by
  decide

/-! ## Listing: a subdirectory that cannot be opened, and its siblings -/

/-- The chunks that the loop of `ListDirectory` sends for an entry other than `.` and
`..` hold the item of the entry. -/
theorem entry_shows_item (recurse : List Char → ListOutcome) (baseDir : List Char)
    (depth maxDepth : Int) (e : dirent) (hdot : e.isDot = false)
    (hn : NULLCH ∉ e.d_name) (hl : e.d_name.length ≤ MAX_DIR_LEN) :
    entryItem baseDir e ∈ (ListDirectory.entry recurse baseDir depth maxDepth e).1 := by
  by_cases hdir : e.d_type = DT_DIR
  · have hc := cstr_of_no_nul _ hn
    have hnd : ¬ (e.d_type = DT_DIR ∧ (cstr e.d_name = ".".toList ∨ cstr e.d_name = "..".toList)) := by
      rw [hc]
      simpa [dirent.isDot] using hdot
    have hitem := dirItem_eq e.d_name hn hl
    unfold dirItem at hitem
    unfold entryItem
    rw [if_pos hdir]
    unfold ListDirectory.entry
    rw [if_neg hnd]
    simp only [hdir, if_true]
    simp only [Resp.send_chunk.injEq] at hitem
    by_cases hm : maxDepth > 0
    · rw [if_pos hm]
      simp only [hitem]
      simp
    · rw [if_neg hm]
      simp only [hitem]
      simp
  · rw [entry_file recurse baseDir depth maxDepth e hdir hn hl]
    unfold entryItem
    rw [if_neg hdir]
    simp

/-- The chunks that the loop of `ListDirectory` sends for a run of entries hold the items
of the entries other than `.` and `..`, in the order of the entries. -/
theorem listed_shows_items (w : World) (baseDir : List Char) (depth maxDepth : Int)
    (entries : List dirent)
    (hnames : ∀ e ∈ entries, NULLCH ∉ e.d_name ∧ e.d_name.length ≤ MAX_DIR_LEN) :
    (entryItems baseDir entries).Sublist (listed w baseDir depth maxDepth entries) := by
  induction entries with
  | nil => exact List.Sublist.slnil
  | cons e rest ih =>
    have hrest := ih (fun x hx => hnames x (List.mem_cons_of_mem _ hx))
    rw [listed_cons]
    unfold entryItems at hrest ⊢
    cases hdot : e.isDot with
    | true =>
      rw [List.filter_cons_of_neg (by simp [hdot])]
      exact List.sublist_append_of_sublist_right hrest
    | false =>
      rw [List.filter_cons_of_pos (by simp [hdot]), List.map_cons]
      have hmem := entry_shows_item (fun d => ListDirectory w d (depth + 1) maxDepth) baseDir
        depth maxDepth e hdot (hnames e (List.mem_cons_self _ _)).1
        (hnames e (List.mem_cons_self _ _)).2
      exact List.Sublist.append (List.singleton_sublist.mpr hmem) hrest

/-- C18: when a subdirectory met by `ListDirectory` cannot be opened, the listing of its
parent still returns success and consists of the chunks for the entries before the
subdirectory, the item of the subdirectory followed by the two notices
`Could not open a subdirectory` and `Could not list subdirectory`, and the chunks for
the entries after it; and the chunks for the entries before and after hold the item of
every entry other than `.` and `..`, in order: the name of a directory in angle
brackets, the download link of a file.  So every sibling that follows the failing
subdirectory is still listed. -/
theorem unopenable_subdirectory_is_reported (w : World) (baseDir : List Char)
    (depth maxDepth : Int) (before after : List dirent) (sub : dirent)
    (hm : 0 < maxDepth) (hd : depth < maxDepth)
    (ho : w.dirs (MNT_PATH ++ cstr baseDir) = some (before ++ sub :: after))
    (hdir : sub.d_type = DT_DIR) (hdot : sub.isDot = false)
    (hsub : w.dirs (MNT_PATH ++ cstr (ListDirectory.newBaseDir baseDir sub.d_name)) = none)
    (hnames : ∀ e ∈ before ++ sub :: after,
      NULLCH ∉ e.d_name ∧ e.d_name.length ≤ MAX_DIR_LEN) :
    (ListDirectory w baseDir depth maxDepth).ret = true ∧
    (ListDirectory w baseDir depth maxDepth).resp
      = listed w baseDir depth maxDepth before
        ++ (lineBreak :: indentation depth
            ++ [entryItem baseDir sub,
                Resp.send_chunk "Could not open a subdirectory".toList,
                Resp.send_chunk "Could not list subdirectory".toList])
        ++ listed w baseDir depth maxDepth after ∧
    (entryItems baseDir before).Sublist (listed w baseDir depth maxDepth before) ∧
    (entryItems baseDir after).Sublist (listed w baseDir depth maxDepth after) := by
  have hsn := hnames sub (by simp)
  have hc := cstr_of_no_nul _ hsn.1
  have hdots : cstr sub.d_name ≠ ".".toList ∧ cstr sub.d_name ≠ "..".toList := by
    rw [hc]
    simpa [dirent.isDot, hdir] using hdot
  rw [ListDirectory_step w baseDir depth maxDepth _ (by omega) ho]
  refine ⟨rfl, ?_, ?_, ?_⟩
  · simp only []
    rw [listed_append, listed_cons,
      entry_dir _ baseDir depth maxDepth sub hdir hdots.1 hdots.2 hm,
      ListDirectory_closed w _ (depth + 1) maxDepth (by omega) hsub,
      dirItem_eq sub.d_name hsn.1 hsn.2]
    unfold entryItem
    rw [if_pos hdir]
    simp [ListError]
  · exact listed_shows_items w baseDir depth maxDepth before
      (fun e he => hnames e (List.mem_append_left _ he))
  · exact listed_shows_items w baseDir depth maxDepth after
      (fun e he => hnames e (List.mem_append_right _ (List.mem_cons_of_mem _ he)))

/-- Witness of `unopenable_subdirectory_is_reported`: in `brokenWorld` the directory
`gone` stands between `before.txt` and `after.txt`; the listing of the root is the link
of `before.txt`, the item of `gone` with the two notices, and the link of `after.txt`. -/
theorem unopenable_subdirectory_is_reported_witness :
    brokenWorld.dirs "/usb/gone/".toList = none ∧
    (entryItems "/".toList [{ d_name := "after.txt".toList, d_type := DT_REG }]).Sublist
      (listed brokenWorld "/".toList 0 1 [{ d_name := "after.txt".toList, d_type := DT_REG }]) ∧
    entryItems "/".toList [{ d_name := "after.txt".toList, d_type := DT_REG }]
      = [Resp.send_chunk (fileLink "/after.txt".toList "after.txt".toList "after.txt".toList)] ∧
    (ListDirectory brokenWorld "/".toList 0 1).resp
      = [lineBreak,
         Resp.send_chunk (fileLink "/before.txt".toList "before.txt".toList "before.txt".toList),
         lineBreak,
         Resp.send_chunk "&lt;gone&gt;".toList,
         Resp.send_chunk "Could not open a subdirectory".toList,
         Resp.send_chunk "Could not list subdirectory".toList,
         lineBreak,
         Resp.send_chunk (fileLink "/after.txt".toList "after.txt".toList "after.txt".toList)] :=
  ⟨by decide,
    (unopenable_subdirectory_is_reported brokenWorld "/".toList 0 1
      [{ d_name := "before.txt".toList, d_type := DT_REG }]
      [{ d_name := "after.txt".toList, d_type := DT_REG }]
      { d_name := "gone".toList, d_type := DT_DIR }
      (by decide) (by decide) (by decide) (by decide) (by decide) (by decide)
      (by decide)).2.2.2,
    by decide, by decide⟩

/-! ## The capacity of the buffers -/

set_option maxRecDepth 100000 in
/-- Requests that store past the end of a buffer, on a platform with a `BUFSIZ` of 128:
a payload with no escape in it, whose terminating NUL has no room in `b64Data`; a file
name of 128 characters, one more than `URLFile` holds before the NUL; a start directory
of 64 characters, one more than `startDir` holds before the NUL; and a `/select` body of
128 characters, whose terminating NUL is stored at `postData [BUFSIZ]`. -/
theorem overrun_requests :
    (ChunkHandler sampleEnv mountedWorld
      (postRequest "index=0&chunksize=3&datalen=3&filename=F&datachunk=AAAA")).overrun = true ∧
    (ChunkHandler sampleEnv mountedWorld
      { content := "index=0&chunksize=3&datalen=3&filename=".toList ++ List.replicate 128 'a'
          ++ "&datachunk=AAA%3D".toList,
        recv_fails := false, query := [] }).overrun = true ∧
    (SelectHandler sampleEnv deepWorld
      { content := "startdir=".toList ++ List.replicate 64 'd',
        recv_fails := false, query := [] }).overrun = true ∧
    (SelectHandler sampleEnv deepWorld
      { content := "startdir=%2F&depth=1&submit=".toList ++ List.replicate 100 'x',
        recv_fails := false, query := [] }).overrun = true ∧
    (SelectHandler sampleEnv deepWorld
      (postRequest "startdir=%2F&recursive=on&depth=9")).overrun = false := by
  decide

end UsbZone
